import Mathlib

/-!
Verification development for the gopds EPUB metadata/cover engine
(package scanner, file epub.go).  The Go source works on byte strings with
compiled regular expressions; here every regex used by the source is given a
faithful executable scanner over `List Char`, and the exported functions
(`metadataInnerBlock`, `extractFirstTagValue`, `setSingleTag`,
`rewriteOPFMetadata`, `findOPFPath`, `SaveCover`, `ListCoverOptions`,
`rewriteOPFCoverReference`, `UpdateEPUBMetadata`, `WriteCoverToEPUB`, ...)
are translated statement by statement.  Go standard-library routines that the
source calls (`html.UnescapeString`, `xml.EscapeText`, `strings.TrimSpace`,
`path/filepath` lexical functions) are modelled on the domain the source
exercises (ASCII case folding, the XML entities `xml.EscapeText` emits plus
the five basic named entities; `unicode.IsSpace` restricted to ASCII).
-/

set_option maxHeartbeats 1000000
set_option maxRecDepth 100000

namespace Gopds

abbrev Str := List Char

/-- String literal to char list. -/
def str (s : String) : Str := s.data

/-- ASCII lower casing (model of the case folding the source's
`(?i)` regex flag and `strings.ToLower` perform on the ASCII strings
involved). -/
def lc (c : Char) : Char :=
  if 'A' ≤ c && c ≤ 'Z' then Char.ofNat (c.toNat + 32) else c

def lowerStr (s : Str) : Str := s.map lc

/-- Regex `\w` class: `[0-9A-Za-z_]`. -/
def isWordChar (c : Char) : Bool :=
  ('a' ≤ c && c ≤ 'z') || ('A' ≤ c && c ≤ 'Z') || ('0' ≤ c && c ≤ '9') || c == '_'

/-- Regex `\s` class of RE2: `[\t\n\f\r ]`. -/
def reSpace (c : Char) : Bool :=
  c == ' ' || c == '\t' || c == '\n' || c == '\x0c' || c == '\r'

/-- `unicode.IsSpace` restricted to ASCII (used by `strings.TrimSpace`). -/
def goSpace (c : Char) : Bool :=
  c == ' ' || c == '\t' || c == '\n' || c == '\x0b' || c == '\x0c' || c == '\r'

/-- Model of `strings.TrimSpace`. -/
def trimSpace (s : Str) : Str :=
  ((s.dropWhile goSpace).reverse.dropWhile goSpace).reverse

/-- Case-insensitive "s begins with pat". -/
def startsWithCI : Str → Str → Bool
  | [], _ => true
  | _ :: _, [] => false
  | p :: ps, c :: cs => lc p == lc c && startsWithCI ps cs

/-- Case-sensitive "s begins with pat". -/
def startsWithCS : Str → Str → Bool
  | [], _ => true
  | _ :: _, [] => false
  | p :: ps, c :: cs => p == c && startsWithCS ps cs

/-- Model of `strings.Contains hay needle` (case sensitive). -/
def containsStr : Str → Str → Bool
  | s, needle =>
    if startsWithCS needle s then true
    else match s with
      | [] => false
      | _ :: cs => containsStr cs needle

/-- Model of `strings.HasSuffix`. -/
def hasSuffixCS (s suf : Str) : Bool := startsWithCS suf.reverse s.reverse

/-- Leftmost case-insensitive occurrence of `pat` in `s`:
returns the part before the occurrence and the part after it. -/
def firstSplitCI (pat : Str) : Str → Option (Str × Str)
  | [] => if startsWithCI pat [] then some ([], []) else none
  | c :: cs =>
    if startsWithCI pat (c :: cs) then some ([], List.drop pat.length (c :: cs))
    else (firstSplitCI pat cs).map fun p => (c :: p.1, p.2)

/-- Greedy `[^>]*` followed by a mandatory `>`: returns the run and the rest
after the `>`. -/
def takeToGt (s : Str) : Option (Str × Str) :=
  let run := s.takeWhile (fun c => !(c == '>'))
  match s.drop run.length with
  | c :: r => if c == '>' then some (run, r) else none
  | [] => none

/-- `[a-zA-Z_]`, the first character of a namespace prefix. -/
def nameStartChar (c : Char) : Bool :=
  ('a' ≤ c && c ≤ 'z') || ('A' ≤ c && c ≤ 'Z') || c == '_'

/-- `[\w.-]`, the tail characters of a namespace prefix. -/
def nameBodyChar (c : Char) : Bool := isWordChar c || c == '.' || c == '-'

/-- Backtracking alternatives (in priority order) for
`(?:[a-zA-Z_][\w.-]*:)?NAME` at the head of `s`; each element is the rest
after NAME.  The prefixed alternative is deterministic because `:` is not in
`[\w.-]`. -/
def optPrefixedRests (name : Str) (s : Str) : List Str :=
  (match s with
   | c :: rest =>
     if nameStartChar c then
       let run := rest.takeWhile nameBodyChar
       match rest.drop run.length with
       | d :: rest2 =>
         if d == ':' then
           if startsWithCI name rest2 then [rest2.drop name.length] else []
         else []
       | [] => []
     else []
   | [] => []) ++ (if startsWithCI name s then [s.drop name.length] else [])

/-- Single alternative for a literal NAME (no optional prefix). -/
def plainRests (name : Str) (s : Str) : List Str :=
  if startsWithCI name s then [s.drop name.length] else []

/-- The element-name part of each tag pattern of the source: either a
literal (e.g. `dc:title`, `title`, `manifest`) or a name with an optional
namespace prefix (`metadata`, `meta`, `item`). -/
inductive TagPat
  | plain (name : Str)
  | pfx (name : Str)
  deriving DecidableEq

def TagPat.rests : TagPat → Str → List Str
  | .plain n, s => plainRests n s
  | .pfx n, s => optPrefixedRests n s

def firstSome : List (Option α) → Option α
  | [] => none
  | some a :: _ => some a
  | none :: rest => firstSome rest

/-- Regex `\b` after an element name: next char is not a word char. -/
def boundaryOk : Str → Bool
  | [] => true
  | c :: _ => !(isWordChar c)

/-- Match `<NAME\b[^>]*>` at the head of `s`; returns the `[^>]*` run (the
attribute text) and the rest after `>`. -/
def openTagAt (p : TagPat) (s : Str) : Option (Str × Str) :=
  match s with
  | c :: r =>
    if c == '<' then
      firstSome ((p.rests r).map fun rest =>
        if boundaryOk rest then takeToGt rest else none)
    else none
  | [] => none

/-- Match `</NAME>` at the head of `s` (for `TagPat.pfx` this is
`</(?:[a-zA-Z_][\w.-]*:)?NAME>`); returns the rest after `>`. -/
def closeTagAt (p : TagPat) (s : Str) : Option Str :=
  match s with
  | c :: d :: r =>
    if c == '<' && d == '/' then
      firstSome ((p.rests r).map fun rest =>
        match rest with
        | e :: r2 => if e == '>' then some r2 else none
        | [] => none)
    else none
  | _ => none

/-- Leftmost close-tag match in `s`: returns the text before it and the rest
after it. -/
def findClose (p : TagPat) : Str → Option (Str × Str)
  | [] => none
  | c :: cs =>
    match closeTagAt p (c :: cs) with
    | some rest => some ([], rest)
    | none => (findClose p cs).map fun q => (c :: q.1, q.2)

structure ElemAtM where
  attrs : Str
  openLen : Nat
  inner : Str
  post : Str        -- from the closing tag on
  afterClose : Str  -- after the closing tag (where scanning resumes)
  deriving DecidableEq

/-- Match `<NAME\b[^>]*>(.*?)</NAME>` at the head of `s`: returns the
attribute text, the length of the opening tag, the (non-greedy) inner text,
the rest starting at the closing tag, and the rest after the closing tag. -/
def elemAt (p : TagPat) (s : Str) : Option ElemAtM :=
  (openTagAt p s).bind fun q =>
    (findClose p q.2).map fun w =>
      ⟨q.1, s.length - q.2.length, w.1, q.2.drop w.1.length, w.2⟩

structure ElemMatch where
  pre : Str      -- everything before the inner span (ends with the open tag)
  attrs : Str
  inner : Str
  post : Str     -- everything from the close tag on
  deriving DecidableEq

/-- Leftmost full element match in `s` (the semantics of
`FindSubmatchIndex` for the element regexes of the source). -/
def findElem (p : TagPat) : Str → Option ElemMatch
  | [] => none
  | c :: cs =>
    match elemAt p (c :: cs) with
    | some m => some ⟨List.take m.openLen (c :: cs), m.attrs, m.inner, m.post⟩
    | none => (findElem p cs).map fun m => { m with pre := c :: m.pre }

/-- Fuelled `ReplaceAll` with the empty string for an element regex
(`<NAME\b[^>]*>.*?</NAME>`), together with the `Match` flag.  The wrapper
below passes `s.length` fuel, which suffices because every step consumes at
least one character. -/
def removeElemsF (p : TagPat) : Nat → Str → Str × Bool
  | 0, s => (s, false)
  | _ + 1, [] => ([], false)
  | fuel + 1, c :: cs =>
    match elemAt p (c :: cs) with
    | some m =>
      let q := removeElemsF p fuel m.afterClose
      (q.1, true)
    | none =>
      let q := removeElemsF p fuel cs
      (c :: q.1, q.2)

def removeElems (p : TagPat) (s : Str) : Str × Bool := removeElemsF p s.length s

/-- Fuelled `FindAllSubmatch` for an element regex: the list of
(attribute text, inner text) pairs of the successive non-overlapping
leftmost matches. -/
def findAllElemsF (p : TagPat) : Nat → Str → List (Str × Str)
  | 0, _ => []
  | _ + 1, [] => []
  | fuel + 1, c :: cs =>
    match elemAt p (c :: cs) with
    | some m => (m.attrs, m.inner) :: findAllElemsF p fuel m.afterClose
    | none => findAllElemsF p fuel cs

def findAllElems (p : TagPat) (s : Str) : List (Str × Str) :=
  findAllElemsF p s.length s

/-- Match a single (self-contained) tag `<NAME\b[^>]*?/?>` at the head of
`s`.  Both the non-greedy `[^>]*?/?>` of the source's `metaTagRe`/`itemRe`
and the greedy `[^>]*)/?>` of its meta regex end at the first `>`, so one
matcher serves both; returns (attribute text, whole tag text, rest). -/
def singleTagAt (p : TagPat) (s : Str) : Option (Str × Str × Str) :=
  (openTagAt p s).map fun q =>
    (q.1, s.take (s.length - q.2.length), q.2)

/-- Fuelled `FindAllSubmatch` for the single-tag regex
`<(?:[a-zA-Z_][\w.-]*:)?meta\b([^>]*)/?>`: attribute texts in order. -/
def findAllTagsF (p : TagPat) : Nat → Str → List Str
  | 0, _ => []
  | _ + 1, [] => []
  | fuel + 1, c :: cs =>
    match singleTagAt p (c :: cs) with
    | some (a, _, rest) => a :: findAllTagsF p fuel rest
    | none => findAllTagsF p fuel cs

def findAllTags (p : TagPat) (s : Str) : List Str := findAllTagsF p s.length s

/-- Fuelled `ReplaceAllFunc` for a single-tag regex: each matched tag text
is replaced by `f tag` (the source either keeps the tag or returns ""). -/
def replaceTagsF (p : TagPat) (f : Str → Str) : Nat → Str → Str
  | 0, s => s
  | _ + 1, [] => []
  | fuel + 1, c :: cs =>
    match singleTagAt p (c :: cs) with
    | some (_, tag, rest) => f tag ++ replaceTagsF p f fuel rest
    | none => c :: replaceTagsF p f fuel cs

def replaceTags (p : TagPat) (f : Str → Str) (s : Str) : Str :=
  replaceTagsF p f s.length s

/-- Does `name\s*=\s*Q NAME Q` (case-insensitive) match at the head of `s`?
(`Q` is the quote character.) -/
def nameEqAt (q : Char) (name : Str) (s : Str) : Bool :=
  if startsWithCI (str "name") s then
    match (s.drop 4).dropWhile reSpace with
    | d :: r2 =>
      if d == '=' then
        match r2.dropWhile reSpace with
        | e :: r3 =>
          e == q && startsWithCI name r3 &&
            (match r3.drop name.length with
             | g :: _ => g == q
             | [] => false)
        | [] => false
      else false
    | [] => false
  else false

/-- Does the attribute text contain `name\s*=\s*Q NAME Q`? -/
def containsNameEq (q : Char) (name : Str) : Str → Bool
  | [] => false
  | c :: cs => nameEqAt q name (c :: cs) || containsNameEq q name cs

/-- Match of the `setMetaNameContent` removal regex
`<(?:[a-zA-Z_][\w.-]*:)?meta\b[^>]*name\s*=\s*Q NAME Q[^>]*/?>` at the head
of `s` (the whole match ends at the first `>`); returns the rest. -/
def metaNameTagAt (q : Char) (name : Str) (s : Str) : Option Str :=
  (openTagAt (.pfx (str "meta")) s).bind fun w =>
    if containsNameEq q name w.1 then some w.2 else none

/-- Fuelled `ReplaceAll` with "" for the `setMetaNameContent` removal
regex, with the `Match` flag. -/
def removeMetaNameF (q : Char) (name : Str) : Nat → Str → Str × Bool
  | 0, s => (s, false)
  | _ + 1, [] => ([], false)
  | fuel + 1, c :: cs =>
    match metaNameTagAt q name (c :: cs) with
    | some rest =>
      let w := removeMetaNameF q name fuel rest
      (w.1, true)
    | none =>
      let w := removeMetaNameF q name fuel cs
      (c :: w.1, w.2)

def removeMetaName (q : Char) (name : Str) (s : Str) : Str × Bool :=
  removeMetaNameF q name s.length s

/-- Fuelled `ReplaceAll` with "" for `<[^>]+>` (markup stripping in
`cleanXMLValue`). -/
def stripTagsF : Nat → Str → Str
  | 0, s => s
  | _ + 1, [] => []
  | fuel + 1, c :: cs =>
    if c == '<' then
      let run := cs.takeWhile (fun d => !(d == '>'))
      if run.length == 0 then c :: stripTagsF fuel cs
      else
        match cs.drop run.length with
        | d :: r => if d == '>' then stripTagsF fuel r else c :: stripTagsF fuel cs
        | [] => c :: stripTagsF fuel cs
    else c :: stripTagsF fuel cs

def stripTags (s : Str) : Str := stripTagsF s.length s

def isDigitChar (c : Char) : Bool := '0' ≤ c && c ≤ '9'

def isHexChar (c : Char) : Bool :=
  isDigitChar c || ('a' ≤ c && c ≤ 'f') || ('A' ≤ c && c ≤ 'F')

def hexVal (c : Char) : Nat :=
  if isDigitChar c then c.toNat - '0'.toNat
  else if 'a' ≤ c && c ≤ 'f' then c.toNat - 'a'.toNat + 10
  else if 'A' ≤ c && c ≤ 'F' then c.toNat - 'A'.toNat + 10
  else 0

def digitsToNat (base : Nat) (val : Char → Nat) (ds : Str) : Nat :=
  ds.foldl (fun acc c => acc * base + val c) 0

def charOfCode (n : Nat) : Char :=
  if n.isValidChar then Char.ofNat n else '�'

/-- The five basic named entities (the subset of Go's HTML entity table
relevant to values produced by `xml.EscapeText`). -/
def namedEntities : List (Str × Char) :=
  [(str "amp;", '&'), (str "lt;", '<'), (str "gt;", '>'),
   (str "quot;", '"'), (str "apos;", '\'')]

/-- Parse one character/entity reference right after a `&`: numeric
(`&#NN;`, `&#xHH;`) or one of the basic named entities, returning the
decoded character and the rest. -/
def parseEntity (s : Str) : Option (Char × Str) :=
  match s with
  | c :: cs =>
    if c == '#' then
      match cs with
      | d :: ds =>
        if d == 'x' || d == 'X' then
          let hs := ds.takeWhile isHexChar
          if hs.length == 0 then none
          else
            match ds.drop hs.length with
            | e :: r => if e == ';' then some (charOfCode (digitsToNat 16 hexVal hs), r) else none
            | [] => none
        else
          let ns := cs.takeWhile isDigitChar
          if ns.length == 0 then none
          else
            match cs.drop ns.length with
            | e :: r => if e == ';' then some (charOfCode (digitsToNat 10 (fun c => c.toNat - '0'.toNat) ns), r) else none
            | [] => none
      | [] => none
    else
      firstSome (namedEntities.map fun q =>
        if startsWithCS q.1 s then some (q.2, s.drop q.1.length) else none)
  | [] => none

/-- Model of `html.UnescapeString` on the modelled entity set (fuelled). -/
def htmlUnescapeF : Nat → Str → Str
  | 0, s => s
  | _ + 1, [] => []
  | fuel + 1, c :: cs =>
    if c == '&' then
      match parseEntity cs with
      | some (ch, rest) => ch :: htmlUnescapeF fuel rest
      | none => c :: htmlUnescapeF fuel cs
    else c :: htmlUnescapeF fuel cs

def htmlUnescape (s : Str) : Str := htmlUnescapeF s.length s

/-- Model of `xml.EscapeText` (per character; invalid-XML character
replacement is outside the modelled domain). -/
def escChar (c : Char) : Str :=
  if c == '"' then str "&#34;"
  else if c == '\'' then str "&#39;"
  else if c == '&' then str "&amp;"
  else if c == '<' then str "&lt;"
  else if c == '>' then str "&gt;"
  else if c == '\t' then str "&#x9;"
  else if c == '\n' then str "&#xA;"
  else if c == '\r' then str "&#xD;"
  else [c]

def xmlEscapeText (s : Str) : Str := (s.map escChar).flatten

/-- `xmlEscape` of the source (the `bytes.Buffer` write cannot fail, so the
error return is always nil). -/
def xmlEscape (s : Str) : Str := xmlEscapeText s

/-- Match `\bKEY\s*=\s*Q(.*?)Q` at the head of `s` (the leading `\b` is
checked by the caller); returns the captured value. -/
def attrAtQ (q : Char) (key : Str) (s : Str) : Option Str :=
  if startsWithCI key s then
    match (s.drop key.length).dropWhile reSpace with
    | d :: r2 =>
      if d == '=' then
        match r2.dropWhile reSpace with
        | e :: r3 =>
          if e == q then (firstSplitCI [q] r3).map (fun w => w.1) else none
        | [] => none
      else none
    | [] => none
  else none

/-- Leftmost match of `\bKEY\s*=\s*Q(.*?)Q` in `s`; `prevW` tracks whether
the previous character was a word character (for the `\b`). -/
def findAttrQ (q : Char) (key : Str) : Bool → Str → Option Str
  | _, [] => none
  | prevW, c :: cs =>
    match (if prevW then none else attrAtQ q key (c :: cs)) with
    | some v => some v
    | none => findAttrQ q key (isWordChar c) cs

/-- `extractAttrValue` of the source: double-quoted form first, then
single-quoted, else "". -/
def extractAttrValue (attrs : Str) (key : Str) : Str :=
  match findAttrQ '"' key false attrs with
  | some v => v
  | none =>
    match findAttrQ '\'' key false attrs with
    | some v => v
    | none => []

/-! ### The embedded program: metadata read and write path -/

/-- Error values of the engine.  The source uses a mix of sentinel errors
(`errMetadataTagNotFound`), `fmt.Errorf` values and I/O errors; each
distinct error site gets a constructor.  `reread e` wraps an error returned
by the `ExtractLiveMetadata` call made after the rename in
`UpdateEPUBMetadata`. -/
inductive GErr
  | metadataTagNotFound
  | opfNotFound
  | containerDecode
  | zipOpen
  | ioCreateTemp
  | ioCreateHeader
  | ioEntryOpen
  | ioCopy
  | ioWriterClose
  | ioTempClose
  | ioRename
  | manifestNotFound
  | opfMissingDuringRewrite
  | opfDecode
  | imageDecode
  | entryNotFound
  | invalidCoverPath
  | coverNotFound
  | reread (e : GErr)
  deriving DecidableEq

/-- The sentinel `errMetadataTagNotFound` ("metadata section not found in
OPF").  The source returns this same value both when the `<metadata>` block
is missing and when a metadata update changed nothing. -/
def errMetadataTagNotFound : GErr := .metadataTagNotFound

def metadataPat : TagPat := .pfx (str "metadata")
def metaPat : TagPat := .pfx (str "meta")
def itemPat : TagPat := .pfx (str "item")
def manifestPat : TagPat := .plain (str "manifest")

def dcName (tag : Str) : Str := str "dc:" ++ tag

/-- `metadataInnerBlock`: leftmost
`<(?:[a-zA-Z_][\w.-]*:)?metadata\b[^>]*>(.*?)</(?:[a-zA-Z_][\w.-]*:)?metadata>`
match.  `pre`/`post` play the role of the source's `content[:start]` and
`content[end:]`. -/
def metadataInnerBlock (content : Str) : Except GErr ElemMatch :=
  match findElem metadataPat content with
  | some m => .ok m
  | none => .error errMetadataTagNotFound

def extractMetadataBlock (content : Str) : Except GErr Str :=
  (metadataInnerBlock content).map (fun m => m.inner)

/-- `cleanXMLValue`: trim, strip `<[^>]+>`, HTML-unescape, trim. -/
def cleanXMLValue (s : Str) : Str :=
  let s := trimSpace s
  if s = [] then []
  else trimSpace (htmlUnescape (stripTags s))

/-- `extractFirstTagValue`: `dc:`-qualified pattern first, then the bare
pattern, first match wins. -/
def extractFirstTagValue (metadata : Str) (tag : Str) : Str :=
  match findElem (.plain (dcName tag)) metadata with
  | some m => cleanXMLValue m.inner
  | none =>
    match findElem (.plain tag) metadata with
    | some m => cleanXMLValue m.inner
    | none => []

/-- The dedup/clean fold of `extractAllTagValues` (seen-set as a list). -/
def cleanDedupLoop (seen : List Str) : List Str → List Str
  | [] => []
  | raw :: rest =>
    let v := cleanXMLValue raw
    if v = [] then cleanDedupLoop seen rest
    else if seen.contains v then cleanDedupLoop seen rest
    else v :: cleanDedupLoop (v :: seen) rest

/-- `extractAllTagValues`: all matches of both tag forms, cleaned,
deduplicated by cleaned value, first-seen order. -/
def extractAllTagValues (metadata : Str) (tag : Str) : List Str :=
  let ms := (findAllElems (.plain (dcName tag)) metadata
             ++ findAllElems (.plain tag) metadata).map (fun m => m.2)
  cleanDedupLoop [] ms

def identifierMatches (metadata : Str) : List (Str × Str) :=
  findAllElems (.plain (str "dc:identifier")) metadata
    ++ findAllElems (.plain (str "identifier")) metadata

/-- The accumulator loop of `extractPreferredIdentifier`. -/
def prefIdLoop (first : Str) : List (Str × Str) → Str
  | [] => first
  | (attrs, raw) :: rest =>
    let a := lowerStr attrs
    let value := cleanXMLValue raw
    if value = [] then prefIdLoop first rest
    else
      let first := if first = [] then value else first
      if containsStr a (str "isbn") || containsStr (lowerStr value) (str "isbn") then value
      else prefIdLoop first rest

/-- `extractPreferredIdentifier`: over all `dc:identifier` then bare
`identifier` matches, return the first non-empty value whose attributes or
value contain "isbn" (case-insensitively), else the first non-empty
value. -/
def extractPreferredIdentifier (metadata : Str) : Str :=
  prefIdLoop [] (identifierMatches metadata)

/-- The loop of `extractMetaContentByName` over all
`<(?:[a-zA-Z_][\w.-]*:)?meta\b([^>]*)/?>` matches. -/
def metaLoop (name : Str) : List Str → Str
  | [] => []
  | attrs :: rest =>
    let metaName := trimSpace (lowerStr (extractAttrValue attrs (str "name")))
    if metaName = lowerStr name then
      cleanXMLValue (extractAttrValue attrs (str "content"))
    else metaLoop name rest

def extractMetaContentByName (metadata : Str) (name : Str) : Str :=
  metaLoop name (findAllTags metaPat metadata)

/-- `setSingleTag`.  The two removal patterns are tried in order
(`dc:`-qualified then bare); `foundPfx` remembers the first form seen. -/
def setSingleTag (metadata : Str) (tag : Str) (value : Str) (changed : Bool) :
    Str × Bool :=
  let value := trimSpace value
  let r1 := removeElems (.plain (dcName tag)) metadata
  let metadata := if r1.2 then r1.1 else metadata
  let changed := changed || r1.2
  let r2 := removeElems (.plain tag) metadata
  let metadata := if r2.2 then r2.1 else metadata
  let changed := changed || r2.2
  let foundPfx : Str := if r1.2 then dcName tag else if r2.2 then tag else []
  if foundPfx ≠ [] then
    if value ≠ [] then
      (metadata ++ str "\n<" ++ foundPfx ++ str ">" ++ xmlEscape value
        ++ str "</" ++ foundPfx ++ str ">", true)
    else (metadata, true)
  else if value ≠ [] then
    (metadata ++ str "\n<" ++ dcName tag ++ str ">" ++ xmlEscape value
      ++ str "</" ++ dcName tag ++ str ">", true)
  else (metadata, changed)

/-- The trim/dedup fold of `setMultiTag`. -/
def multiClean (seen : List Str) : List Str → List Str
  | [] => []
  | v :: rest =>
    let v := trimSpace v
    if v = [] then multiClean seen rest
    else if seen.contains v then multiClean seen rest
    else v :: multiClean (v :: seen) rest

/-- `setMultiTag`: remove both forms (the bare form, if present, overrides
the default `dc:` output form), then append one tag per cleaned value. -/
def setMultiTag (metadata : Str) (tag : Str) (values : List Str) (changed : Bool) :
    Str × Bool :=
  let r1 := removeElems (.plain (dcName tag)) metadata
  let metadata := if r1.2 then r1.1 else metadata
  let changed := changed || r1.2
  let r2 := removeElems (.plain tag) metadata
  let metadata := if r2.2 then r2.1 else metadata
  let pfx := if r2.2 then tag else dcName tag
  let changed := changed || r2.2
  let cleaned := multiClean [] values
  let out := metadata ++ (cleaned.map (fun v =>
    str "\n<" ++ pfx ++ str ">" ++ xmlEscape v ++ str "</" ++ pfx ++ str ">")).flatten
  (out, changed || !cleaned.isEmpty)

/-- `setMetaNameContent`: remove every `<meta ... name=Q NAME Q ...>` (both
quote forms), then append one double-quoted meta tag if the value is
non-empty. -/
def setMetaNameContent (metadata : Str) (name : Str) (value : Str) (changed : Bool) :
    Str × Bool :=
  let value := trimSpace value
  let r1 := removeMetaName '"' name metadata
  let metadata := if r1.2 then r1.1 else metadata
  let changed := changed || r1.2
  let r2 := removeMetaName '\'' name metadata
  let metadata := if r2.2 then r2.1 else metadata
  let changed := changed || r2.2
  if value ≠ [] then
    (metadata ++ str "\n<meta name=\"" ++ name ++ str "\" content=\""
       ++ xmlEscape value ++ str "\"/>", true)
  else (metadata, changed)

structure MetadataUpdate where
  title : Str := []
  creator : Str := []
  language : Str := []
  identifier : Str := []
  publisher : Str := []
  date : Str := []
  description : Str := []
  subjects : List Str := []
  series : Str := []
  seriesIndex : Str := []
  deriving DecidableEq

structure EPUBMetadata where
  title : Str
  author : Str
  language : Str
  identifier : Str
  publisher : Str
  date : Str
  description : Str
  subjects : List Str
  series : Str
  seriesIndex : Str
  deriving DecidableEq

/-- The ten sequential field mutations of `rewriteOPFMetadata`, with the
OR-folded `changed` flag. -/
def applyFieldMutations (inner : Str) (u : MetadataUpdate) : Str × Bool :=
  let w := setSingleTag inner (str "title") u.title false
  let w := setSingleTag w.1 (str "creator") u.creator w.2
  let w := setSingleTag w.1 (str "language") u.language w.2
  let w := setSingleTag w.1 (str "identifier") u.identifier w.2
  let w := setSingleTag w.1 (str "publisher") u.publisher w.2
  let w := setSingleTag w.1 (str "date") u.date w.2
  let w := setSingleTag w.1 (str "description") u.description w.2
  let w := setMultiTag w.1 (str "subject") u.subjects w.2
  let w := setMetaNameContent w.1 (str "calibre:series") u.series w.2
  let w := setMetaNameContent w.1 (str "calibre:series_index") u.seriesIndex w.2
  w

/-- `rewriteOPFMetadata`: locate the metadata inner block, apply the field
mutations, fail with the `errMetadataTagNotFound` sentinel when nothing
changed, else splice the new inner block back in place. -/
def rewriteOPFMetadata (opfContent : Str) (u : MetadataUpdate) : Except GErr Str :=
  match metadataInnerBlock opfContent with
  | .error e => .error e
  | .ok m =>
    let w := applyFieldMutations m.inner u
    if w.2 then .ok (m.pre ++ w.1 ++ m.post)
    else .error errMetadataTagNotFound

/-- The field-extraction part of `ExtractLiveMetadata`, applied to OPF
content (the zip-reading part is modelled in the archive layer). -/
def extractLiveFromOPF (opfContent : Str) : Except GErr EPUBMetadata :=
  (extractMetadataBlock opfContent).map fun mb =>
    { title := extractFirstTagValue mb (str "title")
      author := extractFirstTagValue mb (str "creator")
      language := extractFirstTagValue mb (str "language")
      identifier := extractPreferredIdentifier mb
      publisher := extractFirstTagValue mb (str "publisher")
      date := extractFirstTagValue mb (str "date")
      description := extractFirstTagValue mb (str "description")
      subjects := extractAllTagValues mb (str "subject")
      series := extractMetaContentByName mb (str "calibre:series")
      seriesIndex := extractMetaContentByName mb (str "calibre:series_index") }

/-! ### Specification-side definitions for the identifier-preference claim -/

/-- Does a match's attribute text or cleaned value contain "isbn"
(case-insensitively)? -/
def isbnMatch (m : Str × Str) : Bool :=
  containsStr (lowerStr m.1) (str "isbn")
    || containsStr (lowerStr (cleanXMLValue m.2)) (str "isbn")

def nonEmptyVal (m : Str × Str) : Bool := !(cleanXMLValue m.2 == [])

/-- Claim C6 exactly as the spec states it: the first identifier match
whose attributes or value contain "isbn", else the first non-empty match. -/
def claimedPreferredIdentifier (metadata : Str) : Str :=
  let ms := identifierMatches metadata
  match ms.find? isbnMatch with
  | some m => cleanXMLValue m.2
  | none =>
    match ms.find? nonEmptyVal with
    | some m => cleanXMLValue m.2
    | none => []

/-- Amended reading of C6: the "isbn" winner must additionally have a
non-empty cleaned value (the code skips empty-valued matches before the
isbn test). -/
def preferredIdentifierSpec (metadata : Str) : Str :=
  let ms := identifierMatches metadata
  match ms.find? (fun m => nonEmptyVal m && isbnMatch m) with
  | some m => cleanXMLValue m.2
  | none =>
    match ms.find? nonEmptyVal with
    | some m => cleanXMLValue m.2
    | none => []

/-- Concrete metadata block refuting C6 as stated: the first identifier is
ISBN-tagged in its attributes but has an empty value. -/
def c6Block : Str :=
  str "<dc:identifier opf:scheme=\"ISBN\"></dc:identifier><dc:identifier>12345</dc:identifier>"

instance {ε α : Type} [DecidableEq ε] [DecidableEq α] : DecidableEq (Except ε α) :=
  fun a b =>
    match a, b with
    | .ok x, .ok y =>
      match decEq x y with
      | isTrue h => isTrue (congrArg Except.ok h)
      | isFalse h => isFalse (fun hh => h (Except.noConfusion hh id))
    | .error x, .error y =>
      match decEq x y with
      | isTrue h => isTrue (congrArg Except.error h)
      | isFalse h => isFalse (fun hh => h (Except.noConfusion hh id))
    | .ok _, .error _ => isFalse (fun hh => Except.noConfusion hh)
    | .error _, .ok _ => isFalse (fun hh => Except.noConfusion hh)

/-! ### Archive entries and the container locator -/

/-- One zip entry: name plus (decompressed) content.  Content bytes are
modelled as characters. -/
structure ZEntry where
  name : Str
  data : Str
  deriving DecidableEq

def isContainerEntry (f : ZEntry) : Bool := f.name == str "META-INF/container.xml"

def opfSuffixCI (f : ZEntry) : Bool := hasSuffixCS (lowerStr f.name) (str ".opf")

/-- The type of the abstract `encoding/xml` decoder for `container.xml`:
the list of `rootfiles>rootfile/@full-path` values, or a decode error. -/
abbrev ContainerDec := Str → Except Unit (List Str)

/-- `findOPFPath`.  The entry-open step cannot fail in this model.  An
empty result path plays the role of "package not found" (callers turn it
into the "opf package document not found" error). -/
def findOPFPath (decodeContainer : ContainerDec) (files : List ZEntry) :
    Except GErr Str :=
  match files.find? isContainerEntry with
  | some f =>
    match decodeContainer f.data with
    | .error _ => .error .containerDecode
    | .ok (p :: _) => .ok p
    | .ok [] => .ok []
  | none =>
    match files.find? opfSuffixCI with
    | some f => .ok f.name
    | none => .ok []

/-- The `.opf`-suffix fallback strategy by itself. -/
def fallbackOPFPath (files : List ZEntry) : Except GErr Str :=
  match files.find? opfSuffixCI with
  | some f => .ok f.name
  | none => .ok []

/-- Claim C4 as stated: fall back to the `.opf`-suffix strategy whenever
the container entry is missing, malformed, or yields no rootfile path; the
result is the fallback path, or "package not found" (empty path) only when
neither strategy succeeds. -/
def claimedOPFPath (decodeContainer : ContainerDec) (files : List ZEntry) :
    Except GErr Str :=
  let viaContainer : Option Str :=
    match files.find? isContainerEntry with
    | some f =>
      match decodeContainer f.data with
      | .ok (p :: _) => if p == ([] : Str) then none else some p
      | _ => none
    | none => none
  match viaContainer with
  | some p => .ok p
  | none => fallbackOPFPath files

/-- Decode table used by the C4 counterexample: content "BAD" is malformed,
content "EMPTY" decodes to zero rootfiles. -/
def c4Decode (s : Str) : Except Unit (List Str) :=
  if s == str "BAD" then .error ()
  else if s == str "EMPTY" then .ok []
  else .ok [str "content.opf"]

def c4FilesMalformed : List ZEntry :=
  [⟨str "META-INF/container.xml", str "BAD"⟩, ⟨str "book.opf", str "x"⟩]

def c4FilesEmpty : List ZEntry :=
  [⟨str "META-INF/container.xml", str "EMPTY"⟩, ⟨str "book.opf", str "x"⟩]

/-! ### Lexical path functions (models of Go path/filepath on "/" paths) -/

def trimPrefixStr (pre s : Str) : Str :=
  if startsWithCS pre s then s.drop pre.length else s

/-- Split on '/': the list of path components. -/
def splitSlash : Str → List Str
  | [] => [[]]
  | c :: cs =>
    let rest := splitSlash cs
    if c == '/' then [] :: rest
    else
      match rest with
      | r :: rs => (c :: r) :: rs
      | [] => [[c]]

def joinSlash : List Str → Str
  | [] => []
  | [x] => x
  | x :: xs => x ++ '/' :: joinSlash xs

/-- The element-stack fold of `filepath.Clean` (stack kept reversed). -/
def cleanStep (rooted : Bool) (stack : List Str) (comp : Str) : List Str :=
  if comp = [] || comp = str "." then stack
  else if comp = str ".." then
    match stack with
    | [] => if rooted then [] else [str ".."]
    | top :: rest => if top = str ".." then comp :: stack else rest
  else comp :: stack

/-- Model of `filepath.Clean` for slash-separated paths. -/
def cleanPath (p : Str) : Str :=
  if p = [] then str "."
  else
    let rooted := p.take 1 == str "/"
    let stack := (splitSlash p).foldl (cleanStep rooted) []
    let body := joinSlash stack.reverse
    if rooted then
      '/' :: body
    else if body = [] then str "." else body

/-- Model of `filepath.Join` for two elements: empty elements are skipped,
then the result is cleaned. -/
def joinPath (a b : Str) : Str :=
  if a = [] then
    if b = [] then [] else cleanPath b
  else if b = [] then cleanPath a
  else cleanPath (a ++ '/' :: b)

/-- Model of `filepath.Dir`: everything before the final element,
cleaned. -/
def dirPath (p : Str) : Str :=
  cleanPath (p.reverse.dropWhile (fun c => !(c == '/'))).reverse

/-- Model of `filepath.Base`. -/
def basePath (p : Str) : Str :=
  if p = [] then str "."
  else
    let q := (p.reverse.dropWhile (fun c => c == '/')).reverse
    if q = [] then str "/"
    else (q.reverse.takeWhile (fun c => !(c == '/'))).reverse

def extGo : Str → Str → Str
  | [], _ => []
  | c :: rest, acc =>
    if c == '/' then []
    else if c == '.' then '.' :: acc
    else extGo rest (c :: acc)

/-- Model of `filepath.Ext`: the suffix from the final dot in the final
element. -/
def extPath (p : Str) : Str := extGo p.reverse []

/-- `normalizeZipPath`: backslashes to slashes, trim, strip "./", clean,
strip a leading "/", and map "." to "". -/
def normalizeZipPath (path : Str) : Str :=
  let p := path.map (fun c => if c == '\\' then '/' else c)
  let p := trimSpace p
  let p := trimPrefixStr (str "./") p
  let p := cleanPath p
  let p := trimPrefixStr (str "/") p
  if p = str "." then [] else p

/-- `mediaTypeFromPath`. -/
def mediaTypeFromPath (path : Str) : Str :=
  if lowerStr (extPath path) = str ".png" then str "image/png" else str "image/jpeg"

/-- `isPreferredCoverFilename`. -/
def isPreferredCoverFilename (path : Str) : Bool :=
  let base := lowerStr (trimSpace (basePath path))
  base == str "cover.jpg" || base == str "cover.jpeg" || base == str "cover.png"

/-- `readZipEntry`: first entry whose normalized name equals the normalized
path (the per-entry open/read steps cannot fail in this model). -/
def readZipEntry (files : List ZEntry) (path : Str) : Except GErr Str :=
  let target := normalizeZipPath path
  match files.find? (fun f => normalizeZipPath f.name == target) with
  | some f => .ok f.data
  | none => .error .entryNotFound

/-! ### OPF package-document model and cover heuristics -/

/-- A `<manifest><item .../>` entry as decoded into the source's `OPF`
struct. -/
structure ManifestItem where
  id : Str
  href : Str
  properties : Str
  mediaType : Str
  deriving DecidableEq

/-- A `<metadata><meta name content>` entry of the `OPF` struct. -/
structure MetaEntry where
  name : Str
  content : Str
  deriving DecidableEq

/-- The decoded `OPF` struct (only the fields the cover heuristics use). -/
structure OPFDoc where
  manifest : List ManifestItem
  meta : List MetaEntry
  deriving DecidableEq

/-- The type of the abstract `encoding/xml` decoder for OPF content. -/
abbrev OPFDec := Str → Except Unit OPFDoc

/-- `detectCurrentCoverZipPath`: preferred cover filename in the manifest,
else a `cover-image` property (case-insensitive here), else the EPUB-2
`<meta name="cover">` pointer. -/
def detectCurrentCoverZipPath (opf : OPFDoc) (opfDir : Str) : Str :=
  match opf.manifest.find? (fun item =>
      isPreferredCoverFilename (normalizeZipPath (joinPath opfDir item.href))) with
  | some item => normalizeZipPath (joinPath opfDir item.href)
  | none =>
    match opf.manifest.find? (fun item =>
        containsStr (lowerStr item.properties) (str "cover-image")) with
    | some item => normalizeZipPath (joinPath opfDir item.href)
    | none =>
      let coverID :=
        match opf.meta.find? (fun m => lowerStr (trimSpace m.name) == str "cover") with
        | some m => trimSpace m.content
        | none => []
      if coverID ≠ [] then
        match opf.manifest.find? (fun item => trimSpace item.id == coverID) with
        | some item => normalizeZipPath (joinPath opfDir item.href)
        | none => []
      else []

/-- `collectExistingCoverPaths` (the Go map modelled as a list; only
membership is ever used). -/
def collectExistingCoverPaths (opf : OPFDoc) (opfDir : Str) : List Str :=
  let fromManifest := opf.manifest.filterMap (fun item =>
    let p := normalizeZipPath (joinPath opfDir item.href)
    if p = [] then none
    else
      let lprops := lowerStr (trimSpace item.properties)
      if containsStr lprops (str "cover-image") || isPreferredCoverFilename p then
        some p
      else none)
  let current := detectCurrentCoverZipPath opf opfDir
  if current ≠ [] then fromManifest ++ [current] else fromManifest

/-- `relativeHrefFromOPFDir`. -/
def relativeHrefFromOPFDir (opfDir fullPath : Str) : Str :=
  let opfDir := normalizeZipPath opfDir
  let fullPath := normalizeZipPath fullPath
  if opfDir = [] || opfDir = str "." then fullPath
  else
    let pre := opfDir ++ ['/']
    if startsWithCS pre fullPath then fullPath.drop pre.length
    else basePath fullPath

/-- `isSuitableCoverDimension`.  The source computes
`float64(width)/float64(height)` and compares against 0.55 and 0.85; for
image-sized integers the correctly rounded double comparison coincides with
the exact rational comparison modelled here. -/
def isSuitableCoverDimension (width height : Nat) : Bool :=
  if width < 240 || height < 320 then false
  else 55 * height ≤ 100 * width && 100 * width ≤ 85 * height

structure CoverOption where
  zipPath : Str
  name : Str
  mediaType : Str
  width : Nat
  height : Nat
  isCurrent : Bool
  deriving DecidableEq

/-- The type of the abstract `image.DecodeConfig`: header-decoded
(width, height), or `none` on decode failure.  A zero dimension models the
source's `cfg.Width <= 0 || cfg.Height <= 0` rejection. -/
abbrev ImgCfgDec := Str → Option (Nat × Nat)

/-- The per-item body of the `ListCoverOptions` loop. -/
def coverOptionOf (files : List ZEntry) (decodeConfig : ImgCfgDec)
    (opfDir currentCoverPath : Str) (item : ManifestItem) : Option CoverOption :=
  let mt := lowerStr (trimSpace item.mediaType)
  if !(mt == str "image/jpeg" || mt == str "image/jpg" || mt == str "image/png") then
    none
  else
    let zipPath := normalizeZipPath (joinPath opfDir item.href)
    if zipPath = [] then none
    else
      match readZipEntry files zipPath with
      | .error _ => none
      | .ok raw =>
        match decodeConfig raw with
        | none => none
        | some (w, h) =>
          if w = 0 || h = 0 then none
          else some ⟨zipPath, basePath zipPath, mt, w, h, zipPath == currentCoverPath⟩

/-- The `all`/`suitable` accumulation of `ListCoverOptions`. -/
def listCoverLoop (files : List ZEntry) (decodeConfig : ImgCfgDec)
    (opfDir currentCoverPath : Str) :
    List ManifestItem → List CoverOption × List CoverOption
  | [] => ([], [])
  | item :: rest =>
    let r := listCoverLoop files decodeConfig opfDir currentCoverPath rest
    match coverOptionOf files decodeConfig opfDir currentCoverPath item with
    | none => r
    | some opt =>
      (opt :: r.1,
       if isSuitableCoverDimension opt.width opt.height then opt :: r.2 else r.2)

/-- `ListCoverOptions`: manifest images with decodable headers, the
portrait-suitability filter, and the fall back to the unfiltered list. -/
def ListCoverOptions (dec : ContainerDec) (decodeOPF : OPFDec)
    (decodeConfig : ImgCfgDec) (files : List ZEntry) :
    Except GErr (List CoverOption) :=
  match findOPFPath dec files with
  | .error e => .error e
  | .ok opfPath =>
    if opfPath = [] then .error .opfNotFound
    else
      match readZipEntry files opfPath with
      | .error e => .error e
      | .ok opfContent =>
        match decodeOPF opfContent with
        | .error _ => .error .opfDecode
        | .ok opf =>
          let opfDir := dirPath opfPath
          let currentCoverPath := detectCurrentCoverZipPath opf opfDir
          let r := listCoverLoop files decodeConfig opfDir currentCoverPath opf.manifest
          if r.2.length > 0 then .ok r.2 else .ok r.1

/-- The outcome of the bulk-scan cover locator: the sibling `cover.jpg`
next to the EPUB, or a zip entry (whose bytes `extractZipFile` copies to
the cover cache). -/
inductive CoverPick
  | externalFile
  | zipEntry (name : Str)
  deriving DecidableEq

/-- Strategy 3 predicate of `SaveCover`: name contains "cover" or "folder"
and ends in a recognized image extension (all case-insensitive). -/
def coverNameHeuristic (f : ZEntry) : Bool :=
  let low := lowerStr f.name
  (containsStr low (str "cover") || containsStr low (str "folder")) &&
    (hasSuffixCS low (str ".jpg") || hasSuffixCS low (str ".jpeg")
      || hasSuffixCS low (str ".png"))

/-- `SaveCover` (bulk-scan cover locator).  `sibling` models the
`os.Stat(dir/cover.jpg)` check succeeding on a non-directory; `zipOk`
models `zip.OpenReader` succeeding; `decOPF` models the strategy-4 OPF
decode, whose error the source ignores (a failed decode is a caller passing
the zero `OPFDoc`). -/
def SaveCover (sibling : Bool) (zipOk : Bool) (decOPF : Str → OPFDoc)
    (files : List ZEntry) : Except GErr CoverPick :=
  if sibling then .ok .externalFile
  else if !zipOk then .error .zipOpen
  else
    match files.find? (fun f => isPreferredCoverFilename f.name) with
    | some f => .ok (.zipEntry f.name)
    | none =>
      match files.find? coverNameHeuristic with
      | some f => .ok (.zipEntry f.name)
      | none =>
        match files.find? (fun f => hasSuffixCS f.name (str ".opf")) with
        | some fopf =>
          let opf := decOPF fopf.data
          let hrefProp :=
            match opf.manifest.find? (fun item =>
                containsStr item.properties (str "cover-image")) with
            | some item => item.href
            | none => []
          let coverHref :=
            if hrefProp = [] then
              let coverID :=
                match opf.meta.find? (fun m => m.name == str "cover") with
                | some m => m.content
                | none => []
              if coverID ≠ [] then
                match opf.manifest.find? (fun item => item.id == coverID) with
                | some item => item.href
                | none => []
              else []
            else hrefProp
          if coverHref ≠ [] then
            let baseDir := dirPath fopf.name
            let fullCoverPath := joinPath baseDir coverHref
            match files.find? (fun f =>
                f.name == fullCoverPath || f.name == coverHref) with
            | some f => .ok (.zipEntry f.name)
            | none => .error .coverNotFound
          else .error .coverNotFound
        | none => .error .coverNotFound

/-! ### Specification-side strategy list for the cover locator (C7) -/

def coverStrategy1 (sibling : Bool) : Option CoverPick :=
  if sibling then some .externalFile else none

def coverStrategy2 (files : List ZEntry) : Option CoverPick :=
  (files.find? (fun f => isPreferredCoverFilename f.name)).map
    (fun f => .zipEntry f.name)

def coverStrategy3 (files : List ZEntry) : Option CoverPick :=
  (files.find? coverNameHeuristic).map (fun f => .zipEntry f.name)

/-- Strategy 4: the OPF-declared cover (EPUB 3 `cover-image` property,
else the EPUB 2 `<meta name="cover">` pointer), resolved against the
archive. -/
def coverStrategy4 (decOPF : Str → OPFDoc) (files : List ZEntry) :
    Option CoverPick :=
  (files.find? (fun f => hasSuffixCS f.name (str ".opf"))).bind fun fopf =>
    let opf := decOPF fopf.data
    let viaProp :=
      (opf.manifest.find? (fun item =>
        containsStr item.properties (str "cover-image"))).bind fun i =>
          if i.href = [] then none else some i.href
    let viaMeta :=
      (opf.meta.find? (fun m => m.name == str "cover")).bind fun m =>
        if m.content = [] then none
        else
          (opf.manifest.find? (fun item => item.id == m.content)).bind fun i =>
            if i.href = [] then none else some i.href
    (viaProp <|> viaMeta).bind fun coverHref =>
      (files.find? (fun f =>
        f.name == joinPath (dirPath fopf.name) coverHref
          || f.name == coverHref)).map (fun f => .zipEntry f.name)

/-- First-success-wins over the four strategies. -/
def coverFirstWins (sibling : Bool) (decOPF : Str → OPFDoc)
    (files : List ZEntry) : Except GErr CoverPick :=
  match coverStrategy1 sibling with
  | some p => .ok p
  | none =>
    match coverStrategy2 files with
    | some p => .ok p
    | none =>
      match coverStrategy3 files with
      | some p => .ok p
      | none =>
        match coverStrategy4 decOPF files with
        | some p => .ok p
        | none => .error .coverNotFound

/-! ### Cover-reference normalization (`rewriteOPFCoverReference`) -/

/-- The keep-or-drop function applied to every `<meta ...>` tag of the
metadata block: drop it when its (trimmed, lowered) `name` attribute is
"cover". -/
def coverMetaKeep (tag : Str) : Str :=
  let name := lowerStr (trimSpace (extractAttrValue tag (str "name")))
  if name = str "cover" then [] else tag

/-- The keep-or-drop function applied to every `<item ...>` tag of the
manifest: drop prior cover items (by id, by `cover-image` property, or by
preferred cover filename). -/
def coverItemKeep (tag : Str) : Str :=
  let id := lowerStr (trimSpace (extractAttrValue tag (str "id")))
  let href := trimSpace (extractAttrValue tag (str "href"))
  let properties := lowerStr (trimSpace (extractAttrValue tag (str "properties")))
  if id = str "cover-image" || containsStr properties (str "cover-image")
      || isPreferredCoverFilename href then []
  else tag

/-- The canonical metadata cover marker appended by the cover writer. -/
def coverMarker : Str := str "\n<meta name=\"cover\" content=\"cover-image\"/>"

/-- The canonical manifest cover item appended by the cover writer. -/
def coverItemFor (canonicalHref : Str) : Str :=
  str "\n<item id=\"cover-image\" href=\"" ++ xmlEscape canonicalHref
    ++ str "\" media-type=\"image/jpeg\" properties=\"cover-image\"/>"

/-- `rewriteOPFCoverReference`: normalize the metadata block to a single
cover marker and the manifest to a single canonical cover item. -/
def rewriteOPFCoverReference (opfContent : Str) (canonicalHref : Str) :
    Except GErr Str :=
  match metadataInnerBlock opfContent with
  | .error e => .error e
  | .ok m =>
    let newMeta := replaceTags metaPat coverMetaKeep m.inner ++ coverMarker
    let updated := m.pre ++ newMeta ++ m.post
    match findElem manifestPat updated with
    | none => .error .manifestNotFound
    | some mm =>
      let kept := replaceTags itemPat coverItemKeep mm.inner
      .ok (mm.pre ++ kept ++ coverItemFor canonicalHref ++ mm.post)

/-! ### Archive rewriting models (`UpdateEPUBMetadata`, `WriteCoverToEPUB`)

The streaming loops are modelled with an injected-failure specification:
each I/O step that can fail in Go (`CreateTemp`, `CreateHeader`, entry
`Open`, `io.Copy`/`Write`, the two `Close` calls, `os.Rename`) is guarded
by a flag.  The outcome records the entries at the EPUB path afterwards,
whether a temp file remains next to it, and whether the rename over the
original happened.  The deferred cleanup removes the temp file on every
early return (`cleanupTemp` is only cleared after a successful rename), so
`tempRemains` is false in every branch; the file content changes only via
the rename. -/

structure FailSpec where
  createTempFail : Bool := false
  createHeaderFail : Nat → Bool := fun _ => false
  entryOpenFail : Nat → Bool := fun _ => false
  copyFail : Nat → Bool := fun _ => false
  appendFail : Bool := false
  writerCloseFail : Bool := false
  tempCloseFail : Bool := false
  renameFail : Bool := false

def noFail : FailSpec := {}

structure WriteOutcome (α : Type) where
  result : Except GErr α
  finalFile : List ZEntry
  tempRemains : Bool
  renamed : Bool

/-- Early return with deferred temp cleanup: original untouched, temp
removed. -/
def abortW (ar : List ZEntry) (e : GErr) : WriteOutcome α :=
  ⟨.error e, ar, false, false⟩

/-- `readOPFContent`: locate the package path, then find the entry by exact
name; the trailing "opf package document not found" error fires when the
path names no entry. -/
def readOPFContent (dec : ContainerDec) (files : List ZEntry) :
    Except GErr (Str × Str) :=
  match findOPFPath dec files with
  | .error e => .error e
  | .ok p =>
    if p = [] then .error .opfNotFound
    else
      match files.find? (fun f => f.name == p) with
      | some f => .ok (f.data, p)
      | none => .error .opfNotFound

/-- `ExtractLiveMetadata` on an already-opened archive. -/
def ExtractLiveMetadata (dec : ContainerDec) (files : List ZEntry) :
    Except GErr EPUBMetadata :=
  match readOPFContent dec files with
  | .error e => .error e
  | .ok w => extractLiveFromOPF w.1

/-- The entry-streaming loop of `UpdateEPUBMetadata` (`i` is the entry
index, used by the failure spec).  The OPF entry (matched by exact name) is
rewritten; every other entry is copied.  The copy flag also models the
`io.ReadAll`/`dst.Write` steps of the OPF branch. -/
def streamLoopMeta (fs : FailSpec) (opfPath : Str) (u : MetadataUpdate) :
    Nat → List ZEntry → Except GErr (List ZEntry)
  | _, [] => .ok []
  | i, f :: rest =>
    if fs.createHeaderFail i then .error .ioCreateHeader
    else if fs.entryOpenFail i then .error .ioEntryOpen
    else if f.name == opfPath then
      if fs.copyFail i then .error .ioCopy
      else
        match rewriteOPFMetadata f.data u with
        | .error e => .error e
        | .ok newContent =>
          (streamLoopMeta fs opfPath u (i + 1) rest).map
            (fun tail => ⟨f.name, newContent⟩ :: tail)
    else if fs.copyFail i then .error .ioCopy
    else (streamLoopMeta fs opfPath u (i + 1) rest).map (fun tail => f :: tail)

/-- `UpdateEPUBMetadata`: open, locate the package, stream to a temp file
with the OPF entry rewritten, close, atomically rename, then re-read the
metadata (an error in this final re-read is returned after the file has
already been replaced). -/
def UpdateEPUBMetadata (dec : ContainerDec) (fs : FailSpec)
    (archive : List ZEntry) (u : MetadataUpdate) (zipOk : Bool) :
    WriteOutcome EPUBMetadata :=
  if !zipOk then abortW archive .zipOpen
  else
    match findOPFPath dec archive with
    | .error e => abortW archive e
    | .ok opfPath =>
      if opfPath = [] then abortW archive .opfNotFound
      else if fs.createTempFail then abortW archive .ioCreateTemp
      else
        match streamLoopMeta fs opfPath u 0 archive with
        | .error e => abortW archive e
        | .ok written =>
          if fs.writerCloseFail then abortW archive .ioWriterClose
          else if fs.tempCloseFail then abortW archive .ioTempClose
          else if fs.renameFail then abortW archive .ioRename
          else
            match ExtractLiveMetadata dec written with
            | .error e => ⟨.error (.reread e), written, false, true⟩
            | .ok m => ⟨.ok m, written, false, true⟩

/-- The entry-streaming loop of `WriteCoverToEPUB`: the OPF entry and the
canonical cover entry (matched by normalized name) are replaced, entries in
`removePaths` are dropped, everything else is copied; the returned flags
record whether the OPF and the canonical cover entry were written. -/
def streamLoopCover (fs : FailSpec) (opfPath canon : Str)
    (removePaths : List Str) (updatedOPF rewritten : Str) :
    Nat → List ZEntry → Except GErr (List ZEntry × Bool × Bool)
  | _, [] => .ok ([], false, false)
  | i, f :: rest =>
    let normalized := normalizeZipPath f.name
    if normalized == normalizeZipPath opfPath then
      if fs.createHeaderFail i then .error .ioCreateHeader
      else if fs.copyFail i then .error .ioCopy
      else
        (streamLoopCover fs opfPath canon removePaths updatedOPF rewritten (i + 1) rest).map
          (fun w => (⟨f.name, updatedOPF⟩ :: w.1, true, w.2.2))
    else if normalized == canon then
      if fs.createHeaderFail i then .error .ioCreateHeader
      else if fs.copyFail i then .error .ioCopy
      else
        (streamLoopCover fs opfPath canon removePaths updatedOPF rewritten (i + 1) rest).map
          (fun w => (⟨f.name, rewritten⟩ :: w.1, w.2.1, true))
    else if removePaths.contains normalized then
      streamLoopCover fs opfPath canon removePaths updatedOPF rewritten (i + 1) rest
    else if fs.createHeaderFail i then .error .ioCreateHeader
    else if fs.entryOpenFail i then .error .ioEntryOpen
    else if fs.copyFail i then .error .ioCopy
    else
      (streamLoopCover fs opfPath canon removePaths updatedOPF rewritten (i + 1) rest).map
        (fun w => (f :: w.1, w.2.1, w.2.2))

/-- `WriteCoverToEPUB`.  `reenc` models `image.Decode` followed by
`jpeg.Encode` at quality 90 (`none` = "selected cover decode failed"); the
`media-type` passed to `encodeImageForMediaType` is the non-empty literal
"image/jpeg", so the PNG branch is unreachable at this call site. -/
def WriteCoverToEPUB (dec : ContainerDec) (dOPF : OPFDec)
    (reenc : Str → Option Str) (fs : FailSpec) (archive : List ZEntry)
    (selectedZipPath : Str) (zipOk : Bool) : WriteOutcome Unit :=
  if !zipOk then abortW archive .zipOpen
  else
    match findOPFPath dec archive with
    | .error e => abortW archive e
    | .ok opfPath =>
      if opfPath = [] then abortW archive .opfNotFound
      else
        match readZipEntry archive opfPath with
        | .error e => abortW archive e
        | .ok opfContent =>
          match dOPF opfContent with
          | .error _ => abortW archive .opfDecode
          | .ok opf =>
            let opfDir := dirPath opfPath
            let canon := normalizeZipPath (joinPath opfDir (str "cover.jpg"))
            let canonicalHref := relativeHrefFromOPFDir opfDir canon
            match rewriteOPFCoverReference opfContent canonicalHref with
            | .error e => abortW archive e
            | .ok updatedOPF =>
              match readZipEntry archive (normalizeZipPath selectedZipPath) with
              | .error e => abortW archive e
              | .ok selectedRaw =>
                match reenc selectedRaw with
                | none => abortW archive .imageDecode
                | some rewritten =>
                  if fs.createTempFail then abortW archive .ioCreateTemp
                  else
                    let removePaths := (collectExistingCoverPaths opf opfDir).filter
                      (fun p => !(p == canon))
                    match streamLoopCover fs opfPath canon removePaths updatedOPF
                        rewritten 0 archive with
                    | .error e => abortW archive e
                    | .ok w =>
                      if !w.2.1 then abortW archive .opfMissingDuringRewrite
                      else
                        let appended :=
                          if !w.2.2 then w.1 ++ [⟨canon, rewritten⟩] else w.1
                        if !w.2.2 && fs.appendFail then abortW archive .ioCreateHeader
                        else if fs.writerCloseFail then abortW archive .ioWriterClose
                        else if fs.tempCloseFail then abortW archive .ioTempClose
                        else if fs.renameFail then abortW archive .ioRename
                        else ⟨.ok (), appended, false, true⟩

/-- Errors the source can raise while streaming entries to the temporary
archive: entry header creation, entry open, copy/write, and (for metadata
writes) the field-mutation step, whose sentinel is
`errMetadataTagNotFound`. -/
def isStreamingErr : GErr → Bool
  | .ioCreateHeader => true
  | .ioEntryOpen => true
  | .ioCopy => true
  | .metadataTagNotFound => true
  | _ => false

def isRereadErr : GErr → Bool
  | .reread _ => true
  | _ => false

/-- Spec-side description of the metadata write's effect on one entry:
entries named `opfPath` get the rewritten OPF content, everything else is
untouched. -/
def replaceOPFEntry (opfPath : Str) (u : MetadataUpdate) (f : ZEntry) : ZEntry :=
  if f.name == opfPath then
    ⟨f.name, (rewriteOPFMetadata f.data u).toOption.getD f.data⟩
  else f

/-- Spec-side description of the cover write's effect on one streamed
entry. -/
def coverStreamFun (opfPath canon : Str) (removePaths : List Str)
    (updatedOPF rewritten : Str) (f : ZEntry) : Option ZEntry :=
  let normalized := normalizeZipPath f.name
  if normalized == normalizeZipPath opfPath then some ⟨f.name, updatedOPF⟩
  else if normalized == canon then some ⟨f.name, rewritten⟩
  else if removePaths.contains normalized then none
  else some f

/-! ### Concrete archives for the write-path claims (C2, C3, C10) -/

def cDec : ContainerDec := fun _ => .ok [str "OEBPS/content.opf"]

def cOPFdoc : Str :=
  str "<package><metadata><dc:title>Old</dc:title></metadata><manifest><item id=\"old\" href=\"old.png\" properties=\"cover-image\"/></manifest></package>"

def cMetaArchive : List ZEntry :=
  [⟨str "META-INF/container.xml", str "CNT"⟩, ⟨str "OEBPS/content.opf", cOPFdoc⟩]

def cCoverArchive : List ZEntry :=
  [⟨str "META-INF/container.xml", str "CNT"⟩,
   ⟨str "OEBPS/content.opf", cOPFdoc⟩,
   ⟨str "OEBPS/old.png", str "PNG"⟩,
   ⟨str "keep.txt", str "K"⟩]

def cDecOPF : OPFDec := fun _ =>
  .ok ⟨[⟨str "old", str "old.png", str "cover-image", str "image/png"⟩], []⟩

def cReenc : Str → Option Str := fun s =>
  if s == str "PNG" then some (str "JPG") else none

/-- Failure spec injecting a copy/write error at the second streamed
entry. -/
def cFailCopy1 : FailSpec := { copyFail := fun i => i == 1 }

def c2Update : MetadataUpdate := { title := str "New" }

def c2Meta : EPUBMetadata :=
  ⟨str "New", [], [], [], [], [], [], [], [], []⟩

/-- Container pointing at a rootfile path that names no entry in the
archive. -/
def c10Dec : ContainerDec := fun _ => .ok [str "missing.opf"]

def c10Archive : List ZEntry :=
  [⟨str "META-INF/container.xml", str "CNT"⟩, ⟨str "a.txt", str "A"⟩]

/-! ### Specification-side definitions and concrete inputs for C8 -/

def suitOpt (o : CoverOption) : Bool := isSuitableCoverDimension o.width o.height

/-- The candidate list of `ListCoverOptions` before the suitability
filter. -/
def coverCandidates (files : List ZEntry) (decodeConfig : ImgCfgDec)
    (opfDir currentCoverPath : Str) (manifest : List ManifestItem) :
    List CoverOption :=
  manifest.filterMap (coverOptionOf files decodeConfig opfDir currentCoverPath)

def c8Dec : ContainerDec := fun _ => .ok [str "content.opf"]

def c8Item1 : ManifestItem := ⟨str "i1", str "img1.jpg", [], str "image/jpeg"⟩
def c8Item2 : ManifestItem := ⟨str "i2", str "img2.jpg", [], str "image/jpeg"⟩

def c8OPFBoth : OPFDoc := ⟨[c8Item1, c8Item2], []⟩
def c8OPFSmall : OPFDoc := ⟨[c8Item1], []⟩

def c8DecOPFBoth : OPFDec := fun _ => .ok c8OPFBoth
def c8DecOPFSmall : OPFDec := fun _ => .ok c8OPFSmall

/-- Image-header decoder: IMG1 is 100x100, IMG2 is 300x450. -/
def c8Cfg : ImgCfgDec := fun s =>
  if s == str "IMG1" then some (100, 100)
  else if s == str "IMG2" then some (300, 450) else none

def c8FilesBoth : List ZEntry :=
  [⟨str "META-INF/container.xml", str "C"⟩, ⟨str "content.opf", str "OPF"⟩,
   ⟨str "img1.jpg", str "IMG1"⟩, ⟨str "img2.jpg", str "IMG2"⟩]

def c8FilesSmall : List ZEntry :=
  [⟨str "META-INF/container.xml", str "C"⟩, ⟨str "content.opf", str "OPF"⟩,
   ⟨str "img1.jpg", str "IMG1"⟩]

/-- Concrete OPF document whose metadata block contains no managed tag. -/
def c5DocWithMeta : Str := str "<package><metadata>just text</metadata></package>"

/-- Concrete OPF document with no metadata block at all. -/
def c5DocNoMeta : Str := str "<package>no block here</package>"

/-! ### Tag-soup items

To reason about the regex scanners on arbitrary (well-formed) XML-ish
blocks, block content is generated from items: plain text without `<`, a
standalone tag `<b>`, or a flat element `<b>v</c>` whose inner text has no
`<`.  `openBody`/`closeBody` decide, at the body level, whether a tag
matches a pattern's opening or closing regex — the alignment lemmas below
connect them to the character-level scanners. -/

inductive Item
  | txt (s : Str)
  | solo (b : Str)
  | elem (b : Str) (v : Str) (c : Str)
  deriving DecidableEq

def renderItem : Item → Str
  | .txt s => s
  | .solo b => '<' :: (b ++ ['>'])
  | .elem b v c => '<' :: (b ++ '>' :: (v ++ '<' :: (c ++ ['>'])))

def renderItems (l : List Item) : Str := (l.map renderItem).flatten

def noLt (s : Str) : Bool := s.all (fun c => !(c == '<'))
def noGt (s : Str) : Bool := s.all (fun c => !(c == '>'))
def noChar (q : Char) (s : Str) : Bool := s.all (fun c => !(c == q))
def bodyOK (b : Str) : Bool := noLt b && noGt b

def patName : TagPat → Str
  | .plain n => n
  | .pfx n => n

/-- Body-level opening-tag match: the attribute text when
`<NAME\b[^>]*>` matches the whole tag `<b>`. -/
def openBody (p : TagPat) (b : Str) : Option Str :=
  firstSome ((p.rests b).map fun a => if boundaryOk a then some a else none)

/-- Body-level closing-tag match: does `</NAME>` match the whole tag
`<b>`? -/
def closeBody (p : TagPat) (b : Str) : Bool :=
  match b with
  | c :: br => c == '/' && (p.rests br).any (fun a => a.isEmpty)
  | [] => false

/-- A pattern name with no character case-folding to `>`. -/
def patNameOK (p : TagPat) : Bool :=
  (patName p).all fun c => !(lc c == lc '>')

/-! ### Item-level mirrors of the scanners

On a well-formed item list the character-level scanners act item by item.
The predicates below state, per item, which scanner fires; the mirrors
compute each mutation's result as an item list. -/

/-- Does the element regex for `p` open at this item? -/
def elemMatchQ (p : TagPat) : Item → Bool
  | .elem b _ _ => (openBody p b).isSome
  | _ => false

/-- Attribute text captured by the single-tag regex for `p` at this item. -/
def soloMatch (p : TagPat) : Item → Option Str
  | .solo b => openBody p b
  | _ => none

/-- The item is well-shaped for the element scanner of `p`: text and inner
values contain no `<`, tag bodies no `<`/`>`, standalone and closing tags
never open a match, and an element whose opening tag matches is closed by
its own closing tag. -/
def elemOKQ (p : TagPat) : Item → Bool
  | .txt s => noLt s
  | .solo b => bodyOK b && (openBody p b).isNone
  | .elem b v c => bodyOK b && noLt v && bodyOK c && (openBody p c).isNone
      && (!(openBody p b).isSome || closeBody p c)

/-- The item is well-shaped for a single-tag scanner of `p` (which consumes
only opening tags): element tags must not match. -/
def tagOKQ (p : TagPat) : Item → Bool
  | .txt s => noLt s
  | .solo b => bodyOK b
  | .elem b v c => bodyOK b && noLt v && bodyOK c
      && (openBody p b).isNone && (openBody p c).isNone

/-- No closing-tag match for `p` fires inside the item (used while locating
the enclosing `metadata`/`manifest` element). -/
def closeTransQ (p : TagPat) : Item → Bool
  | .txt s => noLt s
  | .solo b => bodyOK b && !(closeBody p b)
  | .elem b v c => bodyOK b && noLt v && bodyOK c
      && !(closeBody p b) && !(closeBody p c)

/-- No opening-tag match for `p` fires inside the item. -/
def openTransQ (p : TagPat) : Item → Bool
  | .txt s => noLt s
  | .solo b => bodyOK b && (openBody p b).isNone
  | .elem b v c => bodyOK b && noLt v && bodyOK c
      && (openBody p b).isNone && (openBody p c).isNone

/-- Is this item removed by the `setMetaNameContent` removal regex? -/
def metaNameDropQ (q : Char) (name : Str) : Item → Bool
  | .solo b =>
    match openBody metaPat b with
    | some a => containsNameEq q name a
    | none => false
  | _ => false

/-- Is this item replaced by `""` by a `ReplaceAllFunc` whose function
keeps or drops whole tags? -/
def tagDropQ (p : TagPat) (f : Str → Str) : Item → Bool
  | .solo b => (openBody p b).isSome && (f ('<' :: (b ++ ['>']))).isEmpty
  | _ => false

/-- Item-level mirror of `setSingleTag`. -/
def setSingleTagI (tag value : Str) (l : List Item) (changed : Bool) :
    List Item × Bool :=
  let value := trimSpace value
  let f1 := l.any (elemMatchQ (.plain (dcName tag)))
  let l1 := l.filter (fun i => !(elemMatchQ (.plain (dcName tag)) i))
  let f2 := l1.any (elemMatchQ (.plain tag))
  let l2 := l1.filter (fun i => !(elemMatchQ (.plain tag) i))
  let changed := changed || f1 || f2
  let foundPfx : Str := if f1 then dcName tag else if f2 then tag else []
  if foundPfx ≠ [] then
    if value ≠ [] then
      (l2 ++ [.txt (str "\n"), .elem foundPfx (xmlEscape value) ('/' :: foundPfx)],
       true)
    else (l2, true)
  else if value ≠ [] then
    (l2 ++ [.txt (str "\n"),
      .elem (dcName tag) (xmlEscape value) ('/' :: dcName tag)], true)
  else (l2, changed)

/-- Item-level mirror of `setMultiTag`. -/
def setMultiTagI (tag : Str) (values : List Str) (l : List Item) (changed : Bool) :
    List Item × Bool :=
  let f1 := l.any (elemMatchQ (.plain (dcName tag)))
  let l1 := l.filter (fun i => !(elemMatchQ (.plain (dcName tag)) i))
  let f2 := l1.any (elemMatchQ (.plain tag))
  let l2 := l1.filter (fun i => !(elemMatchQ (.plain tag) i))
  let pfx := if f2 then tag else dcName tag
  let changed := changed || f1 || f2
  let cleaned := multiClean [] values
  (l2 ++ (cleaned.map fun v =>
      [Item.txt (str "\n"), Item.elem pfx (xmlEscape v) ('/' :: pfx)]).flatten,
   changed || !cleaned.isEmpty)

/-- The body of the meta tag appended by `setMetaNameContent`. -/
def metaSoloBody (name escaped : Str) : Str :=
  str "meta name=\"" ++ name ++ str "\" content=\"" ++ escaped ++ str "\"/"

/-- Its attribute text (what the meta-tag regex captures after the name). -/
def metaSoloAttrs (name escaped : Str) : Str :=
  str " name=\"" ++ name ++ str "\" content=\"" ++ escaped ++ str "\"/"

/-- Item-level mirror of `setMetaNameContent`. -/
def setMetaNameContentI (name value : Str) (l : List Item) (changed : Bool) :
    List Item × Bool :=
  let value := trimSpace value
  let f1 := l.any (metaNameDropQ '"' name)
  let l1 := l.filter (fun i => !(metaNameDropQ '"' name i))
  let f2 := l1.any (metaNameDropQ '\'' name)
  let l2 := l1.filter (fun i => !(metaNameDropQ '\'' name i))
  let changed := changed || f1 || f2
  if value ≠ [] then
    (l2 ++ [.txt (str "\n"), .solo (metaSoloBody name (xmlEscape value))], true)
  else (l2, changed)

/-- Item-level mirror of `applyFieldMutations`. -/
def applyFieldMutationsI (l : List Item) (u : MetadataUpdate) : List Item × Bool :=
  let w := setSingleTagI (str "title") u.title l false
  let w := setSingleTagI (str "creator") u.creator w.1 w.2
  let w := setSingleTagI (str "language") u.language w.1 w.2
  let w := setSingleTagI (str "identifier") u.identifier w.1 w.2
  let w := setSingleTagI (str "publisher") u.publisher w.1 w.2
  let w := setSingleTagI (str "date") u.date w.1 w.2
  let w := setSingleTagI (str "description") u.description w.1 w.2
  let w := setMultiTagI (str "subject") u.subjects w.1 w.2
  let w := setMetaNameContentI (str "calibre:series") u.series w.1 w.2
  let w := setMetaNameContentI (str "calibre:series_index") u.seriesIndex w.1 w.2
  w

/-- The field tags driven through `setSingleTag`/`setMultiTag`. -/
def c1Tags : List Str :=
  [str "title", str "creator", str "language", str "identifier",
   str "publisher", str "date", str "description", str "subject"]

/-- Kept meta tags do not claim the calibre series names: a survivor of the
removal regex whose (trimmed, lowered) `name` attribute still read as one of
the series names would shadow the freshly appended tag. -/
def metaSeriesFreeQ : Item → Bool
  | .solo b =>
    match openBody metaPat b with
    | some a =>
      !(trimSpace (lowerStr (extractAttrValue a (str "name"))) == str "calibre:series")
      && !(trimSpace (lowerStr (extractAttrValue a (str "name")))
            == str "calibre:series_index")
    | none => true
  | _ => true

/-- Well-formedness of one metadata item for the C1 round-trip: well-shaped
for every field pattern, for the meta-tag scanner, invisible to the
`metadata` block locator, and not claiming a calibre series name. -/
def c1ItemOK (i : Item) : Bool :=
  (c1Tags.all fun t => elemOKQ (.plain (dcName t)) i && elemOKQ (.plain t) i)
  && tagOKQ metaPat i
  && closeTransQ metadataPat i && openTransQ metadataPat i
  && metaSeriesFreeQ i

/-- A package document whose metadata block renders the given items. -/
def c1Doc (l : List Item) : Str :=
  str "<package>\n<metadata>" ++ renderItems l ++ str "</metadata>\n</package>"

/-- Attr-level cover test for manifest items (as the reader extracts it). -/
def coverItemTestA (a : Str) : Bool :=
  lowerStr (trimSpace (extractAttrValue a (str "id"))) == str "cover-image"
  || containsStr (lowerStr (trimSpace (extractAttrValue a (str "properties"))))
      (str "cover-image")
  || isPreferredCoverFilename (trimSpace (extractAttrValue a (str "href")))

/-- Attr-level cover-marker test for meta tags. -/
def coverMetaTestA (a : Str) : Bool :=
  lowerStr (trimSpace (extractAttrValue a (str "name"))) == str "cover"

/-- Number of cover markers among the meta tags of a block. -/
def countCoverMetaTags (s : Str) : Nat :=
  ((findAllTags metaPat s).filter coverMetaTestA).length

/-- Number of cover-marking items among the item tags of a block. -/
def countCoverItemTags (s : Str) : Nat :=
  ((findAllTags itemPat s).filter coverItemTestA).length

/-- Well-formedness of one metadata item for the C9 normalization: meta
tags well-shaped, invisible to the `metadata` and `manifest` locators, and
the tag-level drop decision of `coverMetaKeep` agrees with the attr-level
cover test. -/
def c9MetaItemOK (i : Item) : Bool :=
  tagOKQ metaPat i && closeTransQ metadataPat i && openTransQ metadataPat i
  && openTransQ manifestPat i
  && (match i with
      | .solo b =>
        match openBody metaPat b with
        | some a => (coverMetaKeep ('<' :: (b ++ ['>']))).isEmpty == coverMetaTestA a
        | none => true
      | _ => true)

/-- Well-formedness of one manifest item for the C9 normalization. -/
def c9ManItemOK (i : Item) : Bool :=
  tagOKQ itemPat i && closeTransQ manifestPat i
  && (match i with
      | .solo b =>
        match openBody itemPat b with
        | some a => (coverItemKeep ('<' :: (b ++ ['>']))).isEmpty == coverItemTestA a
        | none => true
      | _ => true)

/-- A package document with a metadata block and a manifest block. -/
def c9Doc (lm lman : List Item) : Str :=
  str "<package>\n<metadata>" ++ renderItems lm ++ str "</metadata>\n<manifest>"
    ++ renderItems lman ++ str "</manifest>\n</package>"

/-- The cover marker, as items. -/
def coverMarkerItems : List Item :=
  [.txt (str "\n"), .solo (str "meta name=\"cover\" content=\"cover-image\"/")]

/-- The canonical cover item, as items. -/
def coverItemItems (canonicalHref : Str) : List Item :=
  [.txt (str "\n"), .solo (str "item id=\"cover-image\" href=\"" ++ xmlEscape canonicalHref
    ++ str "\" media-type=\"image/jpeg\" properties=\"cover-image\"/")]

/-- Concrete inputs for the C1 counterexample: an update whose title
carries surrounding whitespace. -/
def c1CexDoc : Str :=
  str "<package>\n<metadata><dc:title>Old</dc:title></metadata>\n</package>"

def c1CexU : MetadataUpdate := { title := str " New " }

/-! ### Theorems -/

/-! #### Character-level scanner lemmas -/

theorem takeWhile_append_not (f : Char → Bool) (y : Char) (hy : f y = false)
    (xs t : Str) : (xs ++ y :: t).takeWhile f = xs.takeWhile f := by
  induction xs with
  | nil => simp [List.takeWhile_cons, hy]
  | cons a l ih =>
    by_cases h : f a
    · simp [List.takeWhile_cons, h, ih]
    · simp only [Bool.not_eq_true] at h
      simp [List.takeWhile_cons, h]

theorem takeWhile_all (f : Char → Bool) (xs : Str) (h : xs.all f = true) :
    xs.takeWhile f = xs := by
  induction xs with
  | nil => rfl
  | cons a l ih =>
    simp only [List.all_cons, Bool.and_eq_true] at h
    simp [List.takeWhile_cons, h.1, ih h.2]

theorem drop_append_le (n : Nat) (xs r : Str) (h : n ≤ xs.length) :
    (xs ++ r).drop n = xs.drop n ++ r := by
  induction xs generalizing n with
  | nil =>
    have h0 : n = 0 := Nat.le_zero.mp (by simpa using h)
    subst h0
    simp
  | cons a l ih =>
    cases n with
    | zero => simp
    | succ m =>
      simp only [List.length_cons, Nat.succ_le_succ_iff] at h
      simp [List.drop_succ_cons, ih m h]

theorem sw_ci_length (pat s : Str) : startsWithCI pat s = true → pat.length ≤ s.length := by
  induction pat generalizing s with
  | nil => simp
  | cons p ps ih =>
    cases s with
    | nil => simp [startsWithCI]
    | cons c cs =>
      simp only [startsWithCI, Bool.and_eq_true, List.length_cons]
      intro h
      exact Nat.succ_le_succ (ih cs h.2)

theorem sw_cs_length (pat s : Str) : startsWithCS pat s = true → pat.length ≤ s.length := by
  induction pat generalizing s with
  | nil => simp
  | cons p ps ih =>
    cases s with
    | nil => simp [startsWithCS]
    | cons c cs =>
      simp only [startsWithCS, Bool.and_eq_true, List.length_cons]
      intro h
      exact Nat.succ_le_succ (ih cs h.2)

theorem sw_ci_append_gt (name xs t : Str)
    (hn : (name.all fun c => !(lc c == lc '>')) = true) :
    startsWithCI name (xs ++ '>' :: t) = startsWithCI name xs := by
  induction name generalizing xs with
  | nil => simp [startsWithCI]
  | cons n ns ih =>
    simp only [List.all_cons, Bool.and_eq_true] at hn
    cases xs with
    | nil =>
      simp only [List.nil_append, startsWithCI]
      simp only [Bool.not_eq_true'] at hn
      simp [hn.1]
    | cons c cs =>
      simp only [List.cons_append, startsWithCI, List.append_eq]
      rw [ih cs hn.2]

theorem sw_ci_append_long (pat xs t : Str) (h : pat.length ≤ xs.length) :
    startsWithCI pat (xs ++ t) = startsWithCI pat xs := by
  induction pat generalizing xs with
  | nil => simp [startsWithCI]
  | cons p ps ih =>
    cases xs with
    | nil => simp at h
    | cons c cs =>
      simp only [List.length_cons, Nat.succ_le_succ_iff] at h
      simp [List.cons_append, startsWithCI, ih cs h]

theorem sw_cs_append_self (pre t : Str) : startsWithCS pre (pre ++ t) = true := by
  induction pre with
  | nil => rfl
  | cons c cs ih => simp [startsWithCS, ih]

theorem char_beq_comm (a b : Char) : (a == b) = (b == a) := by
  cases h : (a == b) with
  | true =>
    have h2 : a = b := beq_iff_eq.mp h
    subst h2
    exact (beq_self_eq_true a).symm
  | false =>
    cases h2 : (b == a) with
    | false => rfl
    | true =>
      have h3 : b = a := beq_iff_eq.mp h2
      subst h3
      rw [beq_self_eq_true] at h
      exact h.symm

/-- Case folding is the identity away from ASCII letters: for a character
`q` that is not an ASCII letter, `lc c = q` exactly when `c = q`. -/
theorem lc_eq_punct (c q : Char)
    (hq : q.toNat < 65 ∨ (90 < q.toNat ∧ q.toNat < 97) ∨ 122 < q.toNat) :
    (lc c == q) = (c == q) := by
  unfold lc
  by_cases h : ('A' ≤ c && c ≤ 'Z') = true
  · rw [if_pos h]
    simp only [Bool.and_eq_true, decide_eq_true_eq] at h
    have hc1 : 65 ≤ c.toNat := h.1
    have hc2 : c.toNat ≤ 90 := h.2
    have hvalid : (c.toNat + 32).isValidChar := by
      left
      omega
    have htn : (Char.ofNat (c.toNat + 32)).toNat = c.toNat + 32 := by
      unfold Char.ofNat
      rw [dif_pos hvalid]
      rfl
    have h1 : (Char.ofNat (c.toNat + 32) == q) = false := by
      cases hb : Char.ofNat (c.toNat + 32) == q with
      | false => rfl
      | true =>
        have := beq_iff_eq.mp hb
        have h2 : (Char.ofNat (c.toNat + 32)).toNat = q.toNat := by rw [this]
        rw [htn] at h2
        omega
    have h2 : (c == q) = false := by
      cases hb : c == q with
      | false => rfl
      | true =>
        have := beq_iff_eq.mp hb
        have h3 : c.toNat = q.toNat := by rw [this]
        omega
    rw [h1, h2]
  · rw [if_neg h]

theorem firstSplitCI_single (q : Char) (xs t : Str)
    (hq : q.toNat < 65 ∨ (90 < q.toNat ∧ q.toNat < 97) ∨ 122 < q.toNat)
    (h : noChar q xs = true) :
    firstSplitCI [q] (xs ++ q :: t) = some (xs, t) := by
  induction xs with
  | nil =>
    simp only [List.nil_append, firstSplitCI, startsWithCI]
    simp
  | cons a l ih =>
    simp only [noChar, List.all_cons, Bool.and_eq_true] at h
    have hlq : lc q = q := by
      unfold lc
      rw [if_neg]
      simp only [Bool.and_eq_true, decide_eq_true_eq, not_and]
      intro h1
      have : 65 ≤ q.toNat := h1
      intro h2
      have : q.toNat ≤ 90 := h2
      omega
    have ha : (lc q == lc a) = false := by
      rw [hlq, char_beq_comm q (lc a), lc_eq_punct a q hq]
      simpa using h.1
    simp only [List.cons_append, firstSplitCI, startsWithCI, ha, Bool.false_and,
      Bool.and_self, Bool.false_eq_true, if_false, List.append_eq, reduceIte]
    rw [ih h.2]
    rfl

theorem firstSome_congr_map {α β γ : Type} (l : List γ) (f : γ → Option α)
    (g : β → α) (h : γ → Option β) (hp : ∀ x ∈ l, f x = Option.map g (h x)) :
    firstSome (l.map f) = Option.map g (firstSome (l.map h)) := by
  induction l with
  | nil => rfl
  | cons a rest ih =>
    simp only [List.map_cons]
    rw [hp a (by simp)]
    cases hx : h a with
    | some b => simp [firstSome]
    | none =>
      simp only [hx, Option.map_none, firstSome]
      exact ih (fun x hx2 => hp x (by simp [hx2]))

/-- The characters of a `drop` are characters of the original list. -/
theorem noGt_drop (b : Str) (k : Nat) (h : noGt b = true) : noGt (b.drop k) = true := by
  simp only [noGt, List.all_eq_true] at h ⊢
  intro c hc
  exact h c (List.mem_of_mem_drop hc)

theorem rests_are_drops (p : TagPat) (b : Str) :
    ∀ a ∈ p.rests b, ∃ k, a = b.drop k := by
  intro a ha
  cases p with
  | plain n =>
    simp only [TagPat.rests, plainRests] at ha
    by_cases h : startsWithCI n b = true
    · rw [if_pos h] at ha
      simp at ha
      exact ⟨n.length, ha⟩
    · rw [if_neg h] at ha
      simp at ha
  | pfx n =>
    simp only [TagPat.rests, optPrefixedRests] at ha
    rw [List.mem_append] at ha
    cases ha with
    | inr ha =>
      by_cases h : startsWithCI n b = true
      · rw [if_pos h] at ha
        simp at ha
        exact ⟨n.length, ha⟩
      · rw [if_neg h] at ha
        simp at ha
    | inl ha =>
      cases b with
      | nil => simp at ha
      | cons c cs =>
        have ha : a ∈ (if nameStartChar c = true then
            (match cs.drop (cs.takeWhile nameBodyChar).length with
            | d :: rest2 =>
              if (d == ':') = true then
                (if startsWithCI n rest2 = true then [rest2.drop n.length] else [])
              else []
            | [] => ([] : List Str))
          else []) := ha
        by_cases hc : nameStartChar c = true
        · rw [if_pos hc] at ha
          cases hd : cs.drop (cs.takeWhile nameBodyChar).length with
          | nil =>
            rw [hd] at ha
            simp at ha
          | cons d ds =>
            rw [hd] at ha
            have ha : a ∈ (if (d == ':') = true then
                (if startsWithCI n ds = true then [ds.drop n.length] else [])
              else ([] : List Str)) := ha
            by_cases hdc : (d == ':') = true
            · rw [if_pos hdc] at ha
              by_cases hsw : startsWithCI n ds = true
              · rw [if_pos hsw] at ha
                simp at ha
                refine ⟨(cs.takeWhile nameBodyChar).length + 1 + n.length + 1, ?_⟩
                have hds : ds = cs.drop ((cs.takeWhile nameBodyChar).length + 1) := by
                  have h9 : cs.drop ((cs.takeWhile nameBodyChar).length + 1)
                      = (cs.drop (cs.takeWhile nameBodyChar).length).drop 1 := by
                    rw [List.drop_drop]
                  rw [h9, hd]
                  rfl
                rw [ha, hds]
                rw [List.drop_succ_cons, List.drop_drop]
              · rw [if_neg hsw] at ha
                simp at ha
            · rw [if_neg hdc] at ha
              simp at ha
        · rw [if_neg hc] at ha
          simp at ha

theorem rests_append (p : TagPat) (b t : Str)
    (hn : ((patName p).all fun c => !(lc c == lc '>')) = true)
    (hb : noGt b = true) :
    p.rests (b ++ '>' :: t) = (p.rests b).map (fun a => a ++ '>' :: t) := by
  cases p with
  | plain n =>
    simp only [TagPat.rests, plainRests, patName] at hn ⊢
    rw [sw_ci_append_gt n b t hn]
    by_cases h : startsWithCI n b = true
    · rw [if_pos h, if_pos h]
      simp only [List.map_cons, List.map_nil]
      rw [drop_append_le n.length b ('>' :: t) (sw_ci_length n b h)]
    · rw [if_neg h, if_neg h]
      rfl
  | pfx n =>
    simp only [TagPat.rests, optPrefixedRests, patName] at hn ⊢
    rw [List.map_append]
    congr 1
    · cases b with
      | nil =>
        simp [nameStartChar]
      | cons c cs =>
        simp only [List.cons_append]
        by_cases hc : nameStartChar c = true
        · rw [if_pos hc, if_pos hc]
          have hgt : nameBodyChar '>' = false := by decide
          rw [takeWhile_append_not nameBodyChar '>' hgt cs t]
          have hlen : (cs.takeWhile nameBodyChar).length ≤ cs.length :=
            (List.takeWhile_prefix nameBodyChar).length_le
          rw [drop_append_le (cs.takeWhile nameBodyChar).length cs ('>' :: t) hlen]
          cases hd : cs.drop (cs.takeWhile nameBodyChar).length with
          | nil => simp
          | cons d ds =>
            simp only [List.cons_append]
            by_cases hdc : (d == ':') = true
            · rw [if_pos hdc, if_pos hdc]
              have hcs : noGt cs = true := by
                simp only [noGt, List.all_cons, Bool.and_eq_true] at hb
                exact hb.2
              have hds : noGt ds = true := by
                have h2 := noGt_drop cs ((cs.takeWhile nameBodyChar).length + 1) hcs
                rw [show cs.drop ((cs.takeWhile nameBodyChar).length + 1)
                    = (cs.drop (cs.takeWhile nameBodyChar).length).drop 1 by
                  rw [List.drop_drop]] at h2
                rw [hd] at h2
                simpa using h2
              rw [sw_ci_append_gt n ds t hn]
              by_cases hsw : startsWithCI n ds = true
              · rw [if_pos hsw, if_pos hsw]
                simp only [List.map_cons, List.map_nil]
                rw [drop_append_le n.length ds ('>' :: t) (sw_ci_length n ds hsw)]
              · rw [if_neg hsw, if_neg hsw]
                rfl
            · rw [if_neg hdc, if_neg hdc]
              rfl
        · rw [if_neg hc, if_neg hc]
          rfl
    · rw [sw_ci_append_gt n b t hn]
      by_cases h : startsWithCI n b = true
      · rw [if_pos h, if_pos h]
        simp only [List.map_cons, List.map_nil]
        rw [drop_append_le n.length b ('>' :: t) (sw_ci_length n b h)]
      · rw [if_neg h, if_neg h]
        rfl

theorem boundary_append (a t : Str) : boundaryOk (a ++ '>' :: t) = boundaryOk a := by
  cases a with
  | nil => rfl
  | cons c cs => rfl

theorem takeToGt_append (a t : Str) (ha : noGt a = true) :
    takeToGt (a ++ '>' :: t) = some (a, t) := by
  have h1 : (a ++ '>' :: t).takeWhile (fun c => !(c == '>')) = a := by
    rw [takeWhile_append_not _ '>' (by decide) a t]
    exact takeWhile_all _ a ha
  have h2 : (a ++ '>' :: t).drop a.length = '>' :: t := by
    rw [drop_append_le a.length a ('>' :: t) (Nat.le_refl _), List.drop_length]
    rfl
  unfold takeToGt
  simp [h1, h2]

theorem openTagAt_render (p : TagPat) (b t : Str) (hn : patNameOK p = true)
    (hb : bodyOK b = true) :
    openTagAt p ('<' :: (b ++ '>' :: t)) = (openBody p b).map (fun a => (a, t)) := by
  have hbGt : noGt b = true := by
    simp only [bodyOK, Bool.and_eq_true] at hb
    exact hb.2
  have h0 : openTagAt p ('<' :: (b ++ '>' :: t))
      = firstSome ((p.rests (b ++ '>' :: t)).map fun rest =>
          if boundaryOk rest then takeToGt rest else none) := rfl
  rw [h0, rests_append p b t hn hbGt, List.map_map]
  unfold openBody
  refine firstSome_congr_map (p.rests b) _ (fun a => (a, t)) _ ?_
  intro a ha
  have hna : noGt a = true := by
    obtain ⟨k, hk⟩ := rests_are_drops p b a ha
    rw [hk]
    exact noGt_drop b k hbGt
  simp only [Function.comp]
  rw [boundary_append a t]
  by_cases hbd : boundaryOk a = true
  · rw [if_pos hbd, if_pos hbd, takeToGt_append a t hna]
    rfl
  · rw [if_neg hbd, if_neg hbd]
    rfl

theorem firstSome_map_isEmpty (f : Str → Option Str) (alts : List Str) (t : Str)
    (hf : ∀ a ∈ alts, f (a ++ '>' :: t) = if a.isEmpty then some t else none) :
    firstSome ((alts.map (fun a => a ++ '>' :: t)).map f)
      = if alts.any (fun a => a.isEmpty) then some t else none := by
  induction alts with
  | nil => rfl
  | cons a rest ih =>
    have hfa := hf a (by simp)
    have ih2 := ih (fun x hx => hf x (by simp [hx]))
    cases a with
    | nil =>
      have hfa2 : f ('>' :: t) = some t := by simpa using hfa
      simp [firstSome, hfa2]
    | cons x xs =>
      simp only [List.map_cons, List.cons_append] at hfa ⊢
      simp only [List.isEmpty_cons, Bool.false_eq_true, if_false, reduceIte] at hfa
      rw [hfa]
      simp only [firstSome]
      rw [ih2]
      simp [List.any_cons]

theorem closeTagAt_render (p : TagPat) (b t : Str) (hn : patNameOK p = true)
    (hb : bodyOK b = true) :
    closeTagAt p ('<' :: (b ++ '>' :: t)) = if closeBody p b then some t else none := by
  cases b with
  | nil =>
    simp [closeTagAt, closeBody]
  | cons c br =>
    have hbrGt : noGt br = true := by
      simp only [bodyOK, noGt, List.all_cons, Bool.and_eq_true] at hb
      simp only [noGt]
      exact hb.2.2
    by_cases hc : (c == '/') = true
    · have hcv : c = '/' := beq_iff_eq.mp hc
      subst hcv
      have h0 : closeTagAt p ('<' :: ('/' :: br ++ '>' :: t))
          = firstSome ((p.rests (br ++ '>' :: t)).map fun rest =>
              match rest with
              | e :: r2 => if e == '>' then some r2 else none
              | [] => none) := rfl
      have hf : ∀ a ∈ p.rests br, (fun rest =>
            match rest with
            | e :: r2 => if e == '>' then some r2 else none
            | [] => none) (a ++ '>' :: t) = if a.isEmpty then some t else none := by
        intro a ha
        obtain ⟨k, hk⟩ := rests_are_drops p br a ha
        have hna : noGt a = true := by
          rw [hk]
          exact noGt_drop br k hbrGt
        cases a with
        | nil => rfl
        | cons x xs =>
          have hx : (x == '>') = false := by
            simp only [noGt, List.all_cons, Bool.and_eq_true] at hna
            simpa using hna.1
          simp [hx]
      have hRHS : (if closeBody p ('/' :: br) then some t else none)
          = (if ((p.rests br).any fun a => a.isEmpty) = true then some t else none) := by
        simp [closeBody]
      rw [h0, rests_append p br t hn hbrGt, hRHS]
      exact firstSome_map_isEmpty _ (p.rests br) t hf
    · have h0 : closeTagAt p ('<' :: (c :: br ++ '>' :: t))
          = (if ('<' == '<' && c == '/') = true then
              firstSome ((p.rests (br ++ '>' :: t)).map fun rest =>
                match rest with
                | e :: r2 => if e == '>' then some r2 else none
                | [] => none)
            else none) := rfl
      rw [h0, if_neg (by simp [hc])]
      have h1 : closeBody p (c :: br) = false := by
        simp [closeBody, hc]
      rw [h1]
      simp

theorem openTagAt_not_lt (p : TagPat) (c : Char) (t : Str) (hc : (c == '<') = false) :
    openTagAt p (c :: t) = none := by
  have h0 : openTagAt p (c :: t)
      = (if (c == '<') = true then
          firstSome ((p.rests t).map fun rest =>
            if boundaryOk rest then takeToGt rest else none)
        else none) := rfl
  rw [h0, if_neg (by simp [hc])]

theorem closeTagAt_not_lt (p : TagPat) (c : Char) (t : Str) (hc : (c == '<') = false) :
    closeTagAt p (c :: t) = none := by
  cases t with
  | nil => rfl
  | cons d r =>
    have h0 : closeTagAt p (c :: d :: r)
        = (if (c == '<' && d == '/') = true then
            firstSome ((p.rests r).map fun rest =>
              match rest with
              | e :: r2 => if e == '>' then some r2 else none
              | [] => none)
          else none) := rfl
    rw [h0, if_neg (by simp [hc])]

/-! #### Length bounds for the matchers (fuel accounting) -/

theorem firstSome_mem {α : Type} (l : List (Option α)) (x : α)
    (h : firstSome l = some x) : some x ∈ l := by
  induction l with
  | nil => exact absurd h (by simp [firstSome])
  | cons o rest ih =>
    cases o with
    | some a =>
      simp only [firstSome] at h
      simp [h]
    | none =>
      simp only [firstSome] at h
      simp [ih h]

theorem takeToGt_some_len (s a t : Str) (h : takeToGt s = some (a, t)) :
    t.length < s.length := by
  unfold takeToGt at h
  have h2 : (match s.drop (s.takeWhile fun c => !(c == '>')).length with
    | c :: r => if (c == '>') = true
        then some (s.takeWhile fun c => !(c == '>'), r) else none
    | [] => none) = some (a, t) := h
  cases hd : s.drop (s.takeWhile fun c => !(c == '>')).length with
  | nil =>
    rw [hd] at h2
    have h3 : (none : Option (Str × Str)) = some (a, t) := h2
    exact absurd h3 (by simp)
  | cons c r =>
    rw [hd] at h2
    have h3 : (if (c == '>') = true
        then some (s.takeWhile fun c => !(c == '>'), r) else none)
        = some (a, t) := h2
    clear h2
    by_cases hc : (c == '>') = true
    · rw [if_pos hc] at h3
      have ht : t = r := by
        simp only [Option.some.injEq, Prod.mk.injEq] at h3
        exact h3.2.symm
      have hlt : t.length = r.length := by rw [ht]
      have hlen : (s.drop (s.takeWhile fun c => !(c == '>')).length).length
          = r.length + 1 := by rw [hd]; rfl
      rw [List.length_drop] at hlen
      omega
    · rw [if_neg hc] at h3
      exact absurd h3 (by simp)

theorem rests_len (p : TagPat) (b : Str) : ∀ a ∈ p.rests b, a.length ≤ b.length := by
  intro a ha
  obtain ⟨k, hk⟩ := rests_are_drops p b a ha
  rw [hk, List.length_drop]
  omega

theorem openTagAt_some_len (p : TagPat) (s a t : Str)
    (h : openTagAt p s = some (a, t)) : t.length < s.length := by
  cases s with
  | nil => exact absurd h (by simp [openTagAt])
  | cons c r =>
    unfold openTagAt at h
    have h' : (if (c == '<') = true then
        firstSome ((p.rests r).map fun rest =>
          if boundaryOk rest then takeToGt rest else none)
      else none) = some (a, t) := h
    clear h
    by_cases hc : (c == '<') = true
    · rw [if_pos hc] at h'
      have hmem := firstSome_mem _ _ h'
      simp only [List.mem_map] at hmem
      obtain ⟨rest, hrest, heq⟩ := hmem
      by_cases hb : boundaryOk rest = true
      · rw [if_pos hb] at heq
        have h1 := takeToGt_some_len rest a t heq
        have h2 := rests_len p r rest hrest
        simp only [List.length_cons]
        omega
      · rw [if_neg hb] at heq
        exact absurd heq (by simp)
    · rw [if_neg hc] at h'
      exact absurd h' (by simp)

theorem closeTagAt_some_len (p : TagPat) (s t : Str)
    (h : closeTagAt p s = some t) : t.length < s.length := by
  cases s with
  | nil => exact absurd h (by simp [closeTagAt])
  | cons c s2 =>
    cases s2 with
    | nil => exact absurd h (by simp [closeTagAt])
    | cons d r =>
      unfold closeTagAt at h
      have h' : (if (c == '<' && d == '/') = true then
          firstSome ((p.rests r).map fun rest =>
            match rest with
            | e :: r2 => if e == '>' then some r2 else none
            | [] => none)
        else none) = some t := h
      clear h
      by_cases hc : (c == '<' && d == '/') = true
      · rw [if_pos hc] at h'
        have hmem := firstSome_mem _ _ h'
        simp only [List.mem_map] at hmem
        obtain ⟨rest, hrest, heq⟩ := hmem
        cases hrc : rest with
        | nil =>
          rw [hrc] at heq
          have h3 : (none : Option Str) = some t := heq
          exact absurd h3 (by simp)
        | cons e r2 =>
          rw [hrc] at heq
          have h3 : (if (e == '>') = true then some r2 else none) = some t := heq
          clear heq
          by_cases he : (e == '>') = true
          · rw [if_pos he] at h3
            have ht : t = r2 := by
              simpa using h3.symm
            subst ht
            have h2 := rests_len p r rest hrest
            rw [hrc] at h2
            simp only [List.length_cons] at h2 ⊢
            omega
          · rw [if_neg he] at h3
            exact absurd h3 (by simp)
      · rw [if_neg hc] at h'
        exact absurd h' (by simp)

theorem findClose_some_len (p : TagPat) (s : Str) (w1 w2 : Str)
    (h : findClose p s = some (w1, w2)) : w2.length ≤ s.length := by
  induction s generalizing w1 with
  | nil => exact absurd h (by simp [findClose])
  | cons c cs ih =>
    unfold findClose at h
    cases hc : closeTagAt p (c :: cs) with
    | some rest =>
      rw [hc] at h
      have h3 : some (([] : Str), rest) = some (w1, w2) := h
      have hw : w2 = rest := by
        simp only [Option.some.injEq, Prod.mk.injEq] at h3
        exact h3.2.symm
      rw [hw]
      exact Nat.le_of_lt (closeTagAt_some_len p (c :: cs) _ hc)
    | none =>
      rw [hc] at h
      have h3 : (findClose p cs).map (fun q => (c :: q.1, q.2)) = some (w1, w2) := h
      clear h
      cases hf : findClose p cs with
      | none =>
        rw [hf] at h3
        have h4 : (none : Option (Str × Str)) = some (w1, w2) := h3
        exact absurd h4 (by simp)
      | some q =>
        rw [hf] at h3
        have h4 : some (c :: q.1, q.2) = some (w1, w2) := h3
        simp only [Option.some.injEq, Prod.mk.injEq] at h4
        have hq : findClose p cs = some (q.1, w2) := by
          rw [hf, ← h4.2]
        have h2 := ih q.1 hq
        simp only [List.length_cons]
        omega

theorem elemAt_afterClose_len (p : TagPat) (s : Str) (m : ElemAtM)
    (h : elemAt p s = some m) : m.afterClose.length < s.length := by
  unfold elemAt at h
  cases ho : openTagAt p s with
  | none =>
    rw [ho] at h
    have h3 : (none : Option ElemAtM) = some m := h
    exact absurd h3 (by simp)
  | some q =>
    rw [ho] at h
    have h3 : ((findClose p q.2).map fun w =>
        (⟨q.1, s.length - q.2.length, w.1, q.2.drop w.1.length, w.2⟩ : ElemAtM))
        = some m := h
    clear h
    cases hf : findClose p q.2 with
    | none =>
      rw [hf] at h3
      have h4 : (none : Option ElemAtM) = some m := h3
      exact absurd h4 (by simp)
    | some w =>
      rw [hf] at h3
      have h4 : (⟨q.1, s.length - q.2.length, w.1, q.2.drop w.1.length, w.2⟩
          : ElemAtM) = m := by simpa using h3
      have hac : m.afterClose = w.2 := by rw [← h4]
      rw [hac]
      have h1 := findClose_some_len p q.2 w.1 w.2 (by rw [hf])
      have h2 := openTagAt_some_len p s q.1 q.2 (by rw [ho])
      omega

theorem singleTagAt_rest_len (p : TagPat) (s a tag rest : Str)
    (h : singleTagAt p s = some (a, tag, rest)) : rest.length < s.length := by
  unfold singleTagAt at h
  cases ho : openTagAt p s with
  | none => rw [ho] at h; exact absurd h (by simp)
  | some q =>
    rw [ho] at h
    have h3 : some (q.1, s.take (s.length - q.2.length), q.2)
        = some (a, tag, rest) := h
    have h4 : rest = q.2 := by
      simp only [Option.some.injEq, Prod.mk.injEq] at h3
      exact h3.2.2.symm
    rw [h4]
    exact openTagAt_some_len p s q.1 q.2 (by rw [ho])

theorem metaNameTagAt_rest_len (q : Char) (name : Str) (s rest : Str)
    (h : metaNameTagAt q name s = some rest) : rest.length < s.length := by
  unfold metaNameTagAt at h
  cases ho : openTagAt (.pfx (str "meta")) s with
  | none => rw [ho] at h; exact absurd h (by simp)
  | some w =>
    rw [ho] at h
    have h3 : (if containsNameEq q name w.1 then some w.2 else none)
        = some rest := h
    clear h
    by_cases hc : containsNameEq q name w.1 = true
    · rw [if_pos hc] at h3
      have h4 : rest = w.2 := by simpa using h3.symm
      rw [h4]
      exact openTagAt_some_len _ s w.1 w.2 (by rw [ho])
    · rw [if_neg hc] at h3
      exact absurd h3 (by simp)

/-! #### Fuel irrelevance: enough fuel computes the wrapper value -/

theorem removeElemsF_add (p : TagPat) (fuel extra : Nat) :
    ∀ s : Str, s.length ≤ fuel →
    removeElemsF p (fuel + extra) s = removeElemsF p fuel s := by
  induction fuel with
  | zero =>
    intro s hs
    have h0 : s = [] := List.eq_nil_of_length_eq_zero (Nat.le_zero.mp hs)
    subst h0
    cases extra <;> rfl
  | succ n ih =>
    intro s hs
    have h1 : n + 1 + extra = (n + extra) + 1 := by omega
    rw [h1]
    cases s with
    | nil => rfl
    | cons c cs =>
      simp only [List.length_cons, Nat.succ_le_succ_iff] at hs
      simp only [removeElemsF]
      cases hm : elemAt p (c :: cs) with
      | none =>
        simp only
        rw [ih cs hs]
      | some m =>
        simp only
        have hlen := elemAt_afterClose_len p (c :: cs) m hm
        simp only [List.length_cons] at hlen
        rw [ih m.afterClose (by omega)]

theorem removeElemsF_ge (p : TagPat) (fuel : Nat) (s : Str) (hs : s.length ≤ fuel) :
    removeElemsF p fuel s = removeElems p s := by
  have h1 : fuel = s.length + (fuel - s.length) := by omega
  rw [h1, removeElemsF_add p s.length (fuel - s.length) s (Nat.le_refl _)]
  rfl

theorem findAllElemsF_add (p : TagPat) (fuel extra : Nat) :
    ∀ s : Str, s.length ≤ fuel →
    findAllElemsF p (fuel + extra) s = findAllElemsF p fuel s := by
  induction fuel with
  | zero =>
    intro s hs
    have h0 : s = [] := List.eq_nil_of_length_eq_zero (Nat.le_zero.mp hs)
    subst h0
    cases extra <;> rfl
  | succ n ih =>
    intro s hs
    have h1 : n + 1 + extra = (n + extra) + 1 := by omega
    rw [h1]
    cases s with
    | nil => rfl
    | cons c cs =>
      simp only [List.length_cons, Nat.succ_le_succ_iff] at hs
      simp only [findAllElemsF]
      cases hm : elemAt p (c :: cs) with
      | none =>
        simp only
        rw [ih cs hs]
      | some m =>
        simp only
        have hlen := elemAt_afterClose_len p (c :: cs) m hm
        simp only [List.length_cons] at hlen
        rw [ih m.afterClose (by omega)]

theorem findAllElemsF_ge (p : TagPat) (fuel : Nat) (s : Str) (hs : s.length ≤ fuel) :
    findAllElemsF p fuel s = findAllElems p s := by
  have h1 : fuel = s.length + (fuel - s.length) := by omega
  rw [h1, findAllElemsF_add p s.length (fuel - s.length) s (Nat.le_refl _)]
  rfl

theorem findAllTagsF_add (p : TagPat) (fuel extra : Nat) :
    ∀ s : Str, s.length ≤ fuel →
    findAllTagsF p (fuel + extra) s = findAllTagsF p fuel s := by
  induction fuel with
  | zero =>
    intro s hs
    have h0 : s = [] := List.eq_nil_of_length_eq_zero (Nat.le_zero.mp hs)
    subst h0
    cases extra <;> rfl
  | succ n ih =>
    intro s hs
    have h1 : n + 1 + extra = (n + extra) + 1 := by omega
    rw [h1]
    cases s with
    | nil => rfl
    | cons c cs =>
      simp only [List.length_cons, Nat.succ_le_succ_iff] at hs
      simp only [findAllTagsF]
      cases hm : singleTagAt p (c :: cs) with
      | none =>
        simp only
        rw [ih cs hs]
      | some w =>
        obtain ⟨a, tag, rest⟩ := w
        simp only
        have hlen := singleTagAt_rest_len p (c :: cs) a tag rest hm
        simp only [List.length_cons] at hlen
        rw [ih rest (by omega)]

theorem findAllTags_ge (p : TagPat) (fuel : Nat) (s : Str) (hs : s.length ≤ fuel) :
    findAllTagsF p fuel s = findAllTags p s := by
  have h1 : fuel = s.length + (fuel - s.length) := by omega
  rw [h1, findAllTagsF_add p s.length (fuel - s.length) s (Nat.le_refl _)]
  rfl

theorem replaceTagsF_add (p : TagPat) (f : Str → Str) (fuel extra : Nat) :
    ∀ s : Str, s.length ≤ fuel →
    replaceTagsF p f (fuel + extra) s = replaceTagsF p f fuel s := by
  induction fuel with
  | zero =>
    intro s hs
    have h0 : s = [] := List.eq_nil_of_length_eq_zero (Nat.le_zero.mp hs)
    subst h0
    cases extra <;> rfl
  | succ n ih =>
    intro s hs
    have h1 : n + 1 + extra = (n + extra) + 1 := by omega
    rw [h1]
    cases s with
    | nil => rfl
    | cons c cs =>
      simp only [List.length_cons, Nat.succ_le_succ_iff] at hs
      simp only [replaceTagsF]
      cases hm : singleTagAt p (c :: cs) with
      | none =>
        simp only
        rw [ih cs hs]
      | some w =>
        obtain ⟨a, tag, rest⟩ := w
        simp only
        have hlen := singleTagAt_rest_len p (c :: cs) a tag rest hm
        simp only [List.length_cons] at hlen
        rw [ih rest (by omega)]

theorem replaceTags_ge (p : TagPat) (f : Str → Str) (fuel : Nat) (s : Str)
    (hs : s.length ≤ fuel) : replaceTagsF p f fuel s = replaceTags p f s := by
  have h1 : fuel = s.length + (fuel - s.length) := by omega
  rw [h1, replaceTagsF_add p f s.length (fuel - s.length) s (Nat.le_refl _)]
  rfl

theorem removeMetaNameF_add (q : Char) (name : Str) (fuel extra : Nat) :
    ∀ s : Str, s.length ≤ fuel →
    removeMetaNameF q name (fuel + extra) s = removeMetaNameF q name fuel s := by
  induction fuel with
  | zero =>
    intro s hs
    have h0 : s = [] := List.eq_nil_of_length_eq_zero (Nat.le_zero.mp hs)
    subst h0
    cases extra <;> rfl
  | succ n ih =>
    intro s hs
    have h1 : n + 1 + extra = (n + extra) + 1 := by omega
    rw [h1]
    cases s with
    | nil => rfl
    | cons c cs =>
      simp only [List.length_cons, Nat.succ_le_succ_iff] at hs
      simp only [removeMetaNameF]
      cases hm : metaNameTagAt q name (c :: cs) with
      | none =>
        simp only
        rw [ih cs hs]
      | some rest =>
        simp only
        have hlen := metaNameTagAt_rest_len q name (c :: cs) rest hm
        simp only [List.length_cons] at hlen
        rw [ih rest (by omega)]

theorem removeMetaName_ge (q : Char) (name : Str) (fuel : Nat) (s : Str)
    (hs : s.length ≤ fuel) :
    removeMetaNameF q name fuel s = removeMetaName q name s := by
  have h1 : fuel = s.length + (fuel - s.length) := by omega
  rw [h1, removeMetaNameF_add q name s.length (fuel - s.length) s (Nat.le_refl _)]
  rfl

/-! #### Step lemmas for the scanning loops (on the wrappers) -/

theorem elemAt_not_lt (p : TagPat) (c : Char) (t : Str) (hc : (c == '<') = false) :
    elemAt p (c :: t) = none := by
  unfold elemAt
  rw [openTagAt_not_lt p c t hc]
  rfl

theorem elemAt_tag_nomatch (p : TagPat) (b t : Str) (hn : patNameOK p = true)
    (hb : bodyOK b = true) (hop : openBody p b = none) :
    elemAt p ('<' :: (b ++ '>' :: t)) = none := by
  unfold elemAt
  rw [openTagAt_render p b t hn hb, hop]
  rfl

theorem removeElems_cons_nomatch (p : TagPat) (c : Char) (cs : Str)
    (h : elemAt p (c :: cs) = none) :
    removeElems p (c :: cs) = (c :: (removeElems p cs).1, (removeElems p cs).2) := by
  unfold removeElems
  simp only [List.length_cons, removeElemsF, h]

theorem removeElems_cons_match (p : TagPat) (c : Char) (cs : Str) (m : ElemAtM)
    (h : elemAt p (c :: cs) = some m) :
    removeElems p (c :: cs) = ((removeElems p m.afterClose).1, true) := by
  unfold removeElems
  simp only [List.length_cons, removeElemsF, h]
  have hlen := elemAt_afterClose_len p (c :: cs) m h
  simp only [List.length_cons] at hlen
  rw [removeElemsF_ge p cs.length m.afterClose (by omega)]
  rfl

theorem removeElems_skip_noLt (p : TagPat) (s rest : Str) (hs : noLt s = true) :
    removeElems p (s ++ rest)
      = (s ++ (removeElems p rest).1, (removeElems p rest).2) := by
  induction s with
  | nil => simp
  | cons c cs ih =>
    simp only [noLt, List.all_cons, Bool.and_eq_true] at hs
    have hc : (c == '<') = false := by simpa using hs.1
    simp only [List.cons_append]
    rw [removeElems_cons_nomatch p c (cs ++ rest) (elemAt_not_lt p c _ hc), ih hs.2]

theorem findAllElems_cons_nomatch (p : TagPat) (c : Char) (cs : Str)
    (h : elemAt p (c :: cs) = none) :
    findAllElems p (c :: cs) = findAllElems p cs := by
  unfold findAllElems
  simp only [List.length_cons, findAllElemsF, h]

theorem findAllElems_cons_match (p : TagPat) (c : Char) (cs : Str) (m : ElemAtM)
    (h : elemAt p (c :: cs) = some m) :
    findAllElems p (c :: cs) = (m.attrs, m.inner) :: findAllElems p m.afterClose := by
  unfold findAllElems
  simp only [List.length_cons, findAllElemsF, h]
  have hlen := elemAt_afterClose_len p (c :: cs) m h
  simp only [List.length_cons] at hlen
  rw [findAllElemsF_ge p cs.length m.afterClose (by omega)]
  rfl

theorem findAllElems_skip_noLt (p : TagPat) (s rest : Str) (hs : noLt s = true) :
    findAllElems p (s ++ rest) = findAllElems p rest := by
  induction s with
  | nil => simp
  | cons c cs ih =>
    simp only [noLt, List.all_cons, Bool.and_eq_true] at hs
    have hc : (c == '<') = false := by simpa using hs.1
    simp only [List.cons_append]
    rw [findAllElems_cons_nomatch p c (cs ++ rest) (elemAt_not_lt p c _ hc), ih hs.2]

theorem singleTagAt_not_lt (p : TagPat) (c : Char) (t : Str)
    (hc : (c == '<') = false) : singleTagAt p (c :: t) = none := by
  unfold singleTagAt
  rw [openTagAt_not_lt p c t hc]
  rfl

theorem singleTagAt_tag_nomatch (p : TagPat) (b t : Str) (hn : patNameOK p = true)
    (hb : bodyOK b = true) (hop : openBody p b = none) :
    singleTagAt p ('<' :: (b ++ '>' :: t)) = none := by
  unfold singleTagAt
  rw [openTagAt_render p b t hn hb, hop]
  rfl

theorem singleTagAt_tag_match (p : TagPat) (b t : Str) (a : Str)
    (hn : patNameOK p = true) (hb : bodyOK b = true) (hop : openBody p b = some a) :
    singleTagAt p ('<' :: (b ++ '>' :: t))
      = some (a, '<' :: (b ++ ['>']), t) := by
  unfold singleTagAt
  rw [openTagAt_render p b t hn hb, hop]
  have hs : ('<' :: (b ++ '>' :: t)) = ('<' :: (b ++ ['>'])) ++ t := by simp
  have hnum : ('<' :: (b ++ '>' :: t)).length - t.length
      = ('<' :: (b ++ ['>'])).length := by
    simp only [List.length_cons, List.length_append, List.length_nil]
    omega
  show some (a, ('<' :: (b ++ '>' :: t)).take (('<' :: (b ++ '>' :: t)).length
      - t.length), t) = some (a, '<' :: (b ++ ['>']), t)
  rw [hnum, hs, List.take_left]

theorem findAllTags_cons_nomatch (p : TagPat) (c : Char) (cs : Str)
    (h : singleTagAt p (c :: cs) = none) :
    findAllTags p (c :: cs) = findAllTags p cs := by
  unfold findAllTags
  simp only [List.length_cons, findAllTagsF, h]

theorem findAllTags_cons_match (p : TagPat) (c : Char) (cs : Str)
    (a tag rest : Str) (h : singleTagAt p (c :: cs) = some (a, tag, rest)) :
    findAllTags p (c :: cs) = a :: findAllTags p rest := by
  unfold findAllTags
  simp only [List.length_cons, findAllTagsF, h]
  have hlen := singleTagAt_rest_len p (c :: cs) a tag rest h
  simp only [List.length_cons] at hlen
  rw [findAllTags_ge p cs.length rest (by omega)]
  rfl

theorem findAllTags_skip_noLt (p : TagPat) (s rest : Str) (hs : noLt s = true) :
    findAllTags p (s ++ rest) = findAllTags p rest := by
  induction s with
  | nil => simp
  | cons c cs ih =>
    simp only [noLt, List.all_cons, Bool.and_eq_true] at hs
    have hc : (c == '<') = false := by simpa using hs.1
    simp only [List.cons_append]
    rw [findAllTags_cons_nomatch p c (cs ++ rest) (singleTagAt_not_lt p c _ hc),
        ih hs.2]

theorem replaceTags_cons_nomatch (p : TagPat) (f : Str → Str) (c : Char) (cs : Str)
    (h : singleTagAt p (c :: cs) = none) :
    replaceTags p f (c :: cs) = c :: replaceTags p f cs := by
  unfold replaceTags
  simp only [List.length_cons, replaceTagsF, h]

theorem replaceTags_cons_match (p : TagPat) (f : Str → Str) (c : Char) (cs : Str)
    (a tag rest : Str) (h : singleTagAt p (c :: cs) = some (a, tag, rest)) :
    replaceTags p f (c :: cs) = f tag ++ replaceTags p f rest := by
  unfold replaceTags
  simp only [List.length_cons, replaceTagsF, h]
  have hlen := singleTagAt_rest_len p (c :: cs) a tag rest h
  simp only [List.length_cons] at hlen
  rw [replaceTags_ge p f cs.length rest (by omega)]
  rfl

theorem replaceTags_skip_noLt (p : TagPat) (f : Str → Str) (s rest : Str)
    (hs : noLt s = true) :
    replaceTags p f (s ++ rest) = s ++ replaceTags p f rest := by
  induction s with
  | nil => simp
  | cons c cs ih =>
    simp only [noLt, List.all_cons, Bool.and_eq_true] at hs
    have hc : (c == '<') = false := by simpa using hs.1
    simp only [List.cons_append]
    rw [replaceTags_cons_nomatch p f c (cs ++ rest) (singleTagAt_not_lt p c _ hc),
        ih hs.2]

theorem metaNameTagAt_not_lt (q : Char) (name : Str) (c : Char) (t : Str)
    (hc : (c == '<') = false) : metaNameTagAt q name (c :: t) = none := by
  unfold metaNameTagAt
  rw [openTagAt_not_lt _ c t hc]
  rfl

theorem metaNameTagAt_tag (q : Char) (name : Str) (b t : Str)
    (hb : bodyOK b = true) :
    metaNameTagAt q name ('<' :: (b ++ '>' :: t))
      = (openBody metaPat b).bind fun a =>
          if containsNameEq q name a then some t else none := by
  have h0 : metaNameTagAt q name ('<' :: (b ++ '>' :: t))
      = (openTagAt metaPat ('<' :: (b ++ '>' :: t))).bind fun w =>
          if containsNameEq q name w.1 then some w.2 else none := rfl
  rw [h0, openTagAt_render metaPat b t (by decide) hb]
  cases ho : openBody metaPat b with
  | none => rfl
  | some a => rfl

theorem removeMetaName_cons_nomatch (q : Char) (name : Str) (c : Char) (cs : Str)
    (h : metaNameTagAt q name (c :: cs) = none) :
    removeMetaName q name (c :: cs)
      = (c :: (removeMetaName q name cs).1, (removeMetaName q name cs).2) := by
  unfold removeMetaName
  simp only [List.length_cons, removeMetaNameF, h]

theorem removeMetaName_cons_match (q : Char) (name : Str) (c : Char) (cs : Str)
    (rest : Str) (h : metaNameTagAt q name (c :: cs) = some rest) :
    removeMetaName q name (c :: cs)
      = ((removeMetaName q name rest).1, true) := by
  unfold removeMetaName
  simp only [List.length_cons, removeMetaNameF, h]
  have hlen := metaNameTagAt_rest_len q name (c :: cs) rest h
  simp only [List.length_cons] at hlen
  rw [removeMetaName_ge q name cs.length rest (by omega)]
  rfl

theorem removeMetaName_skip_noLt (q : Char) (name : Str) (s rest : Str)
    (hs : noLt s = true) :
    removeMetaName q name (s ++ rest)
      = (s ++ (removeMetaName q name rest).1, (removeMetaName q name rest).2) := by
  induction s with
  | nil => simp
  | cons c cs ih =>
    simp only [noLt, List.all_cons, Bool.and_eq_true] at hs
    have hc : (c == '<') = false := by simpa using hs.1
    simp only [List.cons_append]
    rw [removeMetaName_cons_nomatch q name c (cs ++ rest)
        (metaNameTagAt_not_lt q name c _ hc), ih hs.2]

theorem findElem_cons_nomatch (p : TagPat) (c : Char) (cs : Str)
    (h : elemAt p (c :: cs) = none) :
    findElem p (c :: cs) = (findElem p cs).map fun m => { m with pre := c :: m.pre } := by
  have h0 : findElem p (c :: cs)
      = match elemAt p (c :: cs) with
        | some m => some ⟨(c :: cs).take m.openLen, m.attrs, m.inner, m.post⟩
        | none => (findElem p cs).map fun m => { m with pre := c :: m.pre } := rfl
  rw [h0, h]

theorem findElem_cons_match (p : TagPat) (c : Char) (cs : Str) (m : ElemAtM)
    (h : elemAt p (c :: cs) = some m) :
    findElem p (c :: cs)
      = some ⟨(c :: cs).take m.openLen, m.attrs, m.inner, m.post⟩ := by
  have h0 : findElem p (c :: cs)
      = match elemAt p (c :: cs) with
        | some m => some ⟨(c :: cs).take m.openLen, m.attrs, m.inner, m.post⟩
        | none => (findElem p cs).map fun m => { m with pre := c :: m.pre } := rfl
  rw [h0, h]

theorem findElem_skip_noLt (p : TagPat) (s rest : Str) (hs : noLt s = true) :
    findElem p (s ++ rest)
      = (findElem p rest).map fun m => { m with pre := s ++ m.pre } := by
  induction s with
  | nil =>
    simp only [List.nil_append]
    cases findElem p rest <;> simp
  | cons c cs ih =>
    simp only [noLt, List.all_cons, Bool.and_eq_true] at hs
    have hc : (c == '<') = false := by simpa using hs.1
    simp only [List.cons_append]
    rw [findElem_cons_nomatch p c (cs ++ rest) (elemAt_not_lt p c _ hc), ih hs.2]
    cases findElem p rest <;> simp

/-! #### Item-level lemmas for the scanners -/

theorem renderItems_cons (i : Item) (l : List Item) :
    renderItems (i :: l) = renderItem i ++ renderItems l := by
  simp [renderItems]

theorem renderItems_append (l1 l2 : List Item) :
    renderItems (l1 ++ l2) = renderItems l1 ++ renderItems l2 := by
  simp [renderItems]

theorem bodyOK_noLt (b : Str) (h : bodyOK b = true) : noLt b = true := by
  simp only [bodyOK, Bool.and_eq_true] at h
  exact h.1

theorem bodyOK_noGt (b : Str) (h : bodyOK b = true) : noGt b = true := by
  simp only [bodyOK, Bool.and_eq_true] at h
  exact h.2

theorem noLt_append (x y : Str) (hx : noLt x = true) (hy : noLt y = true) :
    noLt (x ++ y) = true := by
  simp only [noLt, List.all_append]
  simp only [noLt] at hx hy
  simp [hx, hy]

theorem noLt_tagClose (b : Str) (h : bodyOK b = true) : noLt (b ++ ['>']) = true :=
  noLt_append b ['>'] (bodyOK_noLt b h) (by decide)

theorem findClose_skip_noLt (p : TagPat) (s rest : Str) (hs : noLt s = true) :
    findClose p (s ++ rest)
      = (findClose p rest).map fun q => (s ++ q.1, q.2) := by
  induction s with
  | nil =>
    simp only [List.nil_append]
    cases findClose p rest <;> simp
  | cons c cs ih =>
    simp only [noLt, List.all_cons, Bool.and_eq_true] at hs
    have hc : (c == '<') = false := by simpa using hs.1
    have h0 : findClose p ((c :: cs) ++ rest)
        = match closeTagAt p (c :: (cs ++ rest)) with
          | some r2 => some ([], r2)
          | none => (findClose p (cs ++ rest)).map fun q => (c :: q.1, q.2) := rfl
    rw [h0, closeTagAt_not_lt p c (cs ++ rest) hc, ih hs.2]
    cases findClose p rest <;> simp

theorem findClose_at_close (p : TagPat) (c t : Str) (hn : patNameOK p = true)
    (hc : bodyOK c = true) (hcl : closeBody p c = true) :
    findClose p ('<' :: (c ++ '>' :: t)) = some ([], t) := by
  have h0 : findClose p ('<' :: (c ++ '>' :: t))
      = match closeTagAt p ('<' :: (c ++ '>' :: t)) with
        | some rest => some ([], rest)
        | none => (findClose p (c ++ '>' :: t)).map fun q => ('<' :: q.1, q.2) := rfl
  rw [h0, closeTagAt_render p c t hn hc, hcl]
  simp

theorem findClose_skip_tag (p : TagPat) (b rest : Str)
    (hn : patNameOK p = true) (hb : bodyOK b = true)
    (hcl : closeBody p b = false) :
    findClose p ('<' :: (b ++ '>' :: rest))
      = (findClose p rest).map fun q => ('<' :: (b ++ '>' :: q.1), q.2) := by
  have h0 : findClose p ('<' :: (b ++ '>' :: rest))
      = match closeTagAt p ('<' :: (b ++ '>' :: rest)) with
        | some r2 => some ([], r2)
        | none => (findClose p (b ++ '>' :: rest)).map fun q => ('<' :: q.1, q.2) := rfl
  rw [h0, closeTagAt_render p b rest hn hb, hcl]
  simp only [Bool.false_eq_true, if_false, reduceIte]
  have h1 : b ++ '>' :: rest = (b ++ ['>']) ++ rest := by simp
  rw [h1, findClose_skip_noLt p (b ++ ['>']) rest (noLt_tagClose b hb)]
  cases findClose p rest <;> simp

theorem elemAt_render_match (p : TagPat) (b v c t : Str) (a : Str)
    (hn : patNameOK p = true) (hb : bodyOK b = true) (hv : noLt v = true)
    (hc : bodyOK c = true) (hop : openBody p b = some a)
    (hcl : closeBody p c = true) :
    elemAt p ('<' :: (b ++ '>' :: (v ++ '<' :: (c ++ '>' :: t))))
      = some ⟨a, b.length + 2, v, '<' :: (c ++ '>' :: t), t⟩ := by
  unfold elemAt
  rw [openTagAt_render p b _ hn hb, hop]
  have hfc : findClose p (v ++ '<' :: (c ++ '>' :: t)) = some (v, t) := by
    rw [findClose_skip_noLt p v ('<' :: (c ++ '>' :: t)) hv,
        findClose_at_close p c t hn hc hcl]
    simp
  show ((findClose p (v ++ '<' :: (c ++ '>' :: t))).map fun w =>
      (⟨a, ('<' :: (b ++ '>' :: (v ++ '<' :: (c ++ '>' :: t)))).length
          - (v ++ '<' :: (c ++ '>' :: t)).length, w.1,
        (v ++ '<' :: (c ++ '>' :: t)).drop w.1.length, w.2⟩ : ElemAtM))
    = some ⟨a, b.length + 2, v, '<' :: (c ++ '>' :: t), t⟩
  rw [hfc]
  have hlen : ('<' :: (b ++ '>' :: (v ++ '<' :: (c ++ '>' :: t)))).length
      - (v ++ '<' :: (c ++ '>' :: t)).length = b.length + 2 := by
    simp only [List.length_cons, List.length_append]
    omega
  have hdrop : (v ++ '<' :: (c ++ '>' :: t)).drop v.length
      = '<' :: (c ++ '>' :: t) := by
    rw [drop_append_le v.length v _ (Nat.le_refl _), List.drop_length]
    rfl
  show some (⟨a, ('<' :: (b ++ '>' :: (v ++ '<' :: (c ++ '>' :: t)))).length
      - (v ++ '<' :: (c ++ '>' :: t)).length, v,
      (v ++ '<' :: (c ++ '>' :: t)).drop v.length, t⟩ : ElemAtM)
    = some ⟨a, b.length + 2, v, '<' :: (c ++ '>' :: t), t⟩
  rw [hlen, hdrop]

theorem removeElems_items (p : TagPat) (hn : patNameOK p = true) (l : List Item)
    (rest : Str) (h : ∀ i ∈ l, elemOKQ p i = true) :
    removeElems p (renderItems l ++ rest)
      = (renderItems (l.filter fun i => !(elemMatchQ p i))
          ++ (removeElems p rest).1,
         l.any (elemMatchQ p) || (removeElems p rest).2) := by
  induction l with
  | nil => simp [renderItems]
  | cons i r ih =>
    have hi := h i (by simp)
    have hr := ih (fun j hj => h j (by simp [hj]))
    rw [renderItems_cons, List.append_assoc]
    cases i with
    | txt s =>
      simp only [elemOKQ] at hi
      have hrw : renderItem (.txt s) = s := rfl
      rw [hrw, removeElems_skip_noLt p s _ hi, hr]
      simp [elemMatchQ, List.filter_cons, renderItems_cons, renderItem]
    | solo b =>
      simp only [elemOKQ, Bool.and_eq_true, Option.isNone_iff_eq_none] at hi
      have hrw : renderItem (.solo b) ++ (renderItems r ++ rest)
          = '<' :: (b ++ '>' :: (renderItems r ++ rest)) := by simp [renderItem]
      rw [hrw,
        removeElems_cons_nomatch p '<' _ (elemAt_tag_nomatch p b _ hn hi.1 hi.2)]
      have hb2 : b ++ '>' :: (renderItems r ++ rest)
          = (b ++ ['>']) ++ (renderItems r ++ rest) := by simp
      rw [hb2, removeElems_skip_noLt p (b ++ ['>']) _ (noLt_tagClose b hi.1), hr]
      simp [elemMatchQ, List.filter_cons, renderItems_cons, renderItem]
    | elem b v c =>
      simp only [elemOKQ, Bool.and_eq_true, Option.isNone_iff_eq_none] at hi
      obtain ⟨⟨⟨⟨hb1, hv1⟩, hc1⟩, hoc⟩, hpair⟩ := hi
      have hrw : renderItem (.elem b v c) ++ (renderItems r ++ rest)
          = '<' :: (b ++ '>' :: (v ++ '<' :: (c ++ '>' :: (renderItems r ++ rest)))) := by
        simp [renderItem]
      rw [hrw]
      cases ho : openBody p b with
      | some a =>
        have hcl : closeBody p c = true := by
          rw [ho] at hpair
          simpa using hpair
        rw [removeElems_cons_match p '<' _ _
          (elemAt_render_match p b v c _ a hn hb1 hv1 hc1 ho hcl)]
        rw [hr]
        simp [elemMatchQ, ho, List.filter_cons, List.any_cons]
      | none =>
        rw [removeElems_cons_nomatch p '<' _ (elemAt_tag_nomatch p b _ hn hb1 ho)]
        have h2 : b ++ '>' :: (v ++ '<' :: (c ++ '>' :: (renderItems r ++ rest)))
            = ((b ++ ['>']) ++ v) ++ ('<' :: (c ++ '>' :: (renderItems r ++ rest))) := by
          simp
        rw [h2, removeElems_skip_noLt p ((b ++ ['>']) ++ v) _
          (noLt_append _ v (noLt_tagClose b hb1) hv1)]
        rw [removeElems_cons_nomatch p '<' _
          (elemAt_tag_nomatch p c _ hn hc1 hoc)]
        have h3 : c ++ '>' :: (renderItems r ++ rest)
            = (c ++ ['>']) ++ (renderItems r ++ rest) := by simp
        rw [h3, removeElems_skip_noLt p (c ++ ['>']) _ (noLt_tagClose c hc1), hr]
        simp [elemMatchQ, ho, List.filter_cons, renderItems_cons, renderItem]

theorem findAllElems_items (p : TagPat) (hn : patNameOK p = true) (l : List Item)
    (rest : Str) (h : ∀ i ∈ l, elemOKQ p i = true) :
    findAllElems p (renderItems l ++ rest)
      = (l.filterMap fun i => match i with
          | .elem b v _ => (openBody p b).map fun a => (a, v)
          | _ => none) ++ findAllElems p rest := by
  induction l with
  | nil => simp [renderItems]
  | cons i r ih =>
    have hi := h i (by simp)
    have hr := ih (fun j hj => h j (by simp [hj]))
    rw [renderItems_cons, List.append_assoc]
    cases i with
    | txt s =>
      simp only [elemOKQ] at hi
      have hrw : renderItem (.txt s) = s := rfl
      rw [hrw, findAllElems_skip_noLt p s _ hi, hr]
      simp
    | solo b =>
      simp only [elemOKQ, Bool.and_eq_true, Option.isNone_iff_eq_none] at hi
      have hrw : renderItem (.solo b) ++ (renderItems r ++ rest)
          = '<' :: (b ++ '>' :: (renderItems r ++ rest)) := by simp [renderItem]
      rw [hrw,
        findAllElems_cons_nomatch p '<' _ (elemAt_tag_nomatch p b _ hn hi.1 hi.2)]
      have hb2 : b ++ '>' :: (renderItems r ++ rest)
          = (b ++ ['>']) ++ (renderItems r ++ rest) := by simp
      rw [hb2, findAllElems_skip_noLt p (b ++ ['>']) _ (noLt_tagClose b hi.1), hr]
      simp
    | elem b v c =>
      simp only [elemOKQ, Bool.and_eq_true, Option.isNone_iff_eq_none] at hi
      obtain ⟨⟨⟨⟨hb1, hv1⟩, hc1⟩, hoc⟩, hpair⟩ := hi
      have hrw : renderItem (.elem b v c) ++ (renderItems r ++ rest)
          = '<' :: (b ++ '>' :: (v ++ '<' :: (c ++ '>' :: (renderItems r ++ rest)))) := by
        simp [renderItem]
      rw [hrw]
      cases ho : openBody p b with
      | some a =>
        have hcl : closeBody p c = true := by
          rw [ho] at hpair
          simpa using hpair
        rw [findAllElems_cons_match p '<' _ _
          (elemAt_render_match p b v c _ a hn hb1 hv1 hc1 ho hcl)]
        rw [hr]
        simp [ho]
      | none =>
        rw [findAllElems_cons_nomatch p '<' _ (elemAt_tag_nomatch p b _ hn hb1 ho)]
        have h2 : b ++ '>' :: (v ++ '<' :: (c ++ '>' :: (renderItems r ++ rest)))
            = ((b ++ ['>']) ++ v) ++ ('<' :: (c ++ '>' :: (renderItems r ++ rest))) := by
          simp
        rw [h2, findAllElems_skip_noLt p ((b ++ ['>']) ++ v) _
          (noLt_append _ v (noLt_tagClose b hb1) hv1)]
        rw [findAllElems_cons_nomatch p '<' _
          (elemAt_tag_nomatch p c _ hn hc1 hoc)]
        have h3 : c ++ '>' :: (renderItems r ++ rest)
            = (c ++ ['>']) ++ (renderItems r ++ rest) := by simp
        rw [h3, findAllElems_skip_noLt p (c ++ ['>']) _ (noLt_tagClose c hc1), hr]
        simp [ho]

theorem findElem_items_none (p : TagPat) (hn : patNameOK p = true) (l : List Item)
    (rest : Str) (h : ∀ i ∈ l, elemOKQ p i = true)
    (hnm : l.all (fun i => !(elemMatchQ p i)) = true) :
    findElem p (renderItems l ++ rest)
      = (findElem p rest).map fun m => { m with pre := renderItems l ++ m.pre } := by
  induction l with
  | nil =>
    simp only [renderItems, List.map_nil, List.flatten_nil, List.nil_append]
    cases findElem p rest <;> simp
  | cons i r ih =>
    have hi := h i (by simp)
    simp only [List.all_cons, Bool.and_eq_true] at hnm
    have hr := ih (fun j hj => h j (by simp [hj])) hnm.2
    rw [renderItems_cons, List.append_assoc]
    cases i with
    | txt s =>
      simp only [elemOKQ] at hi
      have hrw : renderItem (.txt s) = s := rfl
      rw [hrw, findElem_skip_noLt p s _ hi, hr]
      cases findElem p rest <;> simp [renderItems_cons, renderItem]
    | solo b =>
      simp only [elemOKQ, Bool.and_eq_true, Option.isNone_iff_eq_none] at hi
      have hrw : renderItem (.solo b) ++ (renderItems r ++ rest)
          = '<' :: (b ++ '>' :: (renderItems r ++ rest)) := by simp [renderItem]
      rw [hrw,
        findElem_cons_nomatch p '<' _ (elemAt_tag_nomatch p b _ hn hi.1 hi.2)]
      have hb2 : b ++ '>' :: (renderItems r ++ rest)
          = (b ++ ['>']) ++ (renderItems r ++ rest) := by simp
      rw [hb2, findElem_skip_noLt p (b ++ ['>']) _ (noLt_tagClose b hi.1), hr]
      cases findElem p rest <;> simp [renderItems_cons, renderItem]
    | elem b v c =>
      simp only [elemOKQ, Bool.and_eq_true, Option.isNone_iff_eq_none] at hi
      obtain ⟨⟨⟨⟨hb1, hv1⟩, hc1⟩, hoc⟩, hpair⟩ := hi
      have ho : openBody p b = none := by
        cases hob : openBody p b with
        | none => rfl
        | some a =>
          have h5 := hnm.1
          simp [elemMatchQ, hob] at h5
      have hrw : renderItem (.elem b v c) ++ (renderItems r ++ rest)
          = '<' :: (b ++ '>' :: (v ++ '<' :: (c ++ '>' :: (renderItems r ++ rest)))) := by
        simp [renderItem]
      rw [hrw]
      rw [findElem_cons_nomatch p '<' _ (elemAt_tag_nomatch p b _ hn hb1 ho)]
      have h2 : b ++ '>' :: (v ++ '<' :: (c ++ '>' :: (renderItems r ++ rest)))
          = ((b ++ ['>']) ++ v) ++ ('<' :: (c ++ '>' :: (renderItems r ++ rest))) := by
        simp
      rw [h2, findElem_skip_noLt p ((b ++ ['>']) ++ v) _
        (noLt_append _ v (noLt_tagClose b hb1) hv1)]
      rw [findElem_cons_nomatch p '<' _ (elemAt_tag_nomatch p c _ hn hc1 hoc)]
      have h3 : c ++ '>' :: (renderItems r ++ rest)
          = (c ++ ['>']) ++ (renderItems r ++ rest) := by simp
      rw [h3, findElem_skip_noLt p (c ++ ['>']) _ (noLt_tagClose c hc1), hr]
      cases findElem p rest <;> simp [renderItems_cons, renderItem]

theorem findElem_items_found (p : TagPat) (hn : patNameOK p = true)
    (l1 : List Item) (b v c : Str) (l2 : List Item) (rest : Str) (a : Str)
    (h1 : ∀ i ∈ l1, elemOKQ p i = true)
    (hnm : l1.all (fun i => !(elemMatchQ p i)) = true)
    (hb : bodyOK b = true) (hv : noLt v = true) (hc : bodyOK c = true)
    (hop : openBody p b = some a) (hcl : closeBody p c = true) :
    findElem p (renderItems (l1 ++ .elem b v c :: l2) ++ rest)
      = some ⟨renderItems l1 ++ '<' :: (b ++ ['>']), a, v,
          '<' :: (c ++ '>' :: (renderItems l2 ++ rest))⟩ := by
  rw [renderItems_append, renderItems_cons, List.append_assoc, List.append_assoc]
  rw [findElem_items_none p hn l1 _ h1 hnm]
  have hrw : renderItem (.elem b v c) ++ (renderItems l2 ++ rest)
      = '<' :: (b ++ '>' :: (v ++ '<' :: (c ++ '>' :: (renderItems l2 ++ rest)))) := by
    simp [renderItem]
  rw [hrw, findElem_cons_match p '<' _ _
    (elemAt_render_match p b v c _ a hn hb hv hc hop hcl)]
  have htake : ('<' :: (b ++ '>' :: (v ++ '<' :: (c ++ '>' :: (renderItems l2 ++ rest))))).take
      (b.length + 2) = '<' :: (b ++ ['>']) := by
    have hs : '<' :: (b ++ '>' :: (v ++ '<' :: (c ++ '>' :: (renderItems l2 ++ rest))))
        = ('<' :: (b ++ ['>'])) ++ (v ++ '<' :: (c ++ '>' :: (renderItems l2 ++ rest))) := by
      simp
    have hnum : b.length + 2 = ('<' :: (b ++ ['>'])).length := by
      simp only [List.length_cons, List.length_append, List.length_nil]
    rw [hs, hnum, List.take_left]
  simp [htake]

theorem findAllTags_items (p : TagPat) (hn : patNameOK p = true) (l : List Item)
    (rest : Str) (h : ∀ i ∈ l, tagOKQ p i = true) :
    findAllTags p (renderItems l ++ rest)
      = (l.filterMap (soloMatch p)) ++ findAllTags p rest := by
  induction l with
  | nil => simp [renderItems]
  | cons i r ih =>
    have hi := h i (by simp)
    have hr := ih (fun j hj => h j (by simp [hj]))
    rw [renderItems_cons, List.append_assoc]
    cases i with
    | txt s =>
      simp only [tagOKQ] at hi
      have hrw : renderItem (.txt s) = s := rfl
      rw [hrw, findAllTags_skip_noLt p s _ hi, hr]
      simp [soloMatch]
    | solo b =>
      simp only [tagOKQ] at hi
      have hrw : renderItem (.solo b) ++ (renderItems r ++ rest)
          = '<' :: (b ++ '>' :: (renderItems r ++ rest)) := by simp [renderItem]
      rw [hrw]
      cases ho : openBody p b with
      | some a =>
        rw [findAllTags_cons_match p '<' _ a ('<' :: (b ++ ['>'])) _
          (singleTagAt_tag_match p b _ a hn hi ho), hr]
        simp [soloMatch, ho]
      | none =>
        rw [findAllTags_cons_nomatch p '<' _ (singleTagAt_tag_nomatch p b _ hn hi ho)]
        have hb2 : b ++ '>' :: (renderItems r ++ rest)
            = (b ++ ['>']) ++ (renderItems r ++ rest) := by simp
        rw [hb2, findAllTags_skip_noLt p (b ++ ['>']) _ (noLt_tagClose b hi), hr]
        simp [soloMatch, ho]
    | elem b v c =>
      simp only [tagOKQ, Bool.and_eq_true, Option.isNone_iff_eq_none] at hi
      obtain ⟨⟨⟨⟨hb1, hv1⟩, hc1⟩, hob⟩, hoc⟩ := hi
      have hrw : renderItem (.elem b v c) ++ (renderItems r ++ rest)
          = '<' :: (b ++ '>' :: (v ++ '<' :: (c ++ '>' :: (renderItems r ++ rest)))) := by
        simp [renderItem]
      rw [hrw]
      rw [findAllTags_cons_nomatch p '<' _ (singleTagAt_tag_nomatch p b _ hn hb1 hob)]
      have h2 : b ++ '>' :: (v ++ '<' :: (c ++ '>' :: (renderItems r ++ rest)))
          = ((b ++ ['>']) ++ v) ++ ('<' :: (c ++ '>' :: (renderItems r ++ rest))) := by
        simp
      rw [h2, findAllTags_skip_noLt p ((b ++ ['>']) ++ v) _
        (noLt_append _ v (noLt_tagClose b hb1) hv1)]
      rw [findAllTags_cons_nomatch p '<' _ (singleTagAt_tag_nomatch p c _ hn hc1 hoc)]
      have h3 : c ++ '>' :: (renderItems r ++ rest)
          = (c ++ ['>']) ++ (renderItems r ++ rest) := by simp
      rw [h3, findAllTags_skip_noLt p (c ++ ['>']) _ (noLt_tagClose c hc1), hr]
      simp [soloMatch]

theorem replaceTags_items (p : TagPat) (f : Str → Str) (hn : patNameOK p = true)
    (hf : ∀ x, f x = [] ∨ f x = x) (l : List Item) (rest : Str)
    (h : ∀ i ∈ l, tagOKQ p i = true) :
    replaceTags p f (renderItems l ++ rest)
      = renderItems (l.filter fun i => !(tagDropQ p f i)) ++ replaceTags p f rest := by
  induction l with
  | nil => simp [renderItems]
  | cons i r ih =>
    have hi := h i (by simp)
    have hr := ih (fun j hj => h j (by simp [hj]))
    rw [renderItems_cons, List.append_assoc]
    cases i with
    | txt s =>
      simp only [tagOKQ] at hi
      have hrw : renderItem (.txt s) = s := rfl
      rw [hrw, replaceTags_skip_noLt p f s _ hi, hr]
      simp [tagDropQ, List.filter_cons, renderItems_cons, renderItem]
    | solo b =>
      simp only [tagOKQ] at hi
      have hrw : renderItem (.solo b) ++ (renderItems r ++ rest)
          = '<' :: (b ++ '>' :: (renderItems r ++ rest)) := by simp [renderItem]
      rw [hrw]
      cases ho : openBody p b with
      | some a =>
        rw [replaceTags_cons_match p f '<' _ a ('<' :: (b ++ ['>'])) _
          (singleTagAt_tag_match p b _ a hn hi ho), hr]
        cases hfb : f ('<' :: (b ++ ['>'])) with
        | nil =>
          have hdrop : tagDropQ p f (.solo b) = true := by
            simp [tagDropQ, ho, hfb]
          simp [hdrop, List.filter_cons]
        | cons x xs =>
          have hkeep : f ('<' :: (b ++ ['>'])) = '<' :: (b ++ ['>']) := by
            cases hf ('<' :: (b ++ ['>'])) with
            | inl h5 => rw [h5] at hfb; exact absurd hfb (by simp)
            | inr h5 => exact h5
          have hdrop : tagDropQ p f (.solo b) = false := by
            simp [tagDropQ, ho, hfb]
          rw [← hfb, hkeep]
          simp [hdrop, List.filter_cons, renderItems_cons, renderItem]
      | none =>
        rw [replaceTags_cons_nomatch p f '<' _ (singleTagAt_tag_nomatch p b _ hn hi ho)]
        have hb2 : b ++ '>' :: (renderItems r ++ rest)
            = (b ++ ['>']) ++ (renderItems r ++ rest) := by simp
        rw [hb2, replaceTags_skip_noLt p f (b ++ ['>']) _ (noLt_tagClose b hi), hr]
        have hdrop : tagDropQ p f (.solo b) = false := by
          simp [tagDropQ, ho]
        simp [hdrop, List.filter_cons, renderItems_cons, renderItem]
    | elem b v c =>
      simp only [tagOKQ, Bool.and_eq_true, Option.isNone_iff_eq_none] at hi
      obtain ⟨⟨⟨⟨hb1, hv1⟩, hc1⟩, hob⟩, hoc⟩ := hi
      have hrw : renderItem (.elem b v c) ++ (renderItems r ++ rest)
          = '<' :: (b ++ '>' :: (v ++ '<' :: (c ++ '>' :: (renderItems r ++ rest)))) := by
        simp [renderItem]
      rw [hrw]
      rw [replaceTags_cons_nomatch p f '<' _ (singleTagAt_tag_nomatch p b _ hn hb1 hob)]
      have h2 : b ++ '>' :: (v ++ '<' :: (c ++ '>' :: (renderItems r ++ rest)))
          = ((b ++ ['>']) ++ v) ++ ('<' :: (c ++ '>' :: (renderItems r ++ rest))) := by
        simp
      rw [h2, replaceTags_skip_noLt p f ((b ++ ['>']) ++ v) _
        (noLt_append _ v (noLt_tagClose b hb1) hv1)]
      rw [replaceTags_cons_nomatch p f '<' _ (singleTagAt_tag_nomatch p c _ hn hc1 hoc)]
      have h3 : c ++ '>' :: (renderItems r ++ rest)
          = (c ++ ['>']) ++ (renderItems r ++ rest) := by simp
      rw [h3, replaceTags_skip_noLt p f (c ++ ['>']) _ (noLt_tagClose c hc1), hr]
      simp [tagDropQ, List.filter_cons, renderItems_cons, renderItem]

theorem removeMetaName_items (q : Char) (name : Str) (l : List Item) (rest : Str)
    (h : ∀ i ∈ l, tagOKQ metaPat i = true) :
    removeMetaName q name (renderItems l ++ rest)
      = (renderItems (l.filter fun i => !(metaNameDropQ q name i))
          ++ (removeMetaName q name rest).1,
         l.any (metaNameDropQ q name) || (removeMetaName q name rest).2) := by
  induction l with
  | nil => simp [renderItems]
  | cons i r ih =>
    have hi := h i (by simp)
    have hr := ih (fun j hj => h j (by simp [hj]))
    rw [renderItems_cons, List.append_assoc]
    cases i with
    | txt s =>
      simp only [tagOKQ] at hi
      have hrw : renderItem (.txt s) = s := rfl
      rw [hrw, removeMetaName_skip_noLt q name s _ hi, hr]
      simp [metaNameDropQ, List.filter_cons, renderItems_cons, renderItem]
    | solo b =>
      simp only [tagOKQ] at hi
      have hrw : renderItem (.solo b) ++ (renderItems r ++ rest)
          = '<' :: (b ++ '>' :: (renderItems r ++ rest)) := by simp [renderItem]
      rw [hrw]
      have hmt := metaNameTagAt_tag q name b (renderItems r ++ rest) hi
      cases ho : openBody metaPat b with
      | some a =>
        rw [ho] at hmt
        have hmt2 : metaNameTagAt q name ('<' :: (b ++ '>' :: (renderItems r ++ rest)))
            = (if containsNameEq q name a then some (renderItems r ++ rest)
               else none) := hmt
        clear hmt
        by_cases hcn : containsNameEq q name a = true
        · rw [if_pos hcn] at hmt2
          rw [removeMetaName_cons_match q name '<' _ _ hmt2, hr]
          have hdrop : metaNameDropQ q name (.solo b) = true := by
            simp [metaNameDropQ, ho, hcn]
          simp [hdrop, List.filter_cons, List.any_cons]
        · rw [if_neg hcn] at hmt2
          rw [removeMetaName_cons_nomatch q name '<' _ hmt2]
          have hb2 : b ++ '>' :: (renderItems r ++ rest)
              = (b ++ ['>']) ++ (renderItems r ++ rest) := by simp
          rw [hb2, removeMetaName_skip_noLt q name (b ++ ['>']) _
            (noLt_tagClose b hi), hr]
          have hdrop : metaNameDropQ q name (.solo b) = false := by
            simp [metaNameDropQ, ho, hcn]
          simp [hdrop, List.filter_cons, renderItems_cons, renderItem]
      | none =>
        rw [ho] at hmt
        rw [removeMetaName_cons_nomatch q name '<' _ (by simpa using hmt)]
        have hb2 : b ++ '>' :: (renderItems r ++ rest)
            = (b ++ ['>']) ++ (renderItems r ++ rest) := by simp
        rw [hb2, removeMetaName_skip_noLt q name (b ++ ['>']) _
          (noLt_tagClose b hi), hr]
        have hdrop : metaNameDropQ q name (.solo b) = false := by
          simp [metaNameDropQ, ho]
        simp [hdrop, List.filter_cons, renderItems_cons, renderItem]
    | elem b v c =>
      simp only [tagOKQ, Bool.and_eq_true, Option.isNone_iff_eq_none] at hi
      obtain ⟨⟨⟨⟨hb1, hv1⟩, hc1⟩, hob⟩, hoc⟩ := hi
      have hrw : renderItem (.elem b v c) ++ (renderItems r ++ rest)
          = '<' :: (b ++ '>' :: (v ++ '<' :: (c ++ '>' :: (renderItems r ++ rest)))) := by
        simp [renderItem]
      rw [hrw]
      have hmt := metaNameTagAt_tag q name b
        (v ++ '<' :: (c ++ '>' :: (renderItems r ++ rest))) hb1
      rw [hob] at hmt
      rw [removeMetaName_cons_nomatch q name '<' _ (by simpa using hmt)]
      have h2 : b ++ '>' :: (v ++ '<' :: (c ++ '>' :: (renderItems r ++ rest)))
          = ((b ++ ['>']) ++ v) ++ ('<' :: (c ++ '>' :: (renderItems r ++ rest))) := by
        simp
      rw [h2, removeMetaName_skip_noLt q name ((b ++ ['>']) ++ v) _
        (noLt_append _ v (noLt_tagClose b hb1) hv1)]
      have hmt2 := metaNameTagAt_tag q name c (renderItems r ++ rest) hc1
      rw [hoc] at hmt2
      rw [removeMetaName_cons_nomatch q name '<' _ (by simpa using hmt2)]
      have h3 : c ++ '>' :: (renderItems r ++ rest)
          = (c ++ ['>']) ++ (renderItems r ++ rest) := by simp
      rw [h3, removeMetaName_skip_noLt q name (c ++ ['>']) _
        (noLt_tagClose c hc1), hr]
      simp [metaNameDropQ, List.filter_cons, renderItems_cons, renderItem]

theorem findClose_items (p : TagPat) (hn : patNameOK p = true) (l : List Item)
    (rest : Str) (h : ∀ i ∈ l, closeTransQ p i = true) :
    findClose p (renderItems l ++ rest)
      = (findClose p rest).map fun q => (renderItems l ++ q.1, q.2) := by
  induction l with
  | nil =>
    simp only [renderItems, List.map_nil, List.flatten_nil, List.nil_append]
    cases findClose p rest <;> simp
  | cons i r ih =>
    have hi := h i (by simp)
    have hr := ih (fun j hj => h j (by simp [hj]))
    rw [renderItems_cons, List.append_assoc]
    cases i with
    | txt s =>
      simp only [closeTransQ] at hi
      have hrw : renderItem (.txt s) = s := rfl
      rw [hrw, findClose_skip_noLt p s _ hi, hr]
      cases findClose p rest <;> simp [renderItems_cons, renderItem]
    | solo b =>
      simp only [closeTransQ, Bool.and_eq_true, Bool.not_eq_true'] at hi
      have hrw : renderItem (.solo b) ++ (renderItems r ++ rest)
          = '<' :: (b ++ '>' :: (renderItems r ++ rest)) := by simp [renderItem]
      rw [hrw, findClose_skip_tag p b _ hn hi.1 hi.2, hr]
      cases findClose p rest <;> simp [renderItems_cons, renderItem]
    | elem b v c =>
      simp only [closeTransQ, Bool.and_eq_true, Bool.not_eq_true'] at hi
      obtain ⟨⟨⟨⟨hb1, hv1⟩, hc1⟩, hclb⟩, hclc⟩ := hi
      have hrw : renderItem (.elem b v c) ++ (renderItems r ++ rest)
          = '<' :: (b ++ '>' :: (v ++ '<' :: (c ++ '>' :: (renderItems r ++ rest)))) := by
        simp [renderItem]
      rw [hrw, findClose_skip_tag p b _ hn hb1 hclb]
      rw [findClose_skip_noLt p v _ hv1]
      rw [findClose_skip_tag p c _ hn hc1 hclc, hr]
      cases findClose p rest <;> simp [renderItems_cons, renderItem]

/-! #### Value lemmas: escaping, unescaping, trimming -/

theorem all_flatten_of (f : Char → Bool) (parts : List Str)
    (h : ∀ x ∈ parts, x.all f = true) : (parts.flatten).all f = true := by
  induction parts with
  | nil => rfl
  | cons x xs ih =>
    simp only [List.flatten_cons, List.all_append]
    simp [h x (by simp), ih (fun y hy => h y (by simp [hy]))]

theorem noLt_escChar (c : Char) : noLt (escChar c) = true := by
  unfold escChar
  repeat' split
  all_goals first
  | decide
  | simp_all [noLt]

theorem noGt_escChar (c : Char) : noGt (escChar c) = true := by
  unfold escChar
  repeat' split
  all_goals first
  | decide
  | simp_all [noGt]

theorem noChar_escChar_dq (c : Char) : noChar '"' (escChar c) = true := by
  unfold escChar
  repeat' split
  all_goals first
  | decide
  | simp_all [noChar]

theorem noChar_escChar_sq (c : Char) : noChar '\'' (escChar c) = true := by
  unfold escChar
  repeat' split
  all_goals first
  | decide
  | simp_all [noChar]

theorem noLt_esc (w : Str) : noLt (xmlEscapeText w) = true := by
  unfold xmlEscapeText
  apply all_flatten_of
  intro x hx
  simp only [List.mem_map] at hx
  obtain ⟨c, _, hc⟩ := hx
  rw [← hc]
  exact noLt_escChar c

theorem noGt_esc (w : Str) : noGt (xmlEscapeText w) = true := by
  unfold xmlEscapeText
  apply all_flatten_of
  intro x hx
  simp only [List.mem_map] at hx
  obtain ⟨c, _, hc⟩ := hx
  rw [← hc]
  exact noGt_escChar c

theorem noChar_esc_dq (w : Str) : noChar '"' (xmlEscapeText w) = true := by
  unfold xmlEscapeText
  apply all_flatten_of
  intro x hx
  simp only [List.mem_map] at hx
  obtain ⟨c, _, hc⟩ := hx
  rw [← hc]
  exact noChar_escChar_dq c

theorem noChar_esc_sq (w : Str) : noChar '\'' (xmlEscapeText w) = true := by
  unfold xmlEscapeText
  apply all_flatten_of
  intro x hx
  simp only [List.mem_map] at hx
  obtain ⟨c, _, hc⟩ := hx
  rw [← hc]
  exact noChar_escChar_sq c

theorem bodyOK_of_esc_parts (x z : Str) (hx : bodyOK x = true)
    (hz : bodyOK z = true) (w : Str) :
    bodyOK (x ++ xmlEscapeText w ++ z) = true := by
  simp only [bodyOK, noLt, noGt, List.all_append, Bool.and_eq_true] at hx hz ⊢
  refine ⟨⟨⟨hx.1, ?_⟩, hz.1⟩, ⟨⟨hx.2, ?_⟩, hz.2⟩⟩
  · have := noLt_esc w
    simpa [noLt] using this
  · have := noGt_esc w
    simpa [noGt] using this

theorem stripTagsF_noLt (fuel : Nat) : ∀ s : Str, noLt s = true →
    stripTagsF fuel s = s := by
  induction fuel with
  | zero => intro s _; rfl
  | succ n ih =>
    intro s hs
    cases s with
    | nil => rfl
    | cons c cs =>
      simp only [noLt, List.all_cons, Bool.and_eq_true] at hs
      have hc : (c == '<') = false := by simpa using hs.1
      simp only [stripTagsF, hc]
      simp [ih cs hs.2]

theorem stripTags_noLt (s : Str) (h : noLt s = true) : stripTags s = s :=
  stripTagsF_noLt s.length s h

theorem parseEntity_d34 (rest : Str) :
    parseEntity (str "#34;" ++ rest) = some ('"', rest) := rfl

theorem parseEntity_d39 (rest : Str) :
    parseEntity (str "#39;" ++ rest) = some ('\'', rest) := rfl

theorem parseEntity_amp (rest : Str) :
    parseEntity (str "amp;" ++ rest) = some ('&', rest) := rfl

theorem parseEntity_lt (rest : Str) :
    parseEntity (str "lt;" ++ rest) = some ('<', rest) := rfl

theorem parseEntity_gt (rest : Str) :
    parseEntity (str "gt;" ++ rest) = some ('>', rest) := rfl

theorem parseEntity_x9 (rest : Str) :
    parseEntity (str "#x9;" ++ rest) = some ('\t', rest) := rfl

theorem parseEntity_xA (rest : Str) :
    parseEntity (str "#xA;" ++ rest) = some ('\n', rest) := rfl

theorem parseEntity_xD (rest : Str) :
    parseEntity (str "#xD;" ++ rest) = some ('\r', rest) := rfl

theorem xmlEscapeText_cons (c : Char) (cs : Str) :
    xmlEscapeText (c :: cs) = escChar c ++ xmlEscapeText cs := by
  simp [xmlEscapeText]

theorem htmlUnescapeF_amp (f : Nat) (entTail X : Str) (ch : Char)
    (hpe : parseEntity (entTail ++ X) = some (ch, X)) :
    htmlUnescapeF (f + 1) ('&' :: (entTail ++ X)) = ch :: htmlUnescapeF f X := by
  simp only [htmlUnescapeF, hpe, reduceIte]
  simp

theorem unescape_esc_step (cs : Str) (c : Char) (entTail : Str) (fuel : Nat)
    (ih : ∀ f : Nat, (xmlEscapeText cs).length ≤ f →
      htmlUnescapeF f (xmlEscapeText cs) = cs)
    (hE : escChar c = '&' :: entTail)
    (hpe : parseEntity (entTail ++ xmlEscapeText cs) = some (c, xmlEscapeText cs))
    (hfuel : (escChar c ++ xmlEscapeText cs).length ≤ fuel) :
    htmlUnescapeF fuel (escChar c ++ xmlEscapeText cs) = c :: cs := by
  rw [hE] at hfuel ⊢
  have hlen : (('&' :: entTail) ++ xmlEscapeText cs).length
      = entTail.length + 1 + (xmlEscapeText cs).length := by
    simp only [List.cons_append, List.length_cons, List.length_append]
    omega
  rw [hlen] at hfuel
  cases fuel with
  | zero => omega
  | succ f =>
    have h0 : ('&' :: entTail) ++ xmlEscapeText cs
        = '&' :: (entTail ++ xmlEscapeText cs) := rfl
    rw [h0, htmlUnescapeF_amp f _ _ _ hpe, ih f (by omega)]

theorem unescapeF_esc (v : Str) : ∀ fuel : Nat, (xmlEscapeText v).length ≤ fuel →
    htmlUnescapeF fuel (xmlEscapeText v) = v := by
  induction v with
  | nil =>
    intro fuel _
    cases fuel <;> rfl
  | cons c cs ih =>
    intro fuel hfuel
    rw [xmlEscapeText_cons] at hfuel ⊢
    by_cases h1 : (c == '\"') = true
    · have hq : c = '\"' := beq_iff_eq.mp h1
      subst hq
      exact unescape_esc_step cs '\"' (str "#34;") fuel ih rfl (parseEntity_d34 _) hfuel
    ·
      by_cases h2 : (c == '\'') = true
      · have hq : c = '\'' := beq_iff_eq.mp h2
        subst hq
        exact unescape_esc_step cs '\'' (str "#39;") fuel ih rfl (parseEntity_d39 _) hfuel
      ·
        by_cases h3 : (c == '&') = true
        · have hq : c = '&' := beq_iff_eq.mp h3
          subst hq
          exact unescape_esc_step cs '&' (str "amp;") fuel ih rfl (parseEntity_amp _) hfuel
        ·
          by_cases h4 : (c == '<') = true
          · have hq : c = '<' := beq_iff_eq.mp h4
            subst hq
            exact unescape_esc_step cs '<' (str "lt;") fuel ih rfl (parseEntity_lt _) hfuel
          ·
            by_cases h5 : (c == '>') = true
            · have hq : c = '>' := beq_iff_eq.mp h5
              subst hq
              exact unescape_esc_step cs '>' (str "gt;") fuel ih rfl (parseEntity_gt _) hfuel
            ·
              by_cases h6 : (c == '\t') = true
              · have hq : c = '\t' := beq_iff_eq.mp h6
                subst hq
                exact unescape_esc_step cs '\t' (str "#x9;") fuel ih rfl (parseEntity_x9 _) hfuel
              ·
                by_cases h7 : (c == '\n') = true
                · have hq : c = '\n' := beq_iff_eq.mp h7
                  subst hq
                  exact unescape_esc_step cs '\n' (str "#xA;") fuel ih rfl (parseEntity_xA _) hfuel
                ·
                  by_cases h8 : (c == '\r') = true
                  · have hq : c = '\r' := beq_iff_eq.mp h8
                    subst hq
                    exact unescape_esc_step cs '\r' (str "#xD;") fuel ih rfl (parseEntity_xD _) hfuel
                  ·
                    have hE : escChar c = [c] := by
                      unfold escChar
                      rw [if_neg (by simp [h1]), if_neg (by simp [h2]),
                        if_neg (by simp [h3]), if_neg (by simp [h4]),
                        if_neg (by simp [h5]), if_neg (by simp [h6]),
                        if_neg (by simp [h7]), if_neg (by simp [h8])]
                    rw [hE] at hfuel ⊢
                    have hlen : ([c] ++ xmlEscapeText cs).length
                        = 1 + (xmlEscapeText cs).length := by
                      simp only [List.cons_append, List.nil_append, List.length_cons]
                      omega
                    rw [hlen] at hfuel
                    cases fuel with
                    | zero => omega
                    | succ f =>
                      have h0 : [c] ++ xmlEscapeText cs = c :: xmlEscapeText cs := rfl
                      have h3f : (c == '&') = false := by simpa using h3
                      rw [h0]
                      simp only [htmlUnescapeF, h3f, Bool.false_eq_true, if_false, reduceIte]
                      rw [ih f (by omega)]

theorem unescape_esc (v : Str) : htmlUnescape (xmlEscapeText v) = v :=
  unescapeF_esc v (xmlEscapeText v).length (Nat.le_refl _)

theorem dropWhile_head_not (f : Char → Bool) (l : Str) :
    ∀ c, (l.dropWhile f).head? = some c → f c = false := by
  induction l with
  | nil => intro c hc; simp at hc
  | cons a as ih =>
    intro c hc
    by_cases hf : f a = true
    · rw [List.dropWhile_cons, if_pos hf] at hc
      exact ih c hc
    · rw [List.dropWhile_cons, if_neg hf] at hc
      have h2 : a = c := by simpa using hc
      subst h2
      simpa using hf

theorem dropWhile_eq_self_of_head (f : Char → Bool) (s : Str)
    (h : ∀ c, s.head? = some c → f c = false) : s.dropWhile f = s := by
  cases s with
  | nil => rfl
  | cons c cs =>
    rw [List.dropWhile_cons, if_neg]
    simp [h c rfl]

theorem trimSpace_eq_self (s : Str)
    (hh : ∀ c, s.head? = some c → goSpace c = false)
    (hl : ∀ c, s.getLast? = some c → goSpace c = false) :
    trimSpace s = s := by
  unfold trimSpace
  rw [dropWhile_eq_self_of_head goSpace s hh]
  rw [dropWhile_eq_self_of_head goSpace s.reverse
    (fun c hc => hl c (by rwa [List.head?_reverse] at hc))]
  simp

theorem trimSpace_last_nospace (v : Str) :
    ∀ c, (trimSpace v).getLast? = some c → goSpace c = false := by
  intro c hc
  unfold trimSpace at hc
  rw [List.getLast?_reverse] at hc
  exact dropWhile_head_not goSpace _ c hc

theorem trimSpace_head_nospace (v : Str) :
    ∀ c, (trimSpace v).head? = some c → goSpace c = false := by
  intro c hc
  unfold trimSpace at hc
  cases hd : v.dropWhile goSpace with
  | nil => rw [hd] at hc; simp at hc
  | cons d rest =>
    have hgd : goSpace d = false := by
      apply dropWhile_head_not goSpace v d
      rw [hd]
      rfl
    rw [hd, List.reverse_cons, List.dropWhile_append] at hc
    by_cases he : ((rest.reverse).dropWhile goSpace).isEmpty = true
    · rw [if_pos he] at hc
      have h2 : List.dropWhile goSpace [d] = [d] := by
        rw [List.dropWhile_cons, if_neg (by simp [hgd])]
      rw [h2] at hc
      have h3 : d = c := by simpa using hc
      subst h3
      exact hgd
    · rw [if_neg he, List.reverse_append] at hc
      have h3 : d = c := by simpa using hc
      subst h3
      exact hgd

theorem trimSpace_idem (v : Str) : trimSpace (trimSpace v) = trimSpace v :=
  trimSpace_eq_self (trimSpace v) (trimSpace_head_nospace v)
    (trimSpace_last_nospace v)

theorem escChar_ne_nil (c : Char) : escChar c ≠ [] := by
  unfold escChar
  repeat' split
  all_goals simp [str]

theorem escChar_head_nospace (c : Char) (hc : goSpace c = false) :
    ∀ e es, escChar c = e :: es → goSpace e = false := by
  intro e es hE
  unfold escChar at hE
  repeat' split at hE
  all_goals simp only [str, List.cons.injEq] at hE
  all_goals first
  | (rw [← hE.1]; decide)
  | (rw [← hE.1]; exact hc)

theorem escChar_last_nospace (c : Char) (hc : goSpace c = false) :
    ∀ d, (escChar c).getLast? = some d → goSpace d = false := by
  intro d hd
  unfold escChar at hd
  repeat' split at hd
  all_goals first
  | (simp only [str] at hd
     have h2 : d = ';' := by simpa using hd.symm
     subst h2
     decide)
  | (have h2 : d = c := by simpa using hd.symm
     subst h2
     exact hc)

theorem esc_head_nospace (w : Str)
    (hw : ∀ c, w.head? = some c → goSpace c = false) :
    ∀ d, (xmlEscapeText w).head? = some d → goSpace d = false := by
  cases w with
  | nil => intro d hd; simp [xmlEscapeText] at hd
  | cons c cs =>
    intro d hd
    rw [xmlEscapeText_cons] at hd
    cases hEc : escChar c with
    | nil => exact absurd hEc (escChar_ne_nil c)
    | cons e es =>
      rw [hEc] at hd
      have hd2 : e = d := by simpa using hd
      subst hd2
      exact escChar_head_nospace c (hw c rfl) e es hEc

theorem esc_last_nospace (w : Str)
    (hw : ∀ c, w.getLast? = some c → goSpace c = false) :
    ∀ d, (xmlEscapeText w).getLast? = some d → goSpace d = false := by
  induction w using List.reverseRecOn with
  | nil => intro d hd; simp [xmlEscapeText] at hd
  | append_singleton ws c ih =>
    intro d hd
    have hE : xmlEscapeText (ws ++ [c]) = xmlEscapeText ws ++ escChar c := by
      simp [xmlEscapeText]
    rw [hE] at hd
    have hc : goSpace c = false := hw c (by simp)
    have hrev : (xmlEscapeText ws ++ escChar c).getLast?
        = ((escChar c).reverse ++ (xmlEscapeText ws).reverse).head? := by
      rw [← List.head?_reverse, List.reverse_append]
    rw [hrev] at hd
    cases hEc : (escChar c).reverse with
    | nil =>
      exfalso
      apply escChar_ne_nil c
      simpa using hEc
    | cons e es =>
      rw [hEc] at hd
      have hd2 : e = d := by simpa using hd
      subst hd2
      apply escChar_last_nospace c hc
      rw [← List.head?_reverse, hEc]
      rfl

theorem esc_ne_nil (w : Str) (h : w ≠ []) : xmlEscapeText w ≠ [] := by
  cases w with
  | nil => exact absurd rfl h
  | cons c cs =>
    rw [xmlEscapeText_cons]
    cases hE : escChar c with
    | nil => exact absurd hE (escChar_ne_nil c)
    | cons e es => simp

/-- The central value round-trip: a trimmed non-empty value written with
`xml.EscapeText` reads back exactly through `cleanXMLValue`. -/
theorem cleanXML_esc (w : Str) (hw : trimSpace w = w) (hne : w ≠ []) :
    cleanXMLValue (xmlEscapeText w) = w := by
  have hh : ∀ c, w.head? = some c → goSpace c = false := by
    intro c hc
    apply trimSpace_head_nospace w
    rw [hw]
    exact hc
  have hl : ∀ c, w.getLast? = some c → goSpace c = false := by
    intro c hc
    apply trimSpace_last_nospace w
    rw [hw]
    exact hc
  have htr : trimSpace (xmlEscapeText w) = xmlEscapeText w :=
    trimSpace_eq_self _ (esc_head_nospace w hh) (esc_last_nospace w hl)
  have h0 : cleanXMLValue (xmlEscapeText w)
      = (if trimSpace (xmlEscapeText w) = [] then []
         else trimSpace (htmlUnescape (stripTags (trimSpace (xmlEscapeText w))))) := rfl
  rw [h0, htr, if_neg (esc_ne_nil w hne), stripTags_noLt _ (noLt_esc w),
    unescape_esc w, hw]

/-! #### Attribute scanning across an escaped value -/

theorem dropWhile_eq_drop (f : Char → Bool) (y : Str) :
    ∃ m, y.dropWhile f = y.drop m := by
  induction y with
  | nil => exact ⟨0, rfl⟩
  | cons c cs ih =>
    by_cases hf : f c = true
    · obtain ⟨m, hm⟩ := ih
      exact ⟨m + 1, by rw [List.dropWhile_cons, if_pos hf, hm]; rfl⟩
    · exact ⟨0, by rw [List.dropWhile_cons, if_neg hf]; rfl⟩

theorem drop_append_right (x T : Str) (i : Nat) :
    (x ++ T).drop (x.length + i) = T.drop i := by
  induction x with
  | nil => simp
  | cons c cs ih =>
    have h1 : (c :: cs).length + i = (cs.length + i) + 1 := by
      simp only [List.length_cons]
      omega
    rw [h1, List.cons_append, List.drop_succ_cons]
    exact ih

/-- A suffix of `x ++ T` is either a suffix of `x` glued to `T`, or a
suffix of `T`. -/
theorem drop_cross (x T : Str) (n : Nat) :
    (∃ x2, x2 <:+ x ∧ (x ++ T).drop n = x2 ++ T) ∨ ((x ++ T).drop n <:+ T) := by
  by_cases h : n ≤ x.length
  · left
    exact ⟨x.drop n, List.drop_suffix n x, drop_append_le n x T h⟩
  · right
    have h2 : (x ++ T).drop n = T.drop (n - x.length) := by
      have h3 := drop_append_right x T (n - x.length)
      rw [show x.length + (n - x.length) = n by omega] at h3
      exact h3
    rw [h2]
    exact List.drop_suffix _ T

theorem cross_drop (x T y : Str) (n : Nat)
    (hy : (∃ x2, x2 <:+ x ∧ y = x2 ++ T) ∨ y <:+ T) :
    (∃ x2, x2 <:+ x ∧ y.drop n = x2 ++ T) ∨ (y.drop n <:+ T) := by
  cases hy with
  | inl h =>
    obtain ⟨x2, hx2, hyy⟩ := h
    subst hyy
    cases drop_cross x2 T n with
    | inl h2 =>
      obtain ⟨x3, hx3, heq⟩ := h2
      exact Or.inl ⟨x3, hx3.trans hx2, heq⟩
    | inr h2 => exact Or.inr h2
  | inr h =>
    right
    exact (List.drop_suffix n y).trans h

theorem cross_dropWhile (f : Char → Bool) (x T y : Str)
    (hy : (∃ x2, x2 <:+ x ∧ y = x2 ++ T) ∨ y <:+ T) :
    (∃ x2, x2 <:+ x ∧ y.dropWhile f = x2 ++ T) ∨ (y.dropWhile f <:+ T) := by
  obtain ⟨m, hm⟩ := dropWhile_eq_drop f y
  rw [hm]
  exact cross_drop x T y m hy

theorem noChar_suffix (q : Char) (x x2 : Str) (hx : noChar q x = true)
    (h : x2 <:+ x) : noChar q x2 = true := by
  simp only [noChar, List.all_eq_true] at hx ⊢
  intro c hc
  exact hx c (h.subset hc)

/-- `name\s*=\s*Q NAME Q` cannot match at any position of a quote-free
string followed by `Q/`: the value-opening quote would have to be the final
closing quote, after which only `/` remains. -/
theorem nameEqAt_cross_false (q : Char) (name : Str) (x : Str) (y : Str)
    (hx : noChar q x = true)
    (hsl : ('/' == q) = false)
    (hnm : startsWithCI name ['/'] = false)
    (hy : (∃ x2, x2 <:+ x ∧ y = x2 ++ [q, '/']) ∨ y <:+ ([q, '/'] : Str)) :
    nameEqAt q name y = false := by
  unfold nameEqAt
  by_cases hsw : startsWithCI (str "name") y = true
  · rw [if_pos hsw]
    have hz1 := cross_dropWhile reSpace x [q, '/'] (y.drop 4)
      (cross_drop x [q, '/'] y 4 hy)
    cases hz : (y.drop 4).dropWhile reSpace with
    | nil => rfl
    | cons d r2 =>
      rw [hz] at hz1
      show (if (d == '=') = true then
          (match r2.dropWhile reSpace with
           | e :: r3 =>
             e == q && startsWithCI name r3 &&
               (match r3.drop name.length with
                | g :: _ => g == q
                | [] => false)
           | [] => false)
        else false) = false
      by_cases hd : (d == '=') = true
      · rw [if_pos hd]
        have hz2 := cross_dropWhile reSpace x [q, '/'] r2
          (by
            have h6 := cross_drop x [q, '/'] (d :: r2) 1 hz1
            simpa using h6)
        cases hz3 : r2.dropWhile reSpace with
        | nil => rfl
        | cons e r3 =>
          rw [hz3] at hz2
          show (e == q && startsWithCI name r3 &&
              (match r3.drop name.length with
               | g :: _ => g == q
               | [] => false)) = false
          by_cases he : (e == q) = true
          · have heq : e = q := beq_iff_eq.mp he
            subst heq
            have hr3 : r3 = ['/'] := by
              cases hz2 with
              | inl h2 =>
                obtain ⟨x2, hx2, heq2⟩ := h2
                cases x2 with
                | nil => simpa using heq2
                | cons a x3 =>
                  exfalso
                  have hea : e = a := by
                    have h7 := congrArg (fun l : Str => l.head?) heq2
                    simpa using h7
                  have hmem : a ∈ x := hx2.subset (by simp)
                  have h8 := (List.all_eq_true.mp hx) a hmem
                  rw [← hea] at h8
                  simp at h8
              | inr h2 =>
                obtain ⟨u, hu⟩ := h2
                cases u with
                | nil => simpa using hu
                | cons b u2 =>
                  cases u2 with
                  | nil =>
                    exfalso
                    simp only [List.cons_append, List.nil_append,
                      List.cons.injEq] at hu
                    have h3 : e = '/' := hu.2.1
                    rw [h3] at hsl
                    simp at hsl
                  | cons b2 u3 =>
                    exfalso
                    have h9 := congrArg List.length hu
                    simp only [List.length_append, List.length_cons,
                      List.length_nil] at h9
                    omega
            rw [hr3, hnm]
            simp
          · rw [Bool.not_eq_true] at he
            simp [he]
      · rw [if_neg hd]
  · rw [if_neg hsw]

theorem containsNameEq_cross (q : Char) (name : Str) (x : Str)
    (hx : noChar q x = true)
    (hsl : ('/' == q) = false)
    (hnm : startsWithCI name ['/'] = false) :
    containsNameEq q name (x ++ [q, '/']) = false := by
  have hstep : ∀ y : Str,
      ((∃ x2, x2 <:+ x ∧ y = x2 ++ [q, '/']) ∨ y <:+ ([q, '/'] : Str)) →
      containsNameEq q name y = false := by
    intro y
    induction y with
    | nil => intro _; rfl
    | cons c cs ih =>
      intro hy
      have h1 : nameEqAt q name (c :: cs) = false :=
        nameEqAt_cross_false q name x (c :: cs) hx hsl hnm hy
      have h2 : (∃ x2, x2 <:+ x ∧ cs = x2 ++ [q, '/']) ∨ cs <:+ ([q, '/'] : Str) := by
        have := cross_drop x [q, '/'] (c :: cs) 1 hy
        simpa using this
      unfold containsNameEq
      rw [h1, ih h2]
      rfl
  exact hstep (x ++ [q, '/']) (Or.inl ⟨x, List.suffix_refl x, rfl⟩)

theorem noChar_drop (q : Char) (s : Str) (k : Nat) (h : noChar q s = true) :
    noChar q (s.drop k) = true := by
  simp only [noChar, List.all_eq_true] at h ⊢
  intro c hc
  exact h c (List.mem_of_mem_drop hc)

theorem noChar_append (q : Char) (x y : Str) (hx : noChar q x = true)
    (hy : noChar q y = true) : noChar q (x ++ y) = true := by
  simp only [noChar, List.all_append]
  simp only [noChar] at hx hy
  simp [hx, hy]

/-- In a string without the quote character, the attribute pattern never
matches. -/
theorem nameEqAt_noq (q : Char) (name : Str) (s : Str) (hs : noChar q s = true) :
    nameEqAt q name s = false := by
  unfold nameEqAt
  by_cases hsw : startsWithCI (str "name") s = true
  · rw [if_pos hsw]
    obtain ⟨m1, hm1⟩ := dropWhile_eq_drop reSpace (s.drop 4)
    have hz1 : noChar q ((s.drop 4).dropWhile reSpace) = true := by
      rw [hm1, List.drop_drop]
      exact noChar_drop q s _ hs
    cases hz : (s.drop 4).dropWhile reSpace with
    | nil => rfl
    | cons d r2 =>
      rw [hz] at hz1
      show (if (d == '=') = true then
          (match r2.dropWhile reSpace with
           | e :: r3 =>
             e == q && startsWithCI name r3 &&
               (match r3.drop name.length with
                | g :: _ => g == q
                | [] => false)
           | [] => false)
        else false) = false
      by_cases hd : (d == '=') = true
      · rw [if_pos hd]
        obtain ⟨m2, hm2⟩ := dropWhile_eq_drop reSpace r2
        have hz2 : noChar q (r2.dropWhile reSpace) = true := by
          rw [hm2]
          apply noChar_drop
          simp only [noChar, List.all_cons, Bool.and_eq_true] at hz1
          exact hz1.2
        cases hz3 : r2.dropWhile reSpace with
        | nil => rfl
        | cons e r3 =>
          rw [hz3] at hz2
          show (e == q && startsWithCI name r3 &&
              (match r3.drop name.length with
               | g :: _ => g == q
               | [] => false)) = false
          have he : (e == q) = false := by
            simp only [noChar, List.all_cons, Bool.and_eq_true] at hz2
            simpa using hz2.1
          simp [he]
      · rw [if_neg hd]
  · rw [if_neg hsw]

theorem containsNameEq_noq (q : Char) (name : Str) (s : Str)
    (hs : noChar q s = true) : containsNameEq q name s = false := by
  induction s with
  | nil => rfl
  | cons c cs ih =>
    have hcs : noChar q cs = true := by
      simp only [noChar, List.all_cons, Bool.and_eq_true] at hs
      exact hs.2
    unfold containsNameEq
    rw [nameEqAt_noq q name (c :: cs) hs, ih hcs]
    rfl

theorem containsNameEq_cons_false (q : Char) (name : Str) (c : Char) (cs : Str)
    (h : nameEqAt q name (c :: cs) = false) :
    containsNameEq q name (c :: cs) = containsNameEq q name cs := by
  have h0 : containsNameEq q name (c :: cs)
      = (nameEqAt q name (c :: cs) || containsNameEq q name cs) := rfl
  rw [h0, h]
  simp

theorem findAttrQ_cons_none (q : Char) (key : Str) (prevW : Bool) (c : Char)
    (cs : Str) (h : (if prevW then none else attrAtQ q key (c :: cs)) = none) :
    findAttrQ q key prevW (c :: cs) = findAttrQ q key (isWordChar c) cs := by
  have h0 : findAttrQ q key prevW (c :: cs)
      = match (if prevW then none else attrAtQ q key (c :: cs)) with
        | some v => some v
        | none => findAttrQ q key (isWordChar c) cs := rfl
  rw [h0, h]

theorem findAttrQ_cons_some (q : Char) (key : Str) (c : Char) (cs : Str)
    (v : Str) (h : attrAtQ q key (c :: cs) = some v) :
    findAttrQ q key false (c :: cs) = some v := by
  have h0 : findAttrQ q key false (c :: cs)
      = match attrAtQ q key (c :: cs) with
        | some v => some v
        | none => findAttrQ q key (isWordChar c) cs := rfl
  rw [h0, h]

/-- The meta-tag regex captures the appended meta tag's attribute text. -/
theorem openBody_meta_soloBody (name esc2 : Str) :
    openBody metaPat (metaSoloBody name esc2) = some (metaSoloAttrs name esc2) := rfl

theorem noGt_append (x y : Str) (hx : noGt x = true) (hy : noGt y = true) :
    noGt (x ++ y) = true := by
  simp only [noGt, List.all_append]
  simp only [noGt] at hx hy
  simp [hx, hy]

theorem bodyOK_append (x y : Str) (hx : bodyOK x = true) (hy : bodyOK y = true) :
    bodyOK (x ++ y) = true := by
  simp only [bodyOK, Bool.and_eq_true] at hx hy
  simp only [bodyOK, Bool.and_eq_true]
  exact ⟨noLt_append x y hx.1 hy.1, noGt_append x y hx.2 hy.2⟩

theorem bodyOK_metaSoloBody (name x : Str) (hn : bodyOK name = true)
    (hx1 : noLt x = true) (hx2 : noGt x = true) :
    bodyOK (metaSoloBody name x) = true := by
  unfold metaSoloBody
  refine bodyOK_append _ _ (bodyOK_append _ _ (bodyOK_append _ _
    (bodyOK_append _ _ (by decide) hn) (by decide)) ?_) (by decide)
  simp only [bodyOK, Bool.and_eq_true]
  exact ⟨hx1, hx2⟩

theorem noChar_metaSoloAttrs (q : Char) (name x : Str)
    (hq1 : noChar q (str " name=\"") = true)
    (hq2 : noChar q (str "\" content=\"") = true)
    (hq3 : noChar q (str "\"/") = true)
    (hn : noChar q name = true) (hx : noChar q x = true) :
    noChar q (metaSoloAttrs name x) = true := by
  unfold metaSoloAttrs
  exact noChar_append _ _ _ (noChar_append _ _ _ (noChar_append _ _ _
    (noChar_append _ _ _ hq1 hn) hq2) hx) hq3

theorem openBody_plain_not_head (n : Str) (c : Char) (x : Str)
    (h : (match n with | c2 :: _ => !(lc c2 == lc c) | [] => false) = true) :
    openBody (.plain n) (c :: x) = none := by
  cases n with
  | nil => simp at h
  | cons c2 n2 =>
    have h2 : startsWithCI (c2 :: n2) (c :: x) = false := by
      simp only [Bool.not_eq_true'] at h
      unfold startsWithCI
      simp [h]
    have h0 : openBody (.plain (c2 :: n2)) (c :: x)
        = firstSome ((if startsWithCI (c2 :: n2) (c :: x) then
            [(c :: x).drop (c2 :: n2).length] else []).map
            fun a => if boundaryOk a then some a else none) := rfl
    rw [h0, h2]
    rfl

/-- Content-attribute extraction from the appended series meta tag. -/
theorem extractAttr_content_series (x : Str) (hx : noChar '"' x = true) :
    extractAttrValue (metaSoloAttrs (str "calibre:series") x) (str "content") = x := by
  have hsplit : firstSplitCI ['"'] (x ++ ['"', '/']) = some (x, ['/']) :=
    firstSplitCI_single '"' x ['/'] (by decide) hx
  have hq : findAttrQ '"' (str "content") false
      (metaSoloAttrs (str "calibre:series") x) = some x := by
    show findAttrQ '\"' (str "content") false
      (' ' :: 'n' :: 'a' :: 'm' :: 'e' :: '=' :: '\"' :: 'c' :: 'a' :: 'l' :: 'i' :: 'b' :: 'r' :: 'e' :: ':' :: 's' :: 'e' :: 'r' :: 'i' :: 'e' :: 's' :: '\"' :: ' ' :: 'c' :: 'o' :: 'n' :: 't' :: 'e' :: 'n' :: 't' :: '=' :: '\"' :: (x ++ ['\"', '/'])) = some x
    repeat rw [findAttrQ_cons_none _ _ _ _ _ (by rfl)]
    apply findAttrQ_cons_some
    show (firstSplitCI ['"'] (x ++ ['"', '/'])).map (fun w => w.1) = some x
    rw [hsplit]
    rfl
  unfold extractAttrValue
  rw [hq]

theorem extractAttr_content_seriesIdx (x : Str) (hx : noChar '"' x = true) :
    extractAttrValue (metaSoloAttrs (str "calibre:series_index") x)
      (str "content") = x := by
  have hsplit : firstSplitCI ['"'] (x ++ ['"', '/']) = some (x, ['/']) :=
    firstSplitCI_single '"' x ['/'] (by decide) hx
  have hq : findAttrQ '"' (str "content") false
      (metaSoloAttrs (str "calibre:series_index") x) = some x := by
    show findAttrQ '\"' (str "content") false
      (' ' :: 'n' :: 'a' :: 'm' :: 'e' :: '=' :: '\"' :: 'c' :: 'a' :: 'l' :: 'i' :: 'b' :: 'r' :: 'e' :: ':' :: 's' :: 'e' :: 'r' :: 'i' :: 'e' :: 's' :: '_' :: 'i' :: 'n' :: 'd' :: 'e' :: 'x' :: '\"' :: ' ' :: 'c' :: 'o' :: 'n' :: 't' :: 'e' :: 'n' :: 't' :: '=' :: '\"' :: (x ++ ['\"', '/'])) = some x
    repeat rw [findAttrQ_cons_none _ _ _ _ _ (by rfl)]
    apply findAttrQ_cons_some
    show (firstSplitCI ['"'] (x ++ ['"', '/'])).map (fun w => w.1) = some x
    rw [hsplit]
    rfl
  unfold extractAttrValue
  rw [hq]

/-- Name-attribute extraction from the appended meta tags (fully concrete
up to the captured name). -/
theorem extractAttr_name_series (x : Str) :
    extractAttrValue (metaSoloAttrs (str "calibre:series") x) (str "name")
      = str "calibre:series" := rfl

theorem extractAttr_name_seriesIdx (x : Str) :
    extractAttrValue (metaSoloAttrs (str "calibre:series_index") x) (str "name")
      = str "calibre:series_index" := rfl

/-- The series_index removal regex does not fire on the series meta tag. -/
theorem containsNameEq_series_dq_idx (x : Str) (hx : noChar '"' x = true) :
    containsNameEq '"' (str "calibre:series_index")
      (metaSoloAttrs (str "calibre:series") x) = false := by
  show containsNameEq '\"' (str "calibre:series_index")
    (' ' :: 'n' :: 'a' :: 'm' :: 'e' :: '=' :: '\"' :: 'c' :: 'a' :: 'l' :: 'i' :: 'b' :: 'r' :: 'e' :: ':' :: 's' :: 'e' :: 'r' :: 'i' :: 'e' :: 's' :: '\"' :: ' ' :: 'c' :: 'o' :: 'n' :: 't' :: 'e' :: 'n' :: 't' :: '=' :: '\"' :: (x ++ ['\"', '/'])) = false
  repeat rw [containsNameEq_cons_false _ _ _ _ (by rfl)]
  show containsNameEq '\"' (str "calibre:series_index") (x ++ ['\"', '/']) = false
  exact containsNameEq_cross '"' _ x hx (by decide) (by decide)

theorem containsNameEq_sq_metaAttrs (name2 name x : Str)
    (hn : noChar '\'' name = true) (hx : noChar '\'' x = true) :
    containsNameEq '\'' name2 (metaSoloAttrs name x) = false :=
  containsNameEq_noq '\'' name2 _
    (noChar_metaSoloAttrs '\'' name x (by decide) (by decide) (by decide) hn hx)

/-! #### Whole-block corollaries and mutation mirrors -/

theorem removeElems_items0 (p : TagPat) (hn : patNameOK p = true) (l : List Item)
    (h : ∀ i ∈ l, elemOKQ p i = true) :
    removeElems p (renderItems l)
      = (renderItems (l.filter fun i => !(elemMatchQ p i)), l.any (elemMatchQ p)) := by
  have h0 := removeElems_items p hn l [] h
  simpa [removeElems, removeElemsF] using h0

theorem findAllElems_items0 (p : TagPat) (hn : patNameOK p = true) (l : List Item)
    (h : ∀ i ∈ l, elemOKQ p i = true) :
    findAllElems p (renderItems l)
      = l.filterMap fun i => match i with
          | .elem b v _ => (openBody p b).map fun a => (a, v)
          | _ => none := by
  have h0 := findAllElems_items p hn l [] h
  simpa [findAllElems, findAllElemsF] using h0

theorem findAllTags_items0 (p : TagPat) (hn : patNameOK p = true) (l : List Item)
    (h : ∀ i ∈ l, tagOKQ p i = true) :
    findAllTags p (renderItems l) = l.filterMap (soloMatch p) := by
  have h0 := findAllTags_items p hn l [] h
  simpa [findAllTags, findAllTagsF] using h0

theorem replaceTags_items0 (p : TagPat) (f : Str → Str) (hn : patNameOK p = true)
    (hf : ∀ x, f x = [] ∨ f x = x) (l : List Item)
    (h : ∀ i ∈ l, tagOKQ p i = true) :
    replaceTags p f (renderItems l)
      = renderItems (l.filter fun i => !(tagDropQ p f i)) := by
  have h0 := replaceTags_items p f hn hf l [] h
  simpa [replaceTags, replaceTagsF] using h0

theorem removeMetaName_items0 (q : Char) (name : Str) (l : List Item)
    (h : ∀ i ∈ l, tagOKQ metaPat i = true) :
    removeMetaName q name (renderItems l)
      = (renderItems (l.filter fun i => !(metaNameDropQ q name i)),
         l.any (metaNameDropQ q name)) := by
  have h0 := removeMetaName_items q name l [] h
  simpa [removeMetaName, removeMetaNameF] using h0

theorem append_field_elem (m pfx v : Str) :
    m ++ str "\n<" ++ pfx ++ str ">" ++ v ++ str "</" ++ pfx ++ str ">"
      = m ++ renderItems [.txt (str "\n"), .elem pfx v ('/' :: pfx)] := by
  simp [renderItems, renderItem, str]

theorem append_meta_solo (m name esc2 : Str) :
    m ++ str "\n<meta name=\"" ++ name ++ str "\" content=\"" ++ esc2 ++ str "\"/>"
      = m ++ renderItems [.txt (str "\n"), .solo (metaSoloBody name esc2)] := by
  simp [renderItems, renderItem, metaSoloBody, str]

theorem filter_eq_self_of_not_any (q : Item → Bool) (l : List Item)
    (h : l.any q = false) : l.filter (fun i => !(q i)) = l := by
  induction l with
  | nil => rfl
  | cons i r ih =>
    simp only [List.any_cons, Bool.or_eq_false_iff] at h
    simp [List.filter_cons, h.1, ih h.2]

theorem field_elem_render (pfx v : Str) :
    str "\n<" ++ (pfx ++ (str ">" ++ (v ++ (str "</" ++ (pfx ++ str ">")))))
      = renderItems [.txt (str "\n"), .elem pfx v ('/' :: pfx)] := by
  simp [renderItems, renderItem, str]

theorem setSingleTag_items (tag value : Str) (l : List Item) (changed : Bool)
    (hn1 : patNameOK (.plain (dcName tag)) = true)
    (hn2 : patNameOK (.plain tag) = true)
    (h1 : ∀ i ∈ l, elemOKQ (.plain (dcName tag)) i = true)
    (h2 : ∀ i ∈ l, elemOKQ (.plain tag) i = true) :
    setSingleTag (renderItems l) tag value changed
      = (renderItems (setSingleTagI tag value l changed).1,
         (setSingleTagI tag value l changed).2) := by
  have hr1 := removeElems_items0 (.plain (dcName tag)) hn1 l h1
  have hne : dcName tag ≠ [] := by simp [dcName, str]
  by_cases hf1 : l.any (elemMatchQ (.plain (dcName tag))) = true
  · have hl1wf : ∀ i ∈ l.filter (fun i => !(elemMatchQ (.plain (dcName tag)) i)),
        elemOKQ (.plain tag) i = true :=
      fun i hi => h2 i (List.mem_of_mem_filter hi)
    have hr2 := removeElems_items0 (.plain tag) hn2 _ hl1wf
    by_cases hf2 : (l.filter (fun i => !(elemMatchQ (.plain (dcName tag)) i))).any
        (elemMatchQ (.plain tag)) = true
    · by_cases hv : trimSpace value = []
      · simp [setSingleTag, setSingleTagI, hr1, hr2, hf1, hf2, hv, hne]
      · simp [setSingleTag, setSingleTagI, hr1, hr2, hf1, hf2, hv, hne,
          renderItems_append, field_elem_render]
    · have hf2f : (l.filter (fun i => !(elemMatchQ (.plain (dcName tag)) i))).any
          (elemMatchQ (.plain tag)) = false := by simpa using hf2
      have hfix2 := filter_eq_self_of_not_any _ _ hf2f
      by_cases hv : trimSpace value = []
      · simp [setSingleTag, setSingleTagI, hr1, hr2, hf1, hf2f, hfix2, hv, hne]
      · simp [setSingleTag, setSingleTagI, hr1, hr2, hf1, hf2f, hfix2, hv, hne,
          renderItems_append, field_elem_render]
  · have hf1f : l.any (elemMatchQ (.plain (dcName tag))) = false := by
      simpa using hf1
    have hfix := filter_eq_self_of_not_any _ _ hf1f
    have hr2 := removeElems_items0 (.plain tag) hn2 l h2
    by_cases hf2 : l.any (elemMatchQ (.plain tag)) = true
    · by_cases htag : tag = []
      · subst htag
        by_cases hv : trimSpace value = []
        · simp [setSingleTag, setSingleTagI, hr1, hr2, hf1f, hf2, hfix, hv, hne]
        · simp [setSingleTag, setSingleTagI, hr1, hr2, hf1f, hf2, hfix, hv, hne,
            renderItems_append, field_elem_render]
      · by_cases hv : trimSpace value = []
        · simp [setSingleTag, setSingleTagI, hr1, hr2, hf1f, hf2, hfix, hv, hne, htag]
        · simp [setSingleTag, setSingleTagI, hr1, hr2, hf1f, hf2, hfix, hv, hne, htag,
            renderItems_append, field_elem_render]
    · have hf2f : l.any (elemMatchQ (.plain tag)) = false := by simpa using hf2
      have hfix2 := filter_eq_self_of_not_any _ _ hf2f
      by_cases hv : trimSpace value = []
      · simp [setSingleTag, setSingleTagI, hr1, hr2, hf1f, hf2f, hfix, hfix2, hv, hne]
      · simp [setSingleTag, setSingleTagI, hr1, hr2, hf1f, hf2f, hfix, hfix2, hv, hne,
          renderItems_append, field_elem_render]

theorem renderItems_multi (pfx : Str) (vs : List Str) :
    renderItems ((vs.map fun v =>
      [Item.txt (str "\n"), Item.elem pfx (xmlEscape v) ('/' :: pfx)]).flatten)
      = (vs.map fun v =>
          str "\n<" ++ pfx ++ str ">" ++ xmlEscape v ++ str "</" ++ pfx ++ str ">").flatten := by
  induction vs with
  | nil => rfl
  | cons v rest ih =>
    simp only [List.map_cons, List.flatten_cons, renderItems_append]
    rw [ih]
    simp [renderItems, renderItem, str]

theorem setMultiTag_items (tag : Str) (values : List Str) (l : List Item) (changed : Bool)
    (hn1 : patNameOK (.plain (dcName tag)) = true)
    (hn2 : patNameOK (.plain tag) = true)
    (h1 : ∀ i ∈ l, elemOKQ (.plain (dcName tag)) i = true)
    (h2 : ∀ i ∈ l, elemOKQ (.plain tag) i = true) :
    setMultiTag (renderItems l) tag values changed
      = (renderItems (setMultiTagI tag values l changed).1,
         (setMultiTagI tag values l changed).2) := by
  have hr1 := removeElems_items0 (.plain (dcName tag)) hn1 l h1
  by_cases hf1 : l.any (elemMatchQ (.plain (dcName tag))) = true
  · have hl1wf : ∀ i ∈ l.filter (fun i => !(elemMatchQ (.plain (dcName tag)) i)),
        elemOKQ (.plain tag) i = true :=
      fun i hi => h2 i (List.mem_of_mem_filter hi)
    have hr2 := removeElems_items0 (.plain tag) hn2 _ hl1wf
    by_cases hf2 : (l.filter (fun i => !(elemMatchQ (.plain (dcName tag)) i))).any
        (elemMatchQ (.plain tag)) = true
    · simp [setMultiTag, setMultiTagI, hr1, hr2, hf1, hf2,
        renderItems_append, renderItems_multi]
    · have hf2f : (l.filter (fun i => !(elemMatchQ (.plain (dcName tag)) i))).any
          (elemMatchQ (.plain tag)) = false := by simpa using hf2
      have hfix2 := filter_eq_self_of_not_any _ _ hf2f
      simp [setMultiTag, setMultiTagI, hr1, hr2, hf1, hf2f, hfix2,
        renderItems_append, renderItems_multi]
  · have hf1f : l.any (elemMatchQ (.plain (dcName tag))) = false := by
      simpa using hf1
    have hfix := filter_eq_self_of_not_any _ _ hf1f
    have hr2 := removeElems_items0 (.plain tag) hn2 l h2
    by_cases hf2 : l.any (elemMatchQ (.plain tag)) = true
    · simp [setMultiTag, setMultiTagI, hr1, hr2, hf1f, hf2, hfix,
        renderItems_append, renderItems_multi]
    · have hf2f : l.any (elemMatchQ (.plain tag)) = false := by simpa using hf2
      have hfix2 := filter_eq_self_of_not_any _ _ hf2f
      simp [setMultiTag, setMultiTagI, hr1, hr2, hf1f, hf2f, hfix, hfix2,
        renderItems_append, renderItems_multi]

theorem meta_solo_render (name esc2 : Str) :
    str "\n<meta name=\"" ++ (name ++ (str "\" content=\"" ++ (esc2 ++ str "\"/>")))
      = renderItems [.txt (str "\n"), .solo (metaSoloBody name esc2)] := by
  simp [renderItems, renderItem, metaSoloBody, str]

theorem setMetaNameContent_items (name value : Str) (l : List Item) (changed : Bool)
    (h : ∀ i ∈ l, tagOKQ metaPat i = true) :
    setMetaNameContent (renderItems l) name value changed
      = (renderItems (setMetaNameContentI name value l changed).1,
         (setMetaNameContentI name value l changed).2) := by
  have hr1 := removeMetaName_items0 '"' name l h
  by_cases hf1 : l.any (metaNameDropQ '"' name) = true
  · have hl1wf : ∀ i ∈ l.filter (fun i => !(metaNameDropQ '"' name i)),
        tagOKQ metaPat i = true :=
      fun i hi => h i (List.mem_of_mem_filter hi)
    have hr2 := removeMetaName_items0 '\'' name _ hl1wf
    by_cases hf2 : (l.filter (fun i => !(metaNameDropQ '"' name i))).any
        (metaNameDropQ '\'' name) = true
    · by_cases hv : trimSpace value = []
      · simp [setMetaNameContent, setMetaNameContentI, hr1, hr2, hf1, hf2, hv]
      · simp [setMetaNameContent, setMetaNameContentI, hr1, hr2, hf1, hf2, hv,
          renderItems_append, meta_solo_render]
    · have hf2f : (l.filter (fun i => !(metaNameDropQ '"' name i))).any
          (metaNameDropQ '\'' name) = false := by simpa using hf2
      have hfix2 := filter_eq_self_of_not_any _ _ hf2f
      by_cases hv : trimSpace value = []
      · simp [setMetaNameContent, setMetaNameContentI, hr1, hr2, hf1, hf2f, hfix2, hv]
      · simp [setMetaNameContent, setMetaNameContentI, hr1, hr2, hf1, hf2f, hfix2, hv,
          renderItems_append, meta_solo_render]
  · have hf1f : l.any (metaNameDropQ '"' name) = false := by simpa using hf1
    have hfix := filter_eq_self_of_not_any _ _ hf1f
    have hr2 := removeMetaName_items0 '\'' name l h
    by_cases hf2 : l.any (metaNameDropQ '\'' name) = true
    · by_cases hv : trimSpace value = []
      · simp [setMetaNameContent, setMetaNameContentI, hr1, hr2, hf1f, hf2, hfix, hv]
      · simp [setMetaNameContent, setMetaNameContentI, hr1, hr2, hf1f, hf2, hfix, hv,
          renderItems_append, meta_solo_render]
    · have hf2f : l.any (metaNameDropQ '\'' name) = false := by simpa using hf2
      have hfix2 := filter_eq_self_of_not_any _ _ hf2f
      by_cases hv : trimSpace value = []
      · simp [setMetaNameContent, setMetaNameContentI, hr1, hr2, hf1f, hf2f, hfix,
          hfix2, hv]
      · simp [setMetaNameContent, setMetaNameContentI, hr1, hr2, hf1f, hf2f, hfix,
          hfix2, hv, renderItems_append, meta_solo_render]

theorem prefIdLoop_spec (ms : List (Str × Str)) (first : Str) :
    prefIdLoop first ms =
      match ms.find? (fun m => nonEmptyVal m && isbnMatch m) with
      | some m => cleanXMLValue m.2
      | none =>
        if first ≠ [] then first
        else
          match ms.find? nonEmptyVal with
          | some m => cleanXMLValue m.2
          | none => [] := by
  induction ms generalizing first with
  | nil =>
    simp only [prefIdLoop, List.find?]
    by_cases h : first = [] <;> simp [h]
  | cons m rest ih =>
    by_cases hv : cleanXMLValue m.2 = []
    · have hne : nonEmptyVal m = false := by
        simp [nonEmptyVal, hv]
      simp only [prefIdLoop, hv, if_pos rfl, List.find?, hne, Bool.false_and]
      exact ih first
    · have hne : nonEmptyVal m = true := by
        simp [nonEmptyVal, hv]
      by_cases hi : isbnMatch m = true
      · have : (containsStr (lowerStr m.1) (str "isbn")
            || containsStr (lowerStr (cleanXMLValue m.2)) (str "isbn")) = true := hi
        simp only [prefIdLoop, List.find?, hne, hi, Bool.and_self, if_neg hv]
        simp [this]
      · have hi' : isbnMatch m = false := by
          cases h : isbnMatch m with
          | false => rfl
          | true => exact absurd h hi
        have : (containsStr (lowerStr m.1) (str "isbn")
            || containsStr (lowerStr (cleanXMLValue m.2)) (str "isbn")) = false := hi'
        simp only [prefIdLoop, List.find?, hne, hi', Bool.and_false, if_neg hv, this,
          Bool.false_eq_true, if_false]
        rw [ih]
        by_cases hf : first = []
        · simp [hf, hv]
        · simp [hf]

/-- C7: the bulk-scan cover locator evaluates its four strategies in strict
priority order with the first success winning; in particular a sibling
`cover.jpg` on disk always wins, even over an OPF-declared internal cover
(and even when the zip cannot be opened, since the sibling check runs
first). -/
theorem c7_cover_precedence :
    (∀ (decOPF : Str → OPFDoc) (files : List ZEntry) (zipOk : Bool),
        SaveCover true zipOk decOPF files = .ok .externalFile) ∧
    (∀ (sibling : Bool) (decOPF : Str → OPFDoc) (files : List ZEntry),
        SaveCover sibling true decOPF files = coverFirstWins sibling decOPF files) := by
  constructor
  · intro decOPF files zipOk
    simp [SaveCover]
  · intro sibling decOPF files
    cases sibling with
    | true => simp [SaveCover, coverFirstWins, coverStrategy1]
    | false =>
      simp only [SaveCover, coverFirstWins, coverStrategy1, coverStrategy2,
        coverStrategy3, coverStrategy4, Bool.not_true, Bool.false_eq_true,
        if_false, ite_false]
      cases h2 : files.find? (fun f => isPreferredCoverFilename f.name) with
      | some f => simp [h2]
      | none =>
        simp only [h2, Option.map_none, Option.map_none']
        cases h3 : files.find? coverNameHeuristic with
        | some f => simp [h3]
        | none =>
          simp only [h3, Option.map_none, Option.map_none']
          cases h4 : files.find? (fun f => hasSuffixCS f.name (str ".opf")) with
          | none => simp [h4]
          | some fopf =>
            simp only [h4, Option.bind_some, Option.some_bind]
            cases hp : (decOPF fopf.data).manifest.find? (fun item =>
                containsStr item.properties (str "cover-image")) with
            | some i =>
              by_cases hi : i.href = []
              · simp only [hp, hi, Option.bind_some, Option.some_bind, if_pos rfl,
                  ite_true, reduceIte]
                cases hm : (decOPF fopf.data).meta.find? (fun m => m.name == str "cover") with
                | none => simp [hm]
                | some m =>
                  by_cases hc : m.content = []
                  · simp [hm, hc]
                  · simp only [hm, hc, Option.bind_some, Option.some_bind, if_neg hc,
                      ite_false, reduceIte]
                    cases hid : (decOPF fopf.data).manifest.find? (fun item =>
                        item.id == m.content) with
                    | none => simp [hid, hc]
                    | some i2 =>
                      by_cases hi2 : i2.href = []
                      · simp [hid, hi2, hc]
                      · simp only [hid, hi2, Option.bind_some, Option.some_bind,
                          if_neg hi2, ite_false, reduceIte]
                        simp [hc, hi2]
                        cases hf : files.find? (fun f =>
                            f.name == joinPath (dirPath fopf.name) i2.href
                              || f.name == i2.href) with
                        | some f => simp [hf]
                        | none => simp [hf]
              · simp only [hp, Option.bind_some, Option.some_bind, if_neg hi,
                  ite_false, reduceIte]
                simp [hi]
                cases hf : files.find? (fun f =>
                    f.name == joinPath (dirPath fopf.name) i.href
                      || f.name == i.href) with
                | some f => simp [hf]
                | none => simp [hf]
            | none =>
              simp only [hp, Option.bind_none, Option.none_bind, if_pos rfl, reduceIte]
              cases hm : (decOPF fopf.data).meta.find? (fun m => m.name == str "cover") with
              | none => simp [hm]
              | some m =>
                by_cases hc : m.content = []
                · simp [hm, hc]
                · simp only [hm, Option.bind_some, Option.some_bind, if_neg hc,
                    ite_false, reduceIte]
                  cases hid : (decOPF fopf.data).manifest.find? (fun item =>
                      item.id == m.content) with
                  | none => simp [hid, hc]
                  | some i2 =>
                    by_cases hi2 : i2.href = []
                    · simp [hid, hi2, hc]
                    · simp only [hid, hi2, Option.bind_some, Option.some_bind,
                        if_neg hi2, ite_false, reduceIte]
                      simp [hc, hi2]
                      cases hf : files.find? (fun f =>
                          f.name == joinPath (dirPath fopf.name) i2.href
                            || f.name == i2.href) with
                      | some f => simp [hf]
                      | none => simp [hf]

theorem streamLoopMeta_ok (fs : FailSpec) (p : Str) (u : MetadataUpdate) :
    ∀ (i : Nat) (ar w : List ZEntry),
      streamLoopMeta fs p u i ar = .ok w → w = ar.map (replaceOPFEntry p u) := by
  intro i ar
  induction ar generalizing i with
  | nil =>
    intro w h
    simp only [streamLoopMeta] at h
    cases h
    rfl
  | cons f rest ih =>
    intro w h
    simp only [streamLoopMeta] at h
    by_cases h1 : fs.createHeaderFail i
    · simp [h1] at h
    · by_cases h2 : fs.entryOpenFail i
      · simp [h1, h2] at h
      · by_cases h3 : (f.name == p) = true
        · by_cases h4 : fs.copyFail i
          · simp [h1, h2, h3, h4] at h
          · cases hrw : rewriteOPFMetadata f.data u with
            | error e => simp [h1, h2, h3, h4, hrw] at h
            | ok newContent =>
              cases hs : streamLoopMeta fs p u (i + 1) rest with
              | error e => simp [h1, h2, h3, h4, hrw, hs, Except.map] at h
              | ok tail =>
                simp only [h1, h2, h3, h4, hrw, hs, if_true, if_false, reduceIte,
                  ite_true, ite_false, Except.map] at h
                cases h
                simp [replaceOPFEntry, h3, hrw, Except.toOption, ih (i + 1) tail hs]
        · by_cases h4 : fs.copyFail i
          · simp [h1, h2, h3, h4] at h
          · cases hs : streamLoopMeta fs p u (i + 1) rest with
            | error e => simp [h1, h2, h3, h4, hs, Except.map] at h
            | ok tail =>
              simp only [h1, h2, h3, h4, if_true, if_false, reduceIte,
                ite_true, ite_false, hs, Except.map] at h
              cases h
              simp [replaceOPFEntry, h3, ih (i + 1) tail hs]

theorem updateMeta_ok_shape (dec : ContainerDec) (fs : FailSpec)
    (ar : List ZEntry) (u : MetadataUpdate) (m : EPUBMetadata) :
    (UpdateEPUBMetadata dec fs ar u true).result = .ok m →
      ∃ p, findOPFPath dec ar = .ok p ∧ ¬p = [] ∧
        (UpdateEPUBMetadata dec fs ar u true).finalFile
          = ar.map (replaceOPFEntry p u) ∧
        (UpdateEPUBMetadata dec fs ar u true).renamed = true := by
  intro hr
  unfold UpdateEPUBMetadata at hr ⊢
  simp only [Bool.not_true, Bool.false_eq_true, if_false, reduceIte] at hr ⊢
  cases hfp : findOPFPath dec ar with
  | error e => simp [hfp, abortW] at hr
  | ok p =>
    simp only [hfp] at hr ⊢
    by_cases h1 : p = []
    · simp [h1, abortW] at hr
    · simp only [h1, if_false, reduceIte] at hr ⊢
      by_cases h2 : fs.createTempFail
      · simp [h2, abortW] at hr
      · simp only [h2, if_false, reduceIte] at hr ⊢
        cases hs : streamLoopMeta fs p u 0 ar with
        | error e => simp [hs, abortW] at hr
        | ok written =>
          simp only [hs] at hr ⊢
          by_cases h3 : fs.writerCloseFail
          · simp [h3, abortW] at hr
          · simp only [h3, if_false, reduceIte] at hr ⊢
            by_cases h4 : fs.tempCloseFail
            · simp [h4, abortW] at hr
            · simp only [h4, if_false, reduceIte] at hr ⊢
              by_cases h5 : fs.renameFail
              · simp [h5, abortW] at hr
              · simp only [h5, if_false, reduceIte] at hr ⊢
                cases hx : ExtractLiveMetadata dec written with
                | error e => simp [hx] at hr
                | ok mm =>
                  simp only [hx]
                  exact ⟨p, rfl, h1, streamLoopMeta_ok fs p u 0 ar written hs, rfl⟩

theorem updateMeta_not_renamed (dec : ContainerDec) (fs : FailSpec)
    (ar : List ZEntry) (u : MetadataUpdate) (zipOk : Bool) :
    (UpdateEPUBMetadata dec fs ar u zipOk).renamed = false →
      (UpdateEPUBMetadata dec fs ar u zipOk).finalFile = ar ∧
        (UpdateEPUBMetadata dec fs ar u zipOk).tempRemains = false := by
  unfold UpdateEPUBMetadata
  split
  · intro _
    exact ⟨rfl, rfl⟩
  · split
    · intro _
      exact ⟨rfl, rfl⟩
    · split
      · intro _
        exact ⟨rfl, rfl⟩
      · split
        · intro _
          exact ⟨rfl, rfl⟩
        · split
          · intro _
            exact ⟨rfl, rfl⟩
          · split
            · intro _
              exact ⟨rfl, rfl⟩
            · split
              · intro _
                exact ⟨rfl, rfl⟩
              · split
                · intro _
                  exact ⟨rfl, rfl⟩
                · split
                  · intro h
                    exact absurd h (by simp)
                  · intro h
                    exact absurd h (by simp)

theorem updateMeta_streaming_not_renamed (dec : ContainerDec) (fs : FailSpec)
    (ar : List ZEntry) (u : MetadataUpdate) (zipOk : Bool) (e : GErr) :
    (UpdateEPUBMetadata dec fs ar u zipOk).result = .error e →
      isRereadErr e = false →
        (UpdateEPUBMetadata dec fs ar u zipOk).renamed = false := by
  unfold UpdateEPUBMetadata
  split
  · intro _ _
    rfl
  · split
    · intro _ _
      rfl
    · split
      · intro _ _
        rfl
      · split
        · intro _ _
          rfl
        · split
          · intro _ _
            rfl
          · split
            · intro _ _
              rfl
            · split
              · intro _ _
                rfl
              · split
                · intro _ _
                  rfl
                · split
                  · intro h hre
                    cases h
                    simp [isRereadErr] at hre
                  · intro h _
                    simp at h

theorem streamLoopCover_ok (fs : FailSpec) (p canon : Str) (rp : List Str)
    (uo rw : Str) :
    ∀ (i : Nat) (ar : List ZEntry) (w : List ZEntry × Bool × Bool),
      streamLoopCover fs p canon rp uo rw i ar = .ok w →
        w.1 = ar.filterMap (coverStreamFun p canon rp uo rw) ∧
        w.2.1 = ar.any (fun f => normalizeZipPath f.name == normalizeZipPath p) ∧
        w.2.2 = ar.any (fun f =>
          !(normalizeZipPath f.name == normalizeZipPath p) &&
            (normalizeZipPath f.name == canon)) := by
  intro i ar
  induction ar generalizing i with
  | nil =>
    intro w h
    simp only [streamLoopCover] at h
    cases h
    simp
  | cons f rest ih =>
    intro w h
    simp only [streamLoopCover] at h
    by_cases hn1 : (normalizeZipPath f.name == normalizeZipPath p) = true
    · by_cases h1 : fs.createHeaderFail i
      · simp [hn1, h1] at h
      · by_cases h4 : fs.copyFail i
        · simp [hn1, h1, h4] at h
        · cases hs : streamLoopCover fs p canon rp uo rw (i + 1) rest with
          | error e => simp [hn1, h1, h4, hs, Except.map] at h
          | ok tail =>
            simp only [hn1, h1, h4, if_true, if_false, reduceIte, ite_true,
              ite_false, hs, Except.map] at h
            cases h
            have q := ih (i + 1) tail hs
            simp [List.filterMap_cons, coverStreamFun, hn1, q.1, q.2.1, q.2.2]
    · by_cases hn2 : (normalizeZipPath f.name == canon) = true
      · by_cases h1 : fs.createHeaderFail i
        · simp [hn1, hn2, h1] at h
        · by_cases h4 : fs.copyFail i
          · simp [hn1, hn2, h1, h4] at h
          · cases hs : streamLoopCover fs p canon rp uo rw (i + 1) rest with
            | error e => simp [hn1, hn2, h1, h4, hs, Except.map] at h
            | ok tail =>
              simp only [hn1, hn2, h1, h4, if_true, if_false, reduceIte, ite_true,
                ite_false, hs, Except.map] at h
              cases h
              have q := ih (i + 1) tail hs
              simp [List.filterMap_cons, coverStreamFun, hn1, hn2, q.1, q.2.1, q.2.2]
      · by_cases hn3 : normalizeZipPath f.name ∈ rp
        · simp only [hn1, hn2, Bool.false_eq_true, if_false, reduceIte, ite_false] at h
          rw [if_pos (by simpa using hn3)] at h
          have q2 := ih (i + 1) w h
          simp [List.filterMap_cons, coverStreamFun, hn1, hn2, hn3, q2.1, q2.2.1, q2.2.2]
        · by_cases h1 : fs.createHeaderFail i
          · simp [hn1, hn2, hn3, h1] at h
          · by_cases h2 : fs.entryOpenFail i
            · simp [hn1, hn2, hn3, h1, h2] at h
            · by_cases h4 : fs.copyFail i
              · simp [hn1, hn2, hn3, h1, h2, h4] at h
              · cases hs : streamLoopCover fs p canon rp uo rw (i + 1) rest with
                | error e => simp [hn1, hn2, hn3, h1, h2, h4, hs, Except.map] at h
                | ok tail =>
                  simp only [hn1, hn2, Bool.false_eq_true, if_false, reduceIte,
                    ite_false] at h
                  rw [if_neg (by simpa using hn3)] at h
                  simp only [h1, h2, h4, if_false, reduceIte, ite_false,
                    Bool.false_eq_true, hs, Except.map] at h
                  cases h
                  have q := ih (i + 1) tail hs
                  simp [List.filterMap_cons, coverStreamFun, hn1, hn2, hn3,
                    q.1, q.2.1, q.2.2]

/-- The canonical cover path and drop set used by `WriteCoverToEPUB` for a
given package path and decoded OPF. -/
def canonOf (p : Str) : Str := normalizeZipPath (joinPath (dirPath p) (str "cover.jpg"))

def removeSetOf (opf : OPFDoc) (p : Str) : List Str :=
  (collectExistingCoverPaths opf (dirPath p)).filter (fun q => !(q == canonOf p))

/-- Did the archive contain an entry at the canonical cover path (other
than the package document)? -/
def hadCanonicalCover (ar : List ZEntry) (p : Str) : Bool :=
  ar.any (fun f =>
    !(normalizeZipPath f.name == normalizeZipPath p) &&
      (normalizeZipPath f.name == canonOf p))

theorem writeCover_ok_shape (dec : ContainerDec) (dOPF : OPFDec)
    (reenc : Str → Option Str) (fs : FailSpec) (ar : List ZEntry) (sel : Str) :
    (WriteCoverToEPUB dec dOPF reenc fs ar sel true).result = .ok () →
      ∃ p opfContent opf updOPF raw rewritten,
        findOPFPath dec ar = .ok p ∧ ¬p = [] ∧
        readZipEntry ar p = .ok opfContent ∧
        dOPF opfContent = .ok opf ∧
        rewriteOPFCoverReference opfContent
          (relativeHrefFromOPFDir (dirPath p) (canonOf p)) = .ok updOPF ∧
        readZipEntry ar (normalizeZipPath sel) = .ok raw ∧
        reenc raw = some rewritten ∧
        (WriteCoverToEPUB dec dOPF reenc fs ar sel true).finalFile
          = ar.filterMap (coverStreamFun p (canonOf p) (removeSetOf opf p)
              updOPF rewritten)
            ++ (if hadCanonicalCover ar p then [] else [⟨canonOf p, rewritten⟩]) ∧
        (WriteCoverToEPUB dec dOPF reenc fs ar sel true).renamed = true := by
  intro hr
  unfold WriteCoverToEPUB at hr ⊢
  simp only [Bool.not_true, Bool.false_eq_true, if_false, reduceIte] at hr ⊢
  cases hfp : findOPFPath dec ar with
  | error e => simp [hfp, abortW] at hr
  | ok p =>
    simp only [hfp] at hr ⊢
    by_cases h1 : p = []
    · simp [h1, abortW] at hr
    · simp only [h1, if_false, reduceIte] at hr ⊢
      cases hrz : readZipEntry ar p with
      | error e => simp [hrz, abortW] at hr
      | ok opfContent =>
        simp only [hrz] at hr ⊢
        cases hdo : dOPF opfContent with
        | error e => simp [hdo, abortW] at hr
        | ok opf =>
          simp only [hdo] at hr ⊢
          cases hrc : rewriteOPFCoverReference opfContent
              (relativeHrefFromOPFDir (dirPath p)
                (normalizeZipPath (joinPath (dirPath p) (str "cover.jpg")))) with
          | error e => simp [hrc, abortW] at hr
          | ok updOPF =>
            simp only [hrc] at hr ⊢
            cases hrs : readZipEntry ar (normalizeZipPath sel) with
            | error e => simp [hrs, abortW] at hr
            | ok raw =>
              simp only [hrs] at hr ⊢
              cases hre : reenc raw with
              | none => simp [hre, abortW] at hr
              | some rewritten =>
                simp only [hre] at hr ⊢
                by_cases h2 : fs.createTempFail
                · simp [h2, abortW] at hr
                · simp only [h2, if_false, reduceIte] at hr ⊢
                  cases hs : streamLoopCover fs p
                      (normalizeZipPath (joinPath (dirPath p) (str "cover.jpg")))
                      ((collectExistingCoverPaths opf (dirPath p)).filter
                        (fun q => !(q == normalizeZipPath
                          (joinPath (dirPath p) (str "cover.jpg")))))
                      updOPF rewritten 0 ar with
                  | error e => simp [hs, abortW] at hr
                  | ok w =>
                    simp only [hs] at hr ⊢
                    have hw := streamLoopCover_ok fs p _ _ updOPF rewritten 0 ar w hs
                    by_cases h3 : w.2.1 = true
                    · simp only [h3, Bool.not_true, Bool.false_eq_true, if_false,
                        reduceIte] at hr ⊢
                      by_cases h4 : (!w.2.2 && fs.appendFail) = true
                      · simp [h4, abortW] at hr
                      · simp only [h4, Bool.false_eq_true, if_false, reduceIte] at hr ⊢
                        by_cases h5 : fs.writerCloseFail
                        · simp [h5, abortW] at hr
                        · simp only [h5, if_false, reduceIte] at hr ⊢
                          by_cases h6 : fs.tempCloseFail
                          · simp [h6, abortW] at hr
                          · simp only [h6, if_false, reduceIte] at hr ⊢
                            by_cases h7 : fs.renameFail
                            · simp [h7, abortW] at hr
                            · simp only [h7, if_false, reduceIte] at hr ⊢
                              refine ⟨p, opfContent, opf, updOPF, raw, rewritten,
                                rfl, h1, hrz, hdo, ?_, rfl, hre, ?_, rfl⟩
                              · rw [← hrc]
                                rfl
                              · simp only [canonOf, removeSetOf, hadCanonicalCover]
                                rw [← hw.2.2, hw.1]
                                cases hv : w.2.2 with
                                | true => simp
                                | false => simp
                    · simp only [Bool.not_eq_true] at h3
                      simp [h3, abortW] at hr

theorem writeCover_not_renamed (dec : ContainerDec) (dOPF : OPFDec)
    (reenc : Str → Option Str) (fs : FailSpec) (ar : List ZEntry) (sel : Str)
    (zipOk : Bool) :
    (WriteCoverToEPUB dec dOPF reenc fs ar sel zipOk).renamed = false →
      (WriteCoverToEPUB dec dOPF reenc fs ar sel zipOk).finalFile = ar ∧
        (WriteCoverToEPUB dec dOPF reenc fs ar sel zipOk).tempRemains = false := by
  simp only [WriteCoverToEPUB]
  repeat' split
  all_goals intro h
  all_goals first
  | exact ⟨rfl, rfl⟩
  | exact absurd h (by simp)

theorem writeCover_error_not_renamed (dec : ContainerDec) (dOPF : OPFDec)
    (reenc : Str → Option Str) (fs : FailSpec) (ar : List ZEntry) (sel : Str)
    (zipOk : Bool) (e : GErr) :
    (WriteCoverToEPUB dec dOPF reenc fs ar sel zipOk).result = .error e →
      (WriteCoverToEPUB dec dOPF reenc fs ar sel zipOk).renamed = false := by
  simp only [WriteCoverToEPUB]
  repeat' split
  all_goals intro h
  all_goals first
  | rfl
  | simp at h

theorem length_filterMap_isNone (g : α → Option β) (l : List α) :
    (l.filterMap g).length + (l.filter (fun a => (g a).isNone)).length = l.length := by
  induction l with
  | nil => rfl
  | cons a l ih =>
    cases h : g a with
    | none =>
      have h1 : List.filterMap g (a :: l) = List.filterMap g l := by
        simp [List.filterMap_cons, h]
      have h2 : List.filter (fun a => (g a).isNone) (a :: l)
          = a :: List.filter (fun a => (g a).isNone) l := by
        simp [List.filter_cons, h]
      rw [h1, h2]
      simp only [List.length_cons]
      omega
    | some b =>
      have h1 : List.filterMap g (a :: l) = b :: List.filterMap g l := by
        simp [List.filterMap_cons, h]
      have h2 : List.filter (fun a => (g a).isNone) (a :: l)
          = List.filter (fun a => (g a).isNone) l := by
        simp [List.filter_cons, h]
      rw [h1, h2]
      simp only [List.length_cons]
      omega

/-- C2: frame effect of both writers.  A successful metadata write maps
every entry through `replaceOPFEntry` (only entries named exactly like the
package document change; the count is unchanged).  A successful cover write
maps every streamed entry through `coverStreamFun` (only the package
document, the canonical cover entry and the prior-cover entries change or
disappear) and appends at most the one canonical cover entry, so the entry
count changes by at most the number of cover entries added or removed. -/
theorem c2_archive_frame :
    (∀ (dec : ContainerDec) (fs : FailSpec) (ar : List ZEntry)
        (u : MetadataUpdate) (p : Str) (m : EPUBMetadata),
        findOPFPath dec ar = .ok p →
        (UpdateEPUBMetadata dec fs ar u true).result = .ok m →
          (UpdateEPUBMetadata dec fs ar u true).finalFile
              = ar.map (replaceOPFEntry p u) ∧
            (UpdateEPUBMetadata dec fs ar u true).finalFile.length = ar.length) ∧
    (∀ (dec : ContainerDec) (dOPF : OPFDec) (reenc : Str → Option Str)
        (fs : FailSpec) (ar : List ZEntry) (sel : Str),
        (WriteCoverToEPUB dec dOPF reenc fs ar sel true).result = .ok () →
          ∃ p opf updOPF rewritten,
            findOPFPath dec ar = .ok p ∧
            (WriteCoverToEPUB dec dOPF reenc fs ar sel true).finalFile
              = ar.filterMap (coverStreamFun p (canonOf p) (removeSetOf opf p)
                  updOPF rewritten)
                ++ (if hadCanonicalCover ar p then [] else [⟨canonOf p, rewritten⟩]) ∧
            ar.length ≤ (WriteCoverToEPUB dec dOPF reenc fs ar sel true).finalFile.length
              + (ar.filter (fun f => (coverStreamFun p (canonOf p) (removeSetOf opf p)
                  updOPF rewritten f).isNone)).length ∧
            (WriteCoverToEPUB dec dOPF reenc fs ar sel true).finalFile.length
              + (ar.filter (fun f => (coverStreamFun p (canonOf p) (removeSetOf opf p)
                  updOPF rewritten f).isNone)).length ≤ ar.length + 1) := by
  constructor
  · intro dec fs ar u p m hp hr
    obtain ⟨p', hp', hne, hff, hrn⟩ := updateMeta_ok_shape dec fs ar u m hr
    rw [hp] at hp'
    injection hp' with hpe
    subst hpe
    exact ⟨hff, by rw [hff]; simp⟩
  · intro dec dOPF reenc fs ar sel hr
    obtain ⟨p, oc, opf, uo, raw, rw', hfp, hne, hrz, hdo, hrc, hrs, hre, hff, hrn⟩ :=
      writeCover_ok_shape dec dOPF reenc fs ar sel hr
    refine ⟨p, opf, uo, rw', hfp, hff, ?_, ?_⟩
    · have hlen := length_filterMap_isNone
        (coverStreamFun p (canonOf p) (removeSetOf opf p) uo rw') ar
      rw [hff]
      cases hc : hadCanonicalCover ar p <;> simp [List.length_append] <;> omega
    · have hlen := length_filterMap_isNone
        (coverStreamFun p (canonOf p) (removeSetOf opf p) uo rw') ar
      rw [hff]
      cases hc : hadCanonicalCover ar p <;> simp [List.length_append] <;> omega

/-- Witness for `c2_archive_frame`: both conjuncts applied to concrete
archives (a metadata write and a cover write). -/
theorem c2_archive_frame_witness :
    ((UpdateEPUBMetadata cDec noFail cMetaArchive c2Update true).finalFile
        = cMetaArchive.map (replaceOPFEntry (str "OEBPS/content.opf") c2Update) ∧
      (UpdateEPUBMetadata cDec noFail cMetaArchive c2Update true).finalFile.length
        = cMetaArchive.length) ∧
    (∃ p opf updOPF rewritten,
      findOPFPath cDec cCoverArchive = .ok p ∧
      (WriteCoverToEPUB cDec cDecOPF cReenc noFail cCoverArchive
          (str "OEBPS/old.png") true).finalFile
        = cCoverArchive.filterMap (coverStreamFun p (canonOf p)
            (removeSetOf opf p) updOPF rewritten)
          ++ (if hadCanonicalCover cCoverArchive p then []
              else [⟨canonOf p, rewritten⟩]) ∧
      cCoverArchive.length ≤ (WriteCoverToEPUB cDec cDecOPF cReenc noFail
          cCoverArchive (str "OEBPS/old.png") true).finalFile.length
        + (cCoverArchive.filter (fun f => (coverStreamFun p (canonOf p)
            (removeSetOf opf p) updOPF rewritten f).isNone)).length ∧
      (WriteCoverToEPUB cDec cDecOPF cReenc noFail cCoverArchive
          (str "OEBPS/old.png") true).finalFile.length
        + (cCoverArchive.filter (fun f => (coverStreamFun p (canonOf p)
            (removeSetOf opf p) updOPF rewritten f).isNone)).length
        ≤ cCoverArchive.length + 1) := by
  refine ⟨c2_archive_frame.1 cDec noFail cMetaArchive c2Update
      (str "OEBPS/content.opf") c2Meta (by decide) (by decide),
    c2_archive_frame.2 cDec cDecOPF cReenc noFail cCoverArchive
      (str "OEBPS/old.png") (by decide)⟩

/-- C3: if an error occurs while streaming entries to the temporary archive
(header creation, entry open, copy/write, or the metadata-mutation step),
the operation returns that error, the original file is untouched, no
temporary file remains, and no rename happened — for both the metadata
writer and the cover writer. -/
theorem c3_streaming_atomicity :
    (∀ (dec : ContainerDec) (fs : FailSpec) (ar : List ZEntry)
        (u : MetadataUpdate) (zipOk : Bool) (e : GErr),
        (UpdateEPUBMetadata dec fs ar u zipOk).result = .error e →
        isStreamingErr e = true →
          (UpdateEPUBMetadata dec fs ar u zipOk).finalFile = ar ∧
          (UpdateEPUBMetadata dec fs ar u zipOk).tempRemains = false ∧
          (UpdateEPUBMetadata dec fs ar u zipOk).renamed = false) ∧
    (∀ (dec : ContainerDec) (dOPF : OPFDec) (reenc : Str → Option Str)
        (fs : FailSpec) (ar : List ZEntry) (sel : Str) (zipOk : Bool) (e : GErr),
        (WriteCoverToEPUB dec dOPF reenc fs ar sel zipOk).result = .error e →
        isStreamingErr e = true →
          (WriteCoverToEPUB dec dOPF reenc fs ar sel zipOk).finalFile = ar ∧
          (WriteCoverToEPUB dec dOPF reenc fs ar sel zipOk).tempRemains = false ∧
          (WriteCoverToEPUB dec dOPF reenc fs ar sel zipOk).renamed = false) := by
  constructor
  · intro dec fs ar u zipOk e hr hstream
    have hnotre : isRereadErr e = false := by
      cases e <;> simp_all [isStreamingErr, isRereadErr]
    have hrn := updateMeta_streaming_not_renamed dec fs ar u zipOk e hr hnotre
    have hq := updateMeta_not_renamed dec fs ar u zipOk hrn
    exact ⟨hq.1, hq.2, hrn⟩
  · intro dec dOPF reenc fs ar sel zipOk e hr _
    have hrn := writeCover_error_not_renamed dec dOPF reenc fs ar sel zipOk e hr
    have hq := writeCover_not_renamed dec dOPF reenc fs ar sel zipOk hrn
    exact ⟨hq.1, hq.2, hrn⟩

/-- Witness for `c3_streaming_atomicity`: both conjuncts applied to
concrete archives with a copy failure injected at the second streamed
entry. -/
theorem c3_streaming_atomicity_witness :
    ((UpdateEPUBMetadata cDec cFailCopy1 cMetaArchive c2Update true).finalFile
        = cMetaArchive ∧
      (UpdateEPUBMetadata cDec cFailCopy1 cMetaArchive c2Update true).tempRemains = false ∧
      (UpdateEPUBMetadata cDec cFailCopy1 cMetaArchive c2Update true).renamed = false) ∧
    ((WriteCoverToEPUB cDec cDecOPF cReenc cFailCopy1 cCoverArchive
        (str "OEBPS/old.png") true).finalFile = cCoverArchive ∧
      (WriteCoverToEPUB cDec cDecOPF cReenc cFailCopy1 cCoverArchive
        (str "OEBPS/old.png") true).tempRemains = false ∧
      (WriteCoverToEPUB cDec cDecOPF cReenc cFailCopy1 cCoverArchive
        (str "OEBPS/old.png") true).renamed = false) := by
  refine ⟨c3_streaming_atomicity.1 cDec cFailCopy1 cMetaArchive c2Update true
      .ioCopy (by decide) (by decide),
    c3_streaming_atomicity.2 cDec cDecOPF cReenc cFailCopy1 cCoverArchive
      (str "OEBPS/old.png") true .ioCopy (by decide) (by decide)⟩

/-- C10 counterexample: when the container rootfile path names an entry
absent from the archive, `UpdateEPUBMetadata` streams every entry
unchanged, renames the temp file over the original, and only then fails in
the post-rename re-read — so the call returns an error although the file
has been replaced (the rewritten zip is a re-encode, not guaranteed
byte-identical). -/
theorem c10_counterexample :
    (UpdateEPUBMetadata c10Dec noFail c10Archive {} true).result
        = .error (.reread .opfNotFound) ∧
      (UpdateEPUBMetadata c10Dec noFail c10Archive {} true).renamed = true := by
  refine ⟨by decide, by decide⟩

theorem findOPFPath_error (dec : ContainerDec) (files : List ZEntry) (e : GErr) :
    findOPFPath dec files = .error e → e = .containerDecode := by
  unfold findOPFPath
  repeat' split
  all_goals intro h
  all_goals first
  | (cases h; rfl)
  | simp at h

theorem metadataInnerBlock_error (content : Str) (e : GErr) :
    metadataInnerBlock content = .error e → e = .metadataTagNotFound := by
  unfold metadataInnerBlock
  repeat' split
  all_goals intro h
  all_goals first
  | (cases h; rfl)
  | simp at h

theorem rewriteOPFMetadata_error (c : Str) (u : MetadataUpdate) (e : GErr) :
    rewriteOPFMetadata c u = .error e → e = .metadataTagNotFound := by
  unfold rewriteOPFMetadata
  split
  · rename_i e' heq
    intro h
    cases h
    exact metadataInnerBlock_error c _ heq
  · rename_i m heq
    intro h
    have h' : (if (applyFieldMutations m.inner u).2 = true then
        Except.ok (m.pre ++ (applyFieldMutations m.inner u).1 ++ m.post)
        else (Except.error errMetadataTagNotFound : Except GErr Str))
        = Except.error e := h
    by_cases hw : (applyFieldMutations m.inner u).2 = true
    · rw [if_pos hw] at h'
      simp at h'
    · rw [if_neg hw] at h'
      cases h'
      rfl

theorem streamLoopMeta_error (fs : FailSpec) (p : Str) (u : MetadataUpdate) :
    ∀ (i : Nat) (ar : List ZEntry) (e : GErr),
      streamLoopMeta fs p u i ar = .error e → isRereadErr e = false := by
  intro i ar
  induction ar generalizing i with
  | nil =>
    intro e h
    simp [streamLoopMeta] at h
  | cons f rest ih =>
    intro e h
    simp only [streamLoopMeta] at h
    by_cases h1 : fs.createHeaderFail i
    · simp [h1] at h
      subst h
      rfl
    · by_cases h2 : fs.entryOpenFail i
      · simp [h1, h2] at h
        subst h
        rfl
      · by_cases h3 : (f.name == p) = true
        · by_cases h4 : fs.copyFail i
          · simp [h1, h2, h3, h4] at h
            subst h
            rfl
          · cases hrw : rewriteOPFMetadata f.data u with
            | error e' =>
              simp [h1, h2, h3, h4, hrw] at h
              subst h
              rw [rewriteOPFMetadata_error f.data u e' hrw]
              rfl
            | ok newContent =>
              cases hs : streamLoopMeta fs p u (i + 1) rest with
              | error e'' =>
                simp [h1, h2, h3, h4, hrw, hs, Except.map] at h
                subst h
                exact ih (i + 1) e'' hs
              | ok tail =>
                simp [h1, h2, h3, h4, hrw, hs, Except.map] at h
        · by_cases h4 : fs.copyFail i
          · simp [h1, h2, h3, h4] at h
            subst h
            rfl
          · cases hs : streamLoopMeta fs p u (i + 1) rest with
            | error e'' =>
              simp [h1, h2, h3, h4, hs, Except.map] at h
              subst h
              exact ih (i + 1) e'' hs
            | ok tail =>
              simp [h1, h2, h3, h4, hs, Except.map] at h

theorem updateMeta_reread_renamed (dec : ContainerDec) (fs : FailSpec)
    (ar : List ZEntry) (u : MetadataUpdate) (zipOk : Bool) (e : GErr) :
    (UpdateEPUBMetadata dec fs ar u zipOk).result = .error e →
      isRereadErr e = true →
        (UpdateEPUBMetadata dec fs ar u zipOk).renamed = true := by
  intro hr hre
  unfold UpdateEPUBMetadata at hr ⊢
  by_cases hz : (!zipOk) = true
  · rw [if_pos hz] at hr ⊢
    injection hr with h2
    subst h2
    simp [isRereadErr] at hre
  · rw [if_neg hz] at hr ⊢
    cases hfp : findOPFPath dec ar with
    | error e' =>
      simp only [hfp, abortW] at hr ⊢
      injection hr with h2
      subst h2
      rw [findOPFPath_error dec ar _ hfp] at hre
      simp [isRereadErr] at hre
    | ok p =>
      simp only [hfp] at hr ⊢
      by_cases h1 : p = []
      · rw [if_pos h1] at hr ⊢
        injection hr with h2
        subst h2
        simp [isRereadErr] at hre
      · rw [if_neg h1] at hr ⊢
        by_cases h2 : fs.createTempFail = true
        · rw [if_pos h2] at hr ⊢
          injection hr with h3
          subst h3
          simp [isRereadErr] at hre
        · rw [if_neg h2] at hr ⊢
          cases hs : streamLoopMeta fs p u 0 ar with
          | error e' =>
            simp only [hs, abortW] at hr ⊢
            injection hr with h3
            subst h3
            rw [streamLoopMeta_error fs p u 0 ar _ hs] at hre
            simp at hre
          | ok written =>
            simp only [hs] at hr ⊢
            by_cases h3 : fs.writerCloseFail = true
            · rw [if_pos h3] at hr ⊢
              injection hr with h4
              subst h4
              simp [isRereadErr] at hre
            · rw [if_neg h3] at hr ⊢
              by_cases h4 : fs.tempCloseFail = true
              · rw [if_pos h4] at hr ⊢
                injection hr with h5
                subst h5
                simp [isRereadErr] at hre
              · rw [if_neg h4] at hr ⊢
                by_cases h5 : fs.renameFail = true
                · rw [if_pos h5] at hr ⊢
                  injection hr with h6
                  subst h6
                  simp [isRereadErr] at hre
                · rw [if_neg h5] at hr ⊢
                  cases hx : ExtractLiveMetadata dec written with
                  | error e'' => rfl
                  | ok m =>
                    simp only [hx] at hr
                    simp at hr

/-- C10 (amended): every error raised before the rename (zip open, locate,
temp creation, streaming, closes, rename itself) leaves the EPUB unchanged
with no temp file and no rename; but an error from the post-rename
metadata re-read — e.g. when the container rootfile path names an absent
entry — is returned with the file already replaced. -/
theorem c10_error_file_untouched :
    (∀ (dec : ContainerDec) (fs : FailSpec) (ar : List ZEntry)
        (u : MetadataUpdate) (zipOk : Bool) (e : GErr),
        (UpdateEPUBMetadata dec fs ar u zipOk).result = .error e →
        isRereadErr e = false →
          (UpdateEPUBMetadata dec fs ar u zipOk).finalFile = ar ∧
          (UpdateEPUBMetadata dec fs ar u zipOk).tempRemains = false ∧
          (UpdateEPUBMetadata dec fs ar u zipOk).renamed = false) ∧
    (∀ (dec : ContainerDec) (fs : FailSpec) (ar : List ZEntry)
        (u : MetadataUpdate) (zipOk : Bool) (e : GErr),
        (UpdateEPUBMetadata dec fs ar u zipOk).result = .error e →
        isRereadErr e = true →
          (UpdateEPUBMetadata dec fs ar u zipOk).renamed = true) := by
  constructor
  · intro dec fs ar u zipOk e hr hnotre
    have hrn := updateMeta_streaming_not_renamed dec fs ar u zipOk e hr hnotre
    have hq := updateMeta_not_renamed dec fs ar u zipOk hrn
    exact ⟨hq.1, hq.2, hrn⟩
  · intro dec fs ar u zipOk e hr hre
    exact updateMeta_reread_renamed dec fs ar u zipOk e hr hre

/-- Witness for `c10_error_file_untouched`: a pre-rename failure leaves the
concrete archive unchanged, and the absent-entry scenario errors with the
rename already done. -/
theorem c10_error_file_untouched_witness :
    ((UpdateEPUBMetadata cDec cFailCopy1 cMetaArchive c2Update true).finalFile
        = cMetaArchive ∧
      (UpdateEPUBMetadata cDec cFailCopy1 cMetaArchive c2Update true).tempRemains = false ∧
      (UpdateEPUBMetadata cDec cFailCopy1 cMetaArchive c2Update true).renamed = false) ∧
    (UpdateEPUBMetadata c10Dec noFail c10Archive {} true).renamed = true := by
  refine ⟨c10_error_file_untouched.1 cDec cFailCopy1 cMetaArchive c2Update true
      .ioCopy (by decide) (by decide),
    c10_error_file_untouched.2 c10Dec noFail c10Archive {} true
      (.reread .opfNotFound) (by decide) (by decide)⟩

theorem listCoverLoop_eq (files : List ZEntry) (dCfg : ImgCfgDec)
    (opfDir cur : Str) (manifest : List ManifestItem) :
    listCoverLoop files dCfg opfDir cur manifest =
      (coverCandidates files dCfg opfDir cur manifest,
       (coverCandidates files dCfg opfDir cur manifest).filter suitOpt) := by
  induction manifest with
  | nil => rfl
  | cons item rest ih =>
    simp only [listCoverLoop, ih, coverCandidates, List.filterMap_cons]
    cases h : coverOptionOf files dCfg opfDir cur item with
    | none => simp
    | some opt =>
      by_cases hs : isSuitableCoverDimension opt.width opt.height = true
      · simp [List.filter_cons, hs, suitOpt]
      · simp only [Bool.not_eq_true] at hs
        simp [List.filter_cons, hs, suitOpt]

/-- C8: the portrait filter is exactly the width/height/aspect-ratio test;
on the success path `ListCoverOptions` returns the filtered candidate set
when non-empty and the unfiltered set otherwise (so the result is empty
only when no manifest image decodes); concretely, a manifest with a 100x100
and a 300x450 image yields only the 300x450 candidate, and a manifest with
only the 100x100 image still yields it. -/
theorem c8_suitability_filter :
    (∀ w h : Nat, isSuitableCoverDimension w h = true ↔
        (240 ≤ w ∧ 320 ≤ h ∧ 55 * h ≤ 100 * w ∧ 100 * w ≤ 85 * h)) ∧
    (∀ (dec : ContainerDec) (dOPF : OPFDec) (dCfg : ImgCfgDec)
        (files : List ZEntry) (opfPath opfContent : Str) (opf : OPFDoc),
        findOPFPath dec files = .ok opfPath →
        opfPath ≠ [] →
        readZipEntry files opfPath = .ok opfContent →
        dOPF opfContent = .ok opf →
          ListCoverOptions dec dOPF dCfg files =
            .ok (let cands := coverCandidates files dCfg (dirPath opfPath)
                   (detectCurrentCoverZipPath opf (dirPath opfPath)) opf.manifest
                 if cands.filter suitOpt = [] then cands else cands.filter suitOpt)) ∧
    (ListCoverOptions c8Dec c8DecOPFBoth c8Cfg c8FilesBoth =
        .ok [⟨str "img2.jpg", str "img2.jpg", str "image/jpeg", 300, 450, false⟩]) ∧
    (ListCoverOptions c8Dec c8DecOPFSmall c8Cfg c8FilesSmall =
        .ok [⟨str "img1.jpg", str "img1.jpg", str "image/jpeg", 100, 100, false⟩]) := by
  refine ⟨?_, ?_, by decide, by decide⟩
  · intro w h
    unfold isSuitableCoverDimension
    by_cases h1 : w < 240 ∨ h < 320
    · have : (decide (w < 240) || decide (h < 320)) = true := by
        rcases h1 with h1 | h1 <;> simp [h1]
      simp only [this, if_true, reduceIte]
      constructor
      · intro hfalse
        exact absurd hfalse (by simp)
      · intro hyp
        omega
    · push_neg at h1
      have : (decide (w < 240) || decide (h < 320)) = false := by
        simp
        omega
      simp only [this, Bool.false_eq_true, if_false, reduceIte]
      simp only [Bool.and_eq_true, decide_eq_true_eq]
      constructor
      · intro hyp
        exact ⟨h1.1, h1.2, hyp.1, hyp.2⟩
      · intro hyp
        exact ⟨hyp.2.2.1, hyp.2.2.2⟩
  · intro dec dOPF dCfg files opfPath opfContent opf h1 h2 h3 h4
    simp only [ListCoverOptions, h1, h2, h3, h4, listCoverLoop_eq, if_false, reduceIte]
    by_cases he : (coverCandidates files dCfg (dirPath opfPath)
        (detectCurrentCoverZipPath opf (dirPath opfPath)) opf.manifest).filter suitOpt = []
    · simp [he]
    · have : ((coverCandidates files dCfg (dirPath opfPath)
          (detectCurrentCoverZipPath opf (dirPath opfPath)) opf.manifest).filter
            suitOpt).length > 0 := by
        cases hl : (coverCandidates files dCfg (dirPath opfPath)
            (detectCurrentCoverZipPath opf (dirPath opfPath)) opf.manifest).filter
              suitOpt with
        | nil => exact absurd hl he
        | cons a l => simp
      simp [this, he]

/-- Witness for `c8_suitability_filter`: its success-path conjunct applied
to the concrete two-image archive. -/
theorem c8_suitability_filter_witness :
    ListCoverOptions c8Dec c8DecOPFBoth c8Cfg c8FilesBoth =
      .ok (let cands := coverCandidates c8FilesBoth c8Cfg
             (dirPath (str "content.opf"))
             (detectCurrentCoverZipPath c8OPFBoth (dirPath (str "content.opf")))
             c8OPFBoth.manifest
           if cands.filter suitOpt = [] then cands else cands.filter suitOpt) ∧
    (isSuitableCoverDimension 300 450 = true ↔
      (240 ≤ 300 ∧ 320 ≤ 450 ∧ 55 * 450 ≤ 100 * 300 ∧ 100 * 300 ≤ 85 * 450)) := by
  refine ⟨c8_suitability_filter.2.1 c8Dec c8DecOPFBoth c8Cfg c8FilesBoth
      (str "content.opf") (str "OPF") c8OPFBoth (by decide) (by decide)
      (by decide) (by decide),
    c8_suitability_filter.1 300 450⟩

/-- C5 counterexample: a metadata update that changes nothing fails with
the very same error value (`errMetadataTagNotFound`, "metadata section not
found in OPF") that a document without a metadata block produces, so the
"no changes applied" outcome is not a distinct outward signal. -/
theorem c5_counterexample :
    rewriteOPFMetadata c5DocWithMeta {} = .error errMetadataTagNotFound ∧
      rewriteOPFMetadata c5DocNoMeta {} = .error errMetadataTagNotFound := by
  refine ⟨by decide, by decide⟩

/-- C5 (amended): when no field-mutation primitive reports a change the
update does fail, but with the reused sentinel `errMetadataTagNotFound` —
the same error value raised when the metadata section is missing — so the
two conditions are indistinguishable to the caller. -/
theorem c5_no_changes_sentinel :
    (∀ (doc : Str) (u : MetadataUpdate) (m : ElemMatch),
        metadataInnerBlock doc = .ok m →
          (applyFieldMutations m.inner u).2 = false →
            rewriteOPFMetadata doc u = .error errMetadataTagNotFound) ∧
    (∀ (doc : Str) (u : MetadataUpdate),
        metadataInnerBlock doc = .error errMetadataTagNotFound →
          rewriteOPFMetadata doc u = .error errMetadataTagNotFound) := by
  constructor
  · intro doc u m hm hc
    simp [rewriteOPFMetadata, hm, hc]
  · intro doc u hm
    simp [rewriteOPFMetadata, hm]

/-- Witness for `c5_no_changes_sentinel`: both conjuncts applied at the
concrete documents of the counterexample. -/
theorem c5_no_changes_sentinel_witness :
    rewriteOPFMetadata c5DocWithMeta {} = .error errMetadataTagNotFound ∧
      rewriteOPFMetadata c5DocNoMeta {} = .error errMetadataTagNotFound := by
  refine ⟨c5_no_changes_sentinel.1 c5DocWithMeta {}
      ⟨str "<package><metadata>", [], str "just text", str "</metadata></package>"⟩
      (by decide) (by decide),
    c5_no_changes_sentinel.2 c5DocNoMeta {} (by decide)⟩

/-- C6 counterexample: on `c6Block` the code returns "12345", while the
claim as stated selects the empty-valued ISBN-attributed first match. -/
theorem c6_counterexample :
    extractPreferredIdentifier c6Block = str "12345" ∧
      claimedPreferredIdentifier c6Block = [] ∧
      extractPreferredIdentifier c6Block ≠ claimedPreferredIdentifier c6Block := by
  refine ⟨by decide, by decide, by decide⟩

/-- C4 counterexample: with a malformed `container.xml` the locator returns
a decode error and does not fall back to the present `book.opf` entry; with
a container decoding to zero rootfiles it reports "not found" (empty path),
again without falling back.  Both refute the claimed fallback behaviour. -/
theorem c4_counterexample :
    findOPFPath c4Decode c4FilesMalformed = .error .containerDecode ∧
      claimedOPFPath c4Decode c4FilesMalformed = .ok (str "book.opf") ∧
      findOPFPath c4Decode c4FilesEmpty = .ok [] ∧
      claimedOPFPath c4Decode c4FilesEmpty = .ok (str "book.opf") := by
  refine ⟨by decide, by decide, by decide, by decide⟩

/-- C4 (amended): the `.opf`-suffix fallback runs only when the
`META-INF/container.xml` entry is absent; a malformed container yields a
decode error (distinct from the empty "package not found" path); a
container with zero rootfiles yields the empty path without fallback. -/
theorem c4_container_locator :
    (∀ (dec : ContainerDec) (files : List ZEntry),
        files.find? isContainerEntry = none →
          findOPFPath dec files = fallbackOPFPath files) ∧
    (∀ (dec : ContainerDec) (files : List ZEntry) (f : ZEntry),
        files.find? isContainerEntry = some f →
          dec f.data = .error () →
            findOPFPath dec files = .error .containerDecode) ∧
    (∀ (dec : ContainerDec) (files : List ZEntry) (f : ZEntry),
        files.find? isContainerEntry = some f →
          dec f.data = .ok [] →
            findOPFPath dec files = .ok []) := by
  refine ⟨?_, ?_, ?_⟩
  · intro dec files h
    simp [findOPFPath, fallbackOPFPath, h]
  · intro dec files f h hd
    simp [findOPFPath, h, hd]
  · intro dec files f h hd
    simp [findOPFPath, h, hd]

/-- Witness for `c4_container_locator`: each conjunct applied at a concrete
archive. -/
theorem c4_container_locator_witness :
    findOPFPath c4Decode [⟨str "b.OPF", str "x"⟩]
        = fallbackOPFPath [⟨str "b.OPF", str "x"⟩] ∧
      findOPFPath c4Decode c4FilesMalformed = .error .containerDecode ∧
      findOPFPath c4Decode c4FilesEmpty = .ok [] := by
  refine ⟨c4_container_locator.1 c4Decode _ (by decide),
    c4_container_locator.2.1 c4Decode _ ⟨str "META-INF/container.xml", str "BAD"⟩
      (by decide) (by decide),
    c4_container_locator.2.2 c4Decode _ ⟨str "META-INF/container.xml", str "EMPTY"⟩
      (by decide) (by decide)⟩

/-- C6 (amended): the identifier returned by the field reader is the first
identifier/dc:identifier match, in traversal order, with a non-empty
cleaned value whose attributes or value contain "isbn" case-insensitively;
if none, the first match with a non-empty value; else "". -/
theorem c6_identifier_preference (metadata : Str) :
    extractPreferredIdentifier metadata = preferredIdentifierSpec metadata := by
  unfold extractPreferredIdentifier preferredIdentifierSpec
  rw [prefIdLoop_spec]
  simp

end Gopds
